import Mathlib

/-!
Verification of the auto-drive execution core of the `beacon-code` repository
against its natural-language specification.

The Rust sources are embedded shallowly:
* pure functions become Lean functions;
* `HashMap`s become association lists or update functions (iteration order is
  the list order of the embedding; no verified property depends on it);
* `Instant` timestamps become `Nat` values passed explicitly to every
  operation that reads the clock;
* `i32`/`i64` arithmetic is `Int` with explicit saturation helpers mirroring
  `saturating_add`/`saturating_sub`;
* fallible code returns `Except`/`Option`.
-/

namespace AutoDrive

/-! ## Machine-integer helpers (Rust `i32` / `i64` saturating arithmetic) -/

def I32_MAX : Int := 2 ^ 31 - 1

def I32_MIN : Int := -(2 ^ 31)

def I64_MAX : Int := 2 ^ 63 - 1

def I64_MIN : Int := -(2 ^ 63)

/-- Rust `i32::saturating_add`. -/
def satAdd32 (a b : Int) : Int := min (max (a + b) I32_MIN) I32_MAX

/-- Rust `i32::saturating_sub`. -/
def satSub32 (a b : Int) : Int := min (max (a - b) I32_MIN) I32_MAX

/-- Rust `i64::saturating_add`. -/
def satAdd64 (a b : Int) : Int := min (max (a + b) I64_MIN) I64_MAX

/-- Rust `i64::saturating_sub`. -/
def satSub64 (a b : Int) : Int := min (max (a - b) I64_MIN) I64_MAX

/-! ## Backlog data model (`code-rs/code-auto-drive-core/src/backlog.rs`) -/

inductive TddMode
  | Strict
  | Relaxed
deriving DecidableEq, Repr

/-- `backlog.rs`: test requirement lists of a feature. -/
structure TestRequirements where
  unit : List String
  e2e : List String
deriving DecidableEq, Repr

/-- `backlog.rs`: verification outcome stored on a feature.
`timestamp` is produced from the wall clock in the source
(`Utc::now().to_rfc3339()`); the embedding receives it as the `now`
argument of the producing operation. -/
structure VerificationResult where
  verified : Bool
  tests_run : List String
  summary : String
  timestamp : String
  reason : Option String
deriving DecidableEq, Repr

/-- `backlog.rs`: a feature record. -/
structure Feature where
  id : String
  description : String
  module : String
  priority : String
  status : String
  acceptance : List String
  test_requirements : TestRequirements
  tags : List String
  version : Int
  tdd_mode : TddMode
  verification : Option VerificationResult
deriving DecidableEq, Repr

def Feature.mk0 (id : String) (tdd : TddMode) (tr : TestRequirements) : Feature :=
  { id := id, description := "", module := "", priority := "", status := "",
    acceptance := [], test_requirements := tr, tags := [], version := 1,
    tdd_mode := tdd, verification := none }

/-! ## Selective test planner (`code-rs/code-auto-drive-core/src/selective_tests.rs`) -/

structure TestPlan where
  quick : List String
  full : List String
  missing : List String
deriving DecidableEq, Repr

def TestPlan.empty : TestPlan := ⟨[], [], []⟩

/-- `selective_tests.rs`: a single executed test command's result. -/
structure TestCommandResult where
  command : String
  passed : Bool
  output : Option String
deriving DecidableEq, Repr

/-- The per-feature `missing` condition of `generate_quick_plan_with_sandbox`,
written exactly as in the source:
`strict_without_unit && (e2e_only && sandbox || e2e.is_empty())` with
`strict_without_unit = (tdd_mode == Strict && unit.is_empty())` and
`e2e_only = (unit.is_empty() && !e2e.is_empty())`. -/
def missingFlag (sandbox : Bool) (feature : Feature) : Bool :=
  decide ((feature.tdd_mode = TddMode.Strict ∧ feature.test_requirements.unit = []) ∧
    ((feature.test_requirements.unit = [] ∧ feature.test_requirements.e2e ≠ []) ∧ sandbox = true ∨
      feature.test_requirements.e2e = []))

/-- Body of the per-feature loop of `generate_quick_plan_with_sandbox`. -/
def planStep (sandbox : Bool) (plan : TestPlan) (feature : Feature) : TestPlan :=
  let plan :=
    if missingFlag sandbox feature
    then { plan with missing := plan.missing ++ [feature.id] }
    else plan
  let plan := { plan with quick := plan.quick ++ feature.test_requirements.unit }
  if sandbox = false
  then { plan with full := plan.full ++ feature.test_requirements.e2e }
  else plan

/-- `selective_tests.rs::generate_quick_plan_with_sandbox`. -/
def generate_quick_plan_with_sandbox (affected : List Feature) (sandbox : Bool) : TestPlan :=
  let plan := affected.foldl (planStep sandbox) TestPlan.empty
  if plan.full = [] ∧ sandbox = false
  then { plan with full := plan.full ++ ["cargo test --all-features"] }
  else plan

/-- The "strict without runnable tests" condition, in the words of the claim:
tdd_mode is Strict, the unit list is empty, and (the e2e list is empty, or
sandbox is on and the feature has only e2e tests). -/
def strict_without_runnable (sandbox : Bool) (f : Feature) : Bool :=
  decide (f.tdd_mode = TddMode.Strict ∧ f.test_requirements.unit = [] ∧
    (f.test_requirements.e2e = [] ∨ (sandbox = true ∧ f.test_requirements.e2e ≠ [])))

/-- The Strict-TDD guard of `verification_result_for_feature_with_env`,
written exactly as in the source:
`missing_due_to_plan || strict_with_no_runnable_tests || (Strict && tests_run.is_empty())`. -/
def verificationGuard (feature : Feature) (plan : TestPlan)
    (executed : List TestCommandResult) (sandbox : Bool) : Bool :=
  decide (feature.id ∈ plan.missing ∨
    (feature.tdd_mode = TddMode.Strict ∧
      (feature.test_requirements.unit = [] ∧
        (feature.test_requirements.e2e = [] ∨
          (sandbox = true ∧
            (feature.test_requirements.unit = [] ∧ feature.test_requirements.e2e ≠ []))))) ∨
    (feature.tdd_mode = TddMode.Strict ∧ executed.map (·.command) = []))

/-- `selective_tests.rs::verification_result_for_feature_with_env`.
`now` stands for the RFC-3339 wall-clock string `Utc::now().to_rfc3339()`. -/
def verification_result_for_feature_with_env (feature : Feature) (plan : TestPlan)
    (executed : List TestCommandResult) (summary : String) (sandbox : Bool)
    (now : String) : VerificationResult :=
  let tests_run : List String := executed.map (·.command)
  let failures : List String :=
    (executed.filter fun r => r.passed = false).map (·.command)
  if verificationGuard feature plan executed sandbox then
    { verified := false, tests_run := tests_run, summary := summary,
      timestamp := now, reason := some "missing tests" }
  else if failures ≠ [] then
    { verified := false, tests_run := tests_run, summary := summary,
      timestamp := now, reason := some ("failed: " ++ String.intercalate "," failures) }
  else
    { verified := decide (failures = []), tests_run := tests_run, summary := summary,
      timestamp := now, reason := none }

/-! ## Housekeeping day-parsing (`code-rs/core/src/housekeeping.rs`) -/

namespace Housekeeping

def DEFAULT_SESSION_RETENTION_DAYS : Int := 7

def DEFAULT_WORKTREE_RETENTION_DAYS : Int := 3

def DEFAULT_LOG_RETENTION_DAYS : Int := 14

/-- ASCII lowercase of a character, as a code point (Rust
`u8::to_ascii_lowercase` on each byte). -/
def asciiLowerNat (c : Char) : Nat :=
  if 65 ≤ c.toNat ∧ c.toNat ≤ 90 then c.toNat + 32 else c.toNat

/-- Rust `str::eq_ignore_ascii_case`: equal after ASCII-lowercasing. -/
def eqIgnoreAsciiCase (a b : String) : Bool :=
  a.data.map asciiLowerNat == b.data.map asciiLowerNat

/-- `housekeeping.rs::matches_ignore_case`. -/
def matches_ignore_case (value : String) (options : List String) : Bool :=
  options.any fun candidate => eqIgnoreAsciiCase value candidate

/-- Whitespace as recognized by Rust `str::trim` on the ASCII range
(non-ASCII Unicode whitespace is not modelled; the retention-day values
of interest are ASCII). -/
def isTrimWhitespace (c : Char) : Bool :=
  c = ' ' ∨ c = '\t' ∨ c = '\n' ∨ c = '\r' ∨ c.toNat = 11 ∨ c.toNat = 12

/-- Rust `str::trim` over the character list. -/
def trimChars (l : List Char) : List Char :=
  ((l.dropWhile isTrimWhitespace).reverse.dropWhile isTrimWhitespace).reverse

/-- Rust `<i64 as FromStr>::from_str`: optional sign, one or more ASCII
digits, value within `i64` bounds; anything else is a parse error. -/
def parseI64 (s : String) : Option Int :=
  let chars := s.data
  let signed : Int × List Char :=
    match chars with
    | '+' :: rest => (1, rest)
    | '-' :: rest => (-1, rest)
    | _ => (1, chars)
  if signed.2 = [] ∨ ¬ signed.2.all Char.isDigit then none
  else
    let n : Nat := signed.2.foldl (fun acc c => acc * 10 + (c.toNat - '0'.toNat)) 0
    let v : Int := signed.1 * (n : Int)
    if v < I64_MIN ∨ I64_MAX < v then none else some v

/-- `housekeeping.rs::parse_days_env`. The environment lookup is abstracted
into the `value : Option String` argument (`none` = variable not present;
the `VarError::NotUnicode` arm, which also yields the default, is not
representable and therefore folded into the parse-error arm). -/
def parse_days_env (value : Option String) (default : Int) : Option Int :=
  match value with
  | some v =>
    if matches_ignore_case v ["off", "disable", "disabled"] then none
    else
      match parseI64 ⟨trimChars v.data⟩ with
      | some days => if 0 ≤ days then some days else none
      | none => some default
  | none => some default

end Housekeeping

/-! ## Claim C5: verification synthesis -/

/-- The source guard agrees with the guard as worded in the claim. -/
theorem verificationGuard_iff (feature : Feature) (plan : TestPlan)
    (executed : List TestCommandResult) (sandbox : Bool) :
    verificationGuard feature plan executed sandbox = true ↔
      (feature.id ∈ plan.missing ∨
        (feature.tdd_mode = TddMode.Strict ∧ feature.test_requirements.unit = [] ∧
          (feature.test_requirements.e2e = [] ∨
            (sandbox = true ∧ feature.test_requirements.unit = [] ∧
              feature.test_requirements.e2e ≠ []))) ∨
        (feature.tdd_mode = TddMode.Strict ∧ executed = [])) := by
  unfold verificationGuard
  rw [decide_eq_true_iff]
  rw [List.map_eq_nil_iff]

/-- C5: for every feature, plan, executed-command list and sandbox flag,
`verification_result_for_feature` returns a result whose `tests_run` is the
executed commands in order, whose `verified` is true iff no executed command
failed and the Strict-TDD guard passes (the guard fails iff the feature id is
in `plan.missing`, or Strict with no unit tests and (no e2e, or sandbox with
only e2e), or Strict with nothing run), and whose `reason` is
"missing tests" on guard failure (taking precedence over command failures),
"failed: <comma-joined failed commands>" when only commands failed, and
`none` on a full pass. -/
theorem C5_verification_result (feature : Feature) (plan : TestPlan)
    (executed : List TestCommandResult) (summary : String) (sandbox : Bool)
    (now : String) :
    (verification_result_for_feature_with_env feature plan executed summary sandbox now).tests_run
      = executed.map (·.command)
    ∧ ((verification_result_for_feature_with_env feature plan executed summary sandbox now).verified = true
        ↔ ((∀ c ∈ executed, c.passed = true) ∧
            ¬ (feature.id ∈ plan.missing ∨
                (feature.tdd_mode = TddMode.Strict ∧ feature.test_requirements.unit = [] ∧
                  (feature.test_requirements.e2e = [] ∨
                    (sandbox = true ∧ feature.test_requirements.unit = [] ∧
                      feature.test_requirements.e2e ≠ []))) ∨
                (feature.tdd_mode = TddMode.Strict ∧ executed = []))))
    ∧ ((feature.id ∈ plan.missing ∨
          (feature.tdd_mode = TddMode.Strict ∧ feature.test_requirements.unit = [] ∧
            (feature.test_requirements.e2e = [] ∨
              (sandbox = true ∧ feature.test_requirements.unit = [] ∧
                feature.test_requirements.e2e ≠ []))) ∨
          (feature.tdd_mode = TddMode.Strict ∧ executed = [])) →
        (verification_result_for_feature_with_env feature plan executed summary sandbox now).reason
          = some "missing tests")
    ∧ (¬ (feature.id ∈ plan.missing ∨
          (feature.tdd_mode = TddMode.Strict ∧ feature.test_requirements.unit = [] ∧
            (feature.test_requirements.e2e = [] ∨
              (sandbox = true ∧ feature.test_requirements.unit = [] ∧
                feature.test_requirements.e2e ≠ []))) ∨
          (feature.tdd_mode = TddMode.Strict ∧ executed = [])) →
        ((executed.filter fun r => r.passed = false) ≠ [] →
          (verification_result_for_feature_with_env feature plan executed summary sandbox now).reason
            = some ("failed: " ++ String.intercalate ","
                ((executed.filter fun r => r.passed = false).map (·.command)))))
    ∧ (¬ (feature.id ∈ plan.missing ∨
          (feature.tdd_mode = TddMode.Strict ∧ feature.test_requirements.unit = [] ∧
            (feature.test_requirements.e2e = [] ∨
              (sandbox = true ∧ feature.test_requirements.unit = [] ∧
                feature.test_requirements.e2e ≠ []))) ∨
          (feature.tdd_mode = TddMode.Strict ∧ executed = [])) →
        ((executed.filter fun r => r.passed = false) = [] →
          (verification_result_for_feature_with_env feature plan executed summary sandbox now).reason
            = none)) := by
  have hfail : ((executed.filter fun r => r.passed = false) = [])
      ↔ (∀ c ∈ executed, c.passed = true) := by
    rw [List.filter_eq_nil_iff]
    constructor
    · intro h c hc
      have := h c hc
      simpa using this
    · intro h c hc
      simp [h c hc]
  by_cases hg : verificationGuard feature plan executed sandbox = true
  · have hG := (verificationGuard_iff feature plan executed sandbox).mp hg
    have hR : verification_result_for_feature_with_env feature plan executed summary sandbox now
        = { verified := false, tests_run := executed.map (·.command), summary := summary,
            timestamp := now, reason := some "missing tests" } := by
      simp only [verification_result_for_feature_with_env]
      rw [if_pos hg]
    rw [hR]
    exact ⟨rfl, iff_of_false Bool.false_ne_true (fun hcon => hcon.2 hG),
      fun _ => rfl, fun h => absurd hG h, fun h => absurd hG h⟩
  · have hG : ¬ (feature.id ∈ plan.missing ∨
        (feature.tdd_mode = TddMode.Strict ∧ feature.test_requirements.unit = [] ∧
          (feature.test_requirements.e2e = [] ∨
            (sandbox = true ∧ feature.test_requirements.unit = [] ∧
              feature.test_requirements.e2e ≠ []))) ∨
        (feature.tdd_mode = TddMode.Strict ∧ executed = [])) :=
      fun h => hg ((verificationGuard_iff feature plan executed sandbox).mpr h)
    by_cases hf : ((executed.filter fun r => r.passed = false) = [])
    · have hmap : ((executed.filter fun r => r.passed = false).map (·.command)) = [] := by
        rw [hf]; rfl
      have hR : verification_result_for_feature_with_env feature plan executed summary sandbox now
          = { verified := true, tests_run := executed.map (·.command), summary := summary,
              timestamp := now, reason := none } := by
        simp only [verification_result_for_feature_with_env]
        rw [if_neg hg, if_neg (not_not_intro hmap), hmap]
        rfl
      rw [hR]
      exact ⟨rfl, iff_of_true rfl ⟨hfail.mp hf, hG⟩, fun h => absurd h hG,
        fun _ h => absurd hf h, fun _ _ => rfl⟩
    · have hmapne : ((executed.filter fun r => r.passed = false).map (·.command)) ≠ [] :=
        fun h => hf (List.map_eq_nil_iff.mp h)
      have hR : verification_result_for_feature_with_env feature plan executed summary sandbox now
          = { verified := false, tests_run := executed.map (·.command), summary := summary,
              timestamp := now,
              reason := some ("failed: " ++ String.intercalate ","
                ((executed.filter fun r => r.passed = false).map (·.command))) } := by
        simp only [verification_result_for_feature_with_env]
        rw [if_neg hg, if_pos hmapne]
      rw [hR]
      exact ⟨rfl, iff_of_false Bool.false_ne_true (fun hcon => hf (hfail.mpr hcon.1)),
        fun h => absurd h hG, fun _ _ => rfl, fun _ h => absurd h hf⟩
/-- Witness for C5 at a concrete input (S5-style: strict feature with only
e2e tests, sandbox on, nothing executed). -/
theorem C5_verification_result_witness :
    (verification_result_for_feature_with_env
        (Feature.mk0 "F-3" TddMode.Strict ⟨[], ["cargo test --package ui-e2e"]⟩)
        ⟨[], [], ["F-3"]⟩ [] "no tests" true "ts").reason = some "missing tests" :=
  (C5_verification_result
      (Feature.mk0 "F-3" TddMode.Strict ⟨[], ["cargo test --package ui-e2e"]⟩)
      ⟨[], [], ["F-3"]⟩ [] "no tests" true "ts").2.2.1 (by simp [Feature.mk0])

/-! ## Claim C6: test plan generation -/

/-- `planStep` componentwise. -/
theorem planStep_eq (sandbox : Bool) (p : TestPlan) (f : Feature) :
    planStep sandbox p f =
      { quick := p.quick ++ f.test_requirements.unit,
        full := p.full ++ (if sandbox = false then f.test_requirements.e2e else []),
        missing := p.missing ++ (if missingFlag sandbox f then [f.id] else []) } := by
  unfold planStep
  by_cases hm : missingFlag sandbox f = true <;> cases sandbox <;> simp [hm]

/-- The source's `missing` condition agrees with the claim's wording. -/
theorem missingFlag_eq_strict_without_runnable (sandbox : Bool) (f : Feature) :
    missingFlag sandbox f = strict_without_runnable sandbox f := by
  unfold missingFlag strict_without_runnable
  by_cases h : (f.tdd_mode = TddMode.Strict ∧ f.test_requirements.unit = [] ∧
      (f.test_requirements.e2e = [] ∨ (sandbox = true ∧ f.test_requirements.e2e ≠ [])))
  · rw [decide_eq_true (by tauto), decide_eq_true h]
  · rw [decide_eq_false (fun hc => h (by tauto)), decide_eq_false h]

/-- Unfolds `List.foldl (planStep sandbox)` from an arbitrary accumulator. -/
theorem foldl_planStep (sandbox : Bool) (affected : List Feature) (p : TestPlan) :
    affected.foldl (planStep sandbox) p =
      { quick := p.quick ++ affected.flatMap (fun f => f.test_requirements.unit),
        full := p.full ++ (if sandbox = false
          then affected.flatMap (fun f => f.test_requirements.e2e) else []),
        missing := p.missing ++
          (affected.filter (missingFlag sandbox)).map Feature.id } := by
  induction affected generalizing p with
  | nil => cases sandbox <;> simp
  | cons f rest ih =>
    rw [List.foldl_cons, planStep_eq, ih]
    by_cases hm : missingFlag sandbox f = true <;> cases sandbox <;>
      simp [hm, List.filter_cons]
/-- C6: the generated `TestPlan` has `quick` = concatenation of unit commands
in feature order; `full` = concatenation of e2e commands when not sandboxed
(plus the default `"cargo test --all-features"` appended when that
concatenation is empty), and nothing when sandboxed; and `missing` = ids of
exactly the features that are Strict with an empty unit list and (empty e2e
list, or sandbox on with only e2e tests). -/
theorem C6_test_plan_generation (affected : List Feature) (sandbox : Bool) :
    (generate_quick_plan_with_sandbox affected sandbox).quick
      = affected.flatMap (fun f => f.test_requirements.unit)
    ∧ (generate_quick_plan_with_sandbox affected sandbox).missing
      = (affected.filter (strict_without_runnable sandbox)).map Feature.id
    ∧ (sandbox = true → (generate_quick_plan_with_sandbox affected sandbox).full = [])
    ∧ (sandbox = false →
        (generate_quick_plan_with_sandbox affected sandbox).full
          = affected.flatMap (fun f => f.test_requirements.e2e)
            ++ (if affected.flatMap (fun f => f.test_requirements.e2e) = []
                then ["cargo test --all-features"] else [])) := by
  have hfilter : affected.filter (missingFlag sandbox)
      = affected.filter (strict_without_runnable sandbox) :=
    List.filter_congr fun f _ => missingFlag_eq_strict_without_runnable sandbox f
  unfold generate_quick_plan_with_sandbox
  rw [foldl_planStep, hfilter]
  cases sandbox with
  | false =>
    by_cases he : affected.flatMap (fun f => f.test_requirements.e2e) = [] <;>
      simp [TestPlan.empty, he]
  | true => simp [TestPlan.empty]

/-- Witness for C6 at a concrete input (S5: a Strict feature with only e2e
tests under sandbox yields empty `full` and the feature in `missing`). -/
theorem C6_test_plan_generation_witness :
    (generate_quick_plan_with_sandbox
        [Feature.mk0 "F-3" TddMode.Strict ⟨[], ["cargo test --package ui-e2e"]⟩] true).full = [] :=
  (C6_test_plan_generation
      [Feature.mk0 "F-3" TddMode.Strict ⟨[], ["cargo test --package ui-e2e"]⟩] true).2.2.1 rfl

/-! ## Claim C10: cleanup retention-day parsing -/

namespace Housekeeping

/-- C10 counterexample: the claim says any value other than
"off"/"disable"/"disabled" or a nonnegative integer falls back to the
default, but a negative integer such as "-1" parses successfully and is
rejected by the `days >= 0` guard, yielding `None` — the subsystem is
skipped instead of using the default 7. -/
theorem C10_parse_days_counterexample :
    parse_days_env (some "-1") DEFAULT_SESSION_RETENTION_DAYS = none ∧
      parse_days_env (some "-1") DEFAULT_SESSION_RETENTION_DAYS ≠
        some DEFAULT_SESSION_RETENTION_DAYS := by
  refine ⟨rfl, ?_⟩
  intro h
  rw [show parse_days_env (some "-1") DEFAULT_SESSION_RETENTION_DAYS = none from rfl] at h
  exact Option.noConfusion h

/-- C10 as amended: "off"/"disable"/"disabled" (case-insensitive) skip the
subsystem; a value parsing as an integer ≥ 0 is used as given; a value
parsing as a negative integer also skips the subsystem; an unset variable
and any unparsable value yield the default (7, 3, or 14 days for the
session, worktree, and log subsystems). -/
theorem C10_parse_days_env (value : Option String) (default : Int) :
    (∀ v, value = some v → matches_ignore_case v ["off", "disable", "disabled"] = true →
      parse_days_env value default = none)
    ∧ (∀ v d, value = some v → matches_ignore_case v ["off", "disable", "disabled"] = false →
        parseI64 ⟨trimChars v.data⟩ = some d → 0 ≤ d → parse_days_env value default = some d)
    ∧ (∀ v d, value = some v → matches_ignore_case v ["off", "disable", "disabled"] = false →
        parseI64 ⟨trimChars v.data⟩ = some d → d < 0 → parse_days_env value default = none)
    ∧ (∀ v, value = some v → matches_ignore_case v ["off", "disable", "disabled"] = false →
        parseI64 ⟨trimChars v.data⟩ = none → parse_days_env value default = some default)
    ∧ (value = none → parse_days_env value default = some default)
    ∧ (DEFAULT_SESSION_RETENTION_DAYS = 7 ∧ DEFAULT_WORKTREE_RETENTION_DAYS = 3 ∧
        DEFAULT_LOG_RETENTION_DAYS = 14) := by
  refine ⟨?_, ?_, ?_, ?_, ?_, by norm_num [DEFAULT_SESSION_RETENTION_DAYS,
    DEFAULT_WORKTREE_RETENTION_DAYS, DEFAULT_LOG_RETENTION_DAYS]⟩
  · intro v hv hm
    subst hv
    simp [parse_days_env, hm]
  · intro v d hv hm hp hd
    subst hv
    simp [parse_days_env, hm, hp, hd]
  · intro v d hv hm hp hd
    subst hv
    simp [parse_days_env, hm, hp, not_le.mpr hd]
  · intro v hv hm hp
    subst hv
    simp [parse_days_env, hm, hp]
  · intro hv
    subst hv
    rfl

/-- Witness for C10 at concrete inputs: "OFF" skips, "5" is used as given,
unset yields the default. -/
theorem C10_parse_days_env_witness :
    parse_days_env (some "OFF") DEFAULT_SESSION_RETENTION_DAYS = none ∧
      parse_days_env (some "5") DEFAULT_LOG_RETENTION_DAYS = some 5 ∧
      parse_days_env none DEFAULT_WORKTREE_RETENTION_DAYS = some 3 :=
  ⟨(C10_parse_days_env (some "OFF") DEFAULT_SESSION_RETENTION_DAYS).1 "OFF" rfl (by decide),
   (C10_parse_days_env (some "5") DEFAULT_LOG_RETENTION_DAYS).2.1 "5" 5 rfl (by decide)
     (by decide) (by decide),
   (C10_parse_days_env none DEFAULT_WORKTREE_RETENTION_DAYS).2.2.2.2.1 rfl⟩

end Housekeeping

/-! ## Task topology (`code-rs/code-auto-drive-core/src/task_topology.rs`)

The `HashMap`/`HashSet` structures of the source are embedded as update
functions `String → Nat` (indegree) and `String → List String` (adjacency).
The source's map iteration order for the initial queue is replaced by input
order; layer membership does not depend on it. -/

namespace Topology

structure TopologicalTask where
  id : String
  dependencies : List String
  payload : String
deriving DecidableEq, Repr

inductive TopologyError
  | CircularDependency (msg : String)
  | UnknownDependency (dep : String)
deriving DecidableEq, Repr

structure TaskLayers where
  layers : List (List TopologicalTask)
  total_tasks : Nat
deriving DecidableEq, Repr

def TaskLayers.max_parallelism (t : TaskLayers) : Nat :=
  (t.layers.map List.length).foldr max 0

def TaskLayers.depth (t : TaskLayers) : Nat := t.layers.length

/-- Pointwise update of a function map (one `HashMap` insertion). -/
def fupd {α : Type} (f : String → α) (k : String) (v : α) : String → α :=
  fun x => if x = k then v else f x

/-- Inner loop of the graph-building phase: one task's dependency list.
For each `dep`: unknown-id check, `adjacency[dep].push(task.id)`,
`indegree[task.id] += 1`. -/
def buildDeps (task_ids : List String) (tid : String) :
    List String → (String → Nat) → (String → List String) →
      Except TopologyError ((String → Nat) × (String → List String))
  | [], indeg, adj => .ok (indeg, adj)
  | dep :: rest, indeg, adj =>
    if dep ∈ task_ids then
      buildDeps task_ids tid rest (fupd indeg tid (indeg tid + 1))
        (fupd adj dep (adj dep ++ [tid]))
    else .error (.UnknownDependency dep)

/-- Outer loop of the graph-building phase over all tasks. -/
def buildGraph (task_ids : List String) :
    List TopologicalTask → (String → Nat) → (String → List String) →
      Except TopologyError ((String → Nat) × (String → List String))
  | [], indeg, adj => .ok (indeg, adj)
  | t :: rest, indeg, adj =>
    match buildDeps task_ids t.id t.dependencies indeg adj with
    | .error e => .error e
    | .ok (indeg', adj') => buildGraph task_ids rest indeg' adj'

/-- `task_map[task_id]` (with `Nodup` ids the unique task of that id). -/
def taskOf (tasks : List TopologicalTask) (i : String) : TopologicalTask :=
  (tasks.find? fun t => t.id == i).getD ⟨i, [], ""⟩

/-- One decrement step of the inner Kahn loop: `*deg -= 1; if 0, push`. -/
def layerStep (st : (String → Nat) × List String) (j : String) :
    (String → Nat) × List String :=
  let d := st.1 j - 1
  (fupd st.1 j d, if d = 0 then st.2 ++ [j] else st.2)

/-- The inner `for _ in 0..layer_size` loop: each popped snapshot element's
dependents are decremented in order, enqueueing those that reach zero.
Pushes performed during the loop land beyond the snapshot, so the snapshot
is the emitted layer and the pushes form the next queue. -/
def processLayer (adj : String → List String) (queue : List String)
    (indeg : String → Nat) : (String → Nat) × List String :=
  (queue.flatMap adj).foldl layerStep (indeg, [])

/-- The outer `while !queue.is_empty()` loop of Kahn's algorithm with layer
tracking, with fuel (the source loop terminates because every id is popped
at most once; `tasks.length + 1` rounds are shown to suffice). -/
def kahnLoop (tasks : List TopologicalTask) (adj : String → List String) :
    Nat → (String → Nat) → List String → List (List TopologicalTask)
  | 0, _, _ => []
  | fuel + 1, indeg, queue =>
    if queue = [] then []
    else
      let st := processLayer adj queue indeg
      queue.map (taskOf tasks) :: kahnLoop tasks adj fuel st.1 st.2

/-- `task_topology.rs::topological_sort`. -/
def topological_sort (tasks : List TopologicalTask) : Except TopologyError TaskLayers :=
  if tasks = [] then .ok ⟨[], 0⟩
  else
    let task_ids := tasks.map (·.id)
    match buildGraph task_ids tasks (fun _ => 0) (fun _ => []) with
    | .error e => .error e
    | .ok (indeg, adj) =>
      let queue := (tasks.filter fun t => indeg t.id == 0).map (·.id)
      let layers := kahnLoop tasks adj (tasks.length + 1) indeg queue
      let processed := (layers.map List.length).sum
      if processed ≠ tasks.length then
        .error (.CircularDependency "cycle detected in task dependencies")
      else .ok ⟨layers, tasks.length⟩

/-- The dependency edge relation of a task set: `depEdge d i` holds when the
task with id `i` lists `d` among its dependencies. -/
def depEdge (tasks : List TopologicalTask) (d i : String) : Prop :=
  ∃ t ∈ tasks, t.id = i ∧ d ∈ t.dependencies

/-- A cycle in the dependency graph. -/
def HasCycle (tasks : List TopologicalTask) : Prop :=
  ∃ i, Relation.TransGen (depEdge tasks) i i

/-- The ids of all tasks of a layer list, in pop order. -/
def flatIds (L : List (List TopologicalTask)) : List String :=
  L.flatMap fun layer => layer.map (·.id)

theorem fupd_same {α : Type} (f : String → α) (k : String) (v : α) : fupd f k v k = v := by
  simp [fupd]

theorem fupd_ne {α : Type} (f : String → α) (k : String) (v : α) (x : String)
    (h : x ≠ k) : fupd f k v x = f x := by
  simp [fupd, h]

theorem taskOf_id (tasks : List TopologicalTask) (i : String) : (taskOf tasks i).id = i := by
  unfold taskOf
  cases h : tasks.find? fun t => t.id == i with
  | none => rfl
  | some t =>
    have := List.find?_some h
    simpa using this

theorem taskOf_mem (tasks : List TopologicalTask) (i : String)
    (hi : i ∈ tasks.map (·.id)) : taskOf tasks i ∈ tasks := by
  obtain ⟨t, ht, hid⟩ := List.mem_map.mp hi
  have hsome : (tasks.find? fun t => t.id == i).isSome := by
    rw [List.find?_isSome]
    exact ⟨t, ht, by simp [hid]⟩
  obtain ⟨t', ht'⟩ := Option.isSome_iff_exists.mp hsome
  unfold taskOf
  rw [ht']
  exact List.mem_of_find?_eq_some ht'

theorem taskOf_eq_of_mem (tasks : List TopologicalTask)
    (hnd : (tasks.map (·.id)).Nodup) (t : TopologicalTask) (ht : t ∈ tasks) :
    taskOf tasks t.id = t := by
  have hmem : taskOf tasks t.id ∈ tasks :=
    taskOf_mem tasks t.id (List.mem_map.mpr ⟨t, ht, rfl⟩)
  have hinj := List.inj_on_of_nodup_map hnd
  exact hinj hmem ht (by rw [taskOf_id])

theorem filter_id_singleton (tasks : List TopologicalTask)
    (hnd : (tasks.map (·.id)).Nodup) (i : String) (hi : i ∈ tasks.map (·.id)) :
    tasks.filter (fun t => t.id == i) = [taskOf tasks i] := by
  induction tasks with
  | nil => simp at hi
  | cons t rest ih =>
    rw [List.map_cons, List.nodup_cons] at hnd
    by_cases hti : t.id = i
    · subst hti
      have hrest : rest.filter (fun s => s.id == t.id) = [] := by
        rw [List.filter_eq_nil_iff]
        intro s hs h
        exact hnd.1 (List.mem_map.mpr ⟨s, hs, by simpa using h⟩)
      have : taskOf (t :: rest) t.id = t := by
        unfold taskOf
        rw [List.find?_cons_of_pos _ (by simp)]
        rfl
      rw [List.filter_cons, if_pos (by simp), hrest, this]
    · have hi' : i ∈ rest.map (·.id) := by
        rcases List.mem_map.mp hi with ⟨s, hs, hsi⟩
        rcases List.mem_cons.mp hs with rfl | hs'
        · exact absurd hsi hti
        · exact List.mem_map.mpr ⟨s, hs', hsi⟩
      have : taskOf (t :: rest) i = taskOf rest i := by
        unfold taskOf
        rw [List.find?_cons_of_neg _ (by simpa using hti)]
      rw [List.filter_cons, if_neg (by simpa using hti), this]
      exact ih hnd.2 hi'

theorem filter_id_nil (tasks : List TopologicalTask) (i : String)
    (hi : i ∉ tasks.map (·.id)) :
    tasks.filter (fun t => t.id == i) = [] := by
  rw [List.filter_eq_nil_iff]
  intro t ht h
  exact hi (List.mem_map.mpr ⟨t, ht, by simpa using h⟩)

theorem sum_length_eq_flatIds_length (L : List (List TopologicalTask)) :
    (L.map List.length).sum = (flatIds L).length := by
  induction L with
  | nil => simp [flatIds]
  | cons l L ih => simp [flatIds, List.flatMap_cons] at ih ⊢; omega

theorem buildDeps_ok (task_ids : List String) (tid : String) (deps : List String)
    (h : ∀ d ∈ deps, d ∈ task_ids) :
    ∀ (indeg : String → Nat) (adj : String → List String),
    ∃ indeg' adj', buildDeps task_ids tid deps indeg adj = .ok (indeg', adj')
      ∧ (∀ i, indeg' i = indeg i + (if i = tid then deps.length else 0))
      ∧ (∀ d j, (adj' d).count j
          = (adj d).count j + (if j = tid then deps.count d else 0))
      ∧ (∀ d x, x ∈ adj' d → x ∈ adj d ∨ x = tid) := by
  induction deps with
  | nil =>
    intro indeg adj
    exact ⟨indeg, adj, rfl, fun i => by simp, fun d j => by simp, fun d x hx => .inl hx⟩
  | cons dep rest ih =>
    intro indeg adj
    have hdep : dep ∈ task_ids := h dep (by simp)
    obtain ⟨indeg', adj', heq, hi, hc, hm⟩ :=
      ih (fun d hd => h d (by simp [hd]))
        (fupd indeg tid (indeg tid + 1)) (fupd adj dep (adj dep ++ [tid]))
    refine ⟨indeg', adj', ?_, ?_, ?_, ?_⟩
    · rw [buildDeps, if_pos hdep]
      exact heq
    · intro i
      rw [hi i]
      by_cases hit : i = tid
      · subst hit
        rw [fupd_same]
        simp
        omega
      · rw [fupd_ne _ _ _ _ hit]
        simp [hit]
    · intro d j
      rw [hc d j]
      by_cases hdd : d = dep
      · subst hdd
        rw [fupd_same, List.count_append]
        by_cases hjt : j = tid <;>
          · simp [hjt, List.count_cons, beq_iff_eq]
            all_goals omega
      · rw [fupd_ne _ _ _ _ hdd]
        by_cases hjt : j = tid <;>
          simp [hjt, List.count_cons, beq_iff_eq, hdd, Ne.symm hdd]
    · intro d x hx
      rcases hm d x hx with hx' | rfl
      · by_cases hdd : d = dep
        · subst hdd
          rw [fupd_same] at hx'
          rcases List.mem_append.mp hx' with h' | h'
          · exact .inl h'
          · exact .inr (by simpa using h')
        · rw [fupd_ne _ _ _ _ hdd] at hx'
          exact .inl hx'
      · exact .inr rfl

theorem buildDeps_err (task_ids : List String) (tid : String) (deps : List String)
    (h : ∃ d ∈ deps, d ∉ task_ids) :
    ∀ (indeg : String → Nat) (adj : String → List String),
    ∃ d, buildDeps task_ids tid deps indeg adj = .error (.UnknownDependency d)
      ∧ d ∈ deps ∧ d ∉ task_ids := by
  induction deps with
  | nil => simp at h
  | cons dep rest ih =>
    intro indeg adj
    by_cases hdep : dep ∈ task_ids
    · have hrest : ∃ d ∈ rest, d ∉ task_ids := by
        rcases h with ⟨d, hd, hdn⟩
        rcases List.mem_cons.mp hd with rfl | hd'
        · exact absurd hdep hdn
        · exact ⟨d, hd', hdn⟩
      obtain ⟨d, heq, hd, hdn⟩ := ih hrest
        (fupd indeg tid (indeg tid + 1)) (fupd adj dep (adj dep ++ [tid]))
      refine ⟨d, ?_, by simp [hd], hdn⟩
      rw [buildDeps, if_pos hdep]
      exact heq
    · exact ⟨dep, by rw [buildDeps, if_neg hdep], by simp, hdep⟩

theorem buildDeps_ok_resolve (task_ids : List String) (tid : String) (deps : List String)
    (indeg : String → Nat) (adj : String → List String) (pr)
    (h : buildDeps task_ids tid deps indeg adj = .ok pr) :
    ∀ d ∈ deps, d ∈ task_ids := by
  induction deps generalizing indeg adj with
  | nil => simp
  | cons dep rest ih =>
    rw [buildDeps] at h
    by_cases hdep : dep ∈ task_ids
    · rw [if_pos hdep] at h
      intro d hd
      rcases List.mem_cons.mp hd with rfl | hd'
      · exact hdep
      · exact ih _ _ h d hd'
    · rw [if_neg hdep] at h
      exact absurd h (by simp)

theorem buildGraph_ok (task_ids : List String) (tasks0 : List TopologicalTask)
    (h : ∀ t ∈ tasks0, ∀ d ∈ t.dependencies, d ∈ task_ids) :
    ∀ (indeg : String → Nat) (adj : String → List String),
    ∃ indeg' adj', buildGraph task_ids tasks0 indeg adj = .ok (indeg', adj')
      ∧ (∀ i, indeg' i = indeg i +
          ((tasks0.filter fun t => t.id == i).map fun t => t.dependencies.length).sum)
      ∧ (∀ d j, (adj' d).count j = (adj d).count j +
          ((tasks0.filter fun t => t.id == j).map fun t => t.dependencies.count d).sum)
      ∧ (∀ d x, x ∈ adj' d → x ∈ adj d ∨ x ∈ tasks0.map (·.id)) := by
  induction tasks0 with
  | nil =>
    intro indeg adj
    exact ⟨indeg, adj, rfl, fun i => by simp, fun d j => by simp, fun d x hx => .inl hx⟩
  | cons t rest ih =>
    intro indeg adj
    obtain ⟨indeg1, adj1, heq1, hi1, hc1, hm1⟩ :=
      buildDeps_ok task_ids t.id t.dependencies (h t (by simp)) indeg adj
    obtain ⟨indeg', adj', heq, hi, hc, hm⟩ :=
      ih (fun s hs => h s (by simp [hs])) indeg1 adj1
    refine ⟨indeg', adj', ?_, ?_, ?_, ?_⟩
    · rw [buildGraph, heq1]
      exact heq
    · intro i
      rw [hi i, hi1 i]
      by_cases hit : t.id = i
      · subst hit
        simp [List.filter_cons]
        omega
      · have hit' : ¬ (i = t.id) := fun hh => hit hh.symm
        simp [List.filter_cons, hit, hit']
    · intro d j
      rw [hc d j, hc1 d j]
      by_cases hjt : t.id = j
      · subst hjt
        simp [List.filter_cons]
        omega
      · have hjt' : ¬ (j = t.id) := fun hh => hjt hh.symm
        simp [List.filter_cons, hjt, hjt']
    · intro d x hx
      rcases hm d x hx with hx' | hx'
      · rcases hm1 d x hx' with hx'' | rfl
        · exact .inl hx''
        · exact .inr (by simp)
      · exact .inr (by simp [hx'])

theorem count_flatMap (f : String → List String) (l : List String) (a : String) :
    (l.flatMap f).count a = (l.map fun x => (f x).count a).sum := by
  induction l with
  | nil => simp
  | cons x l ih => simp [List.flatMap_cons, List.count_append, ih]

theorem sum_map_add (f g : String → Nat) (Q : List String) :
    (Q.map fun q => f q + g q).sum = (Q.map f).sum + (Q.map g).sum := by
  induction Q with
  | nil => simp
  | cons q Q ih => simp [ih]; omega

/-- Number of elements of `l` lying in `Q` (with multiplicity in `l`). -/
def countIn (l Q : List String) : Nat := (l.filter fun d => decide (d ∈ Q)).length

/-- Number of elements of `l` lying outside `P` (with multiplicity in `l`). -/
def countNotIn (l P : List String) : Nat := (l.filter fun d => decide (d ∉ P)).length

theorem countIn_nil (Q : List String) : countIn [] Q = 0 := rfl

theorem countNotIn_nil (P : List String) : countNotIn [] P = 0 := rfl

theorem countIn_cons (a : String) (l Q : List String) :
    countIn (a :: l) Q = countIn l Q + if a ∈ Q then 1 else 0 := by
  unfold countIn
  rw [List.filter_cons]
  by_cases h : a ∈ Q <;> simp [h]

theorem countNotIn_cons (a : String) (l P : List String) :
    countNotIn (a :: l) P = countNotIn l P + if a ∈ P then 0 else 1 := by
  unfold countNotIn
  rw [List.filter_cons]
  by_cases h : a ∈ P <;> simp [h]

theorem countNotIn_nil_right (l : List String) : countNotIn l [] = l.length := by
  induction l with
  | nil => rfl
  | cons a l ih =>
    rw [countNotIn_cons, ih, if_neg (List.not_mem_nil a)]
    simp

theorem countIn_pos_exists (l Q : List String) (h : 0 < countIn l Q) :
    ∃ d ∈ l, d ∈ Q := by
  induction l with
  | nil => simp [countIn_nil] at h
  | cons a l ih =>
    rw [countIn_cons] at h
    by_cases ha : a ∈ Q
    · exact ⟨a, by simp, ha⟩
    · rw [if_neg ha] at h
      obtain ⟨d, hd, hdQ⟩ := ih (by omega)
      exact ⟨d, by simp [hd], hdQ⟩

theorem countNotIn_pos_exists (l P : List String) (h : 0 < countNotIn l P) :
    ∃ d ∈ l, d ∉ P := by
  induction l with
  | nil => simp [countNotIn_nil] at h
  | cons a l ih =>
    rw [countNotIn_cons] at h
    by_cases ha : a ∈ P
    · rw [if_pos ha] at h
      obtain ⟨d, hd, hdP⟩ := ih (by omega)
      exact ⟨d, by simp [hd], hdP⟩
    · exact ⟨a, by simp, ha⟩

theorem countNotIn_eq_zero (l P : List String) (h : countNotIn l P = 0) :
    ∀ d ∈ l, d ∈ P := by
  intro d hd
  by_contra hdP
  induction l with
  | nil => simp at hd
  | cons a l ih =>
    rw [countNotIn_cons] at h
    rcases List.mem_cons.mp hd with rfl | hd'
    · rw [if_neg hdP] at h
      omega
    · by_cases ha : a ∈ P
      · rw [if_pos ha] at h
        exact ih h hd'
      · rw [if_neg ha] at h
        omega

theorem sum_indicator_count (a : String) (Q : List String) :
    (Q.map fun q => if a = q then 1 else 0).sum = Q.count a := by
  induction Q with
  | nil => simp
  | cons q Q ih =>
    rw [List.map_cons, List.sum_cons, ih, List.count_cons]
    by_cases h : a = q
    · subst h
      simp
      omega
    · simp [h, Ne.symm h]

theorem count_eq_ite_of_nodup (a : String) (Q : List String) (hQ : Q.Nodup) :
    Q.count a = if a ∈ Q then 1 else 0 := by
  by_cases h : a ∈ Q
  · rw [if_pos h]
    exact List.count_eq_one_of_mem hQ h
  · rw [if_neg h]
    exact List.count_eq_zero_of_not_mem h

theorem sum_count_nodup (l : List String) (Q : List String) (hQ : Q.Nodup) :
    (Q.map fun q => l.count q).sum = countIn l Q := by
  induction l with
  | nil => simp [countIn_nil]
  | cons a l ih =>
    have hcons : (Q.map fun q => (a :: l).count q)
        = Q.map fun q => l.count q + if a = q then 1 else 0 := by
      apply List.map_congr_left
      intro q _
      rw [List.count_cons]
      by_cases h : a = q
      · subst h
        simp
      · simp [h, Ne.symm h]
    rw [hcons, sum_map_add, ih, sum_indicator_count, count_eq_ite_of_nodup a Q hQ,
      countIn_cons]

theorem length_filter_sub (l P Q : List String) (h : ∀ d ∈ Q, d ∉ P) :
    countIn l Q ≤ countNotIn l P
    ∧ countNotIn l (P ++ Q) = countNotIn l P - countIn l Q := by
  induction l with
  | nil => simp [countIn_nil, countNotIn_nil]
  | cons a l ih =>
    rcases ih with ⟨ih1, ih2⟩
    rw [countIn_cons, countNotIn_cons, countNotIn_cons]
    by_cases haQ : a ∈ Q
    · have haP : a ∉ P := h a haQ
      rw [if_pos haQ, if_neg haP, if_pos (List.mem_append.mpr (Or.inr haQ))]
      constructor <;> omega
    · by_cases haP : a ∈ P
      · rw [if_neg haQ, if_pos haP, if_pos (List.mem_append.mpr (Or.inl haP))]
        constructor <;> omega
      · rw [if_neg haQ, if_neg haP,
          if_neg (fun hm => (List.mem_append.mp hm).elim haP haQ)]
        constructor <;> omega

theorem foldl_layerStep (E : List String) :
    ∀ (indeg : String → Nat) (acc : List String),
    (∀ j, E.count j ≤ indeg j) →
    ∃ pushed, E.foldl layerStep (indeg, acc) = (fun j => indeg j - E.count j, acc ++ pushed)
      ∧ pushed.Nodup
      ∧ (∀ j, j ∈ pushed ↔ 0 < indeg j ∧ indeg j ≤ E.count j) := by
  induction E with
  | nil =>
    intro indeg acc h
    refine ⟨[], ?_, List.nodup_nil, ?_⟩
    · simp only [List.foldl_nil, List.append_nil]
      have : (fun j => indeg j - List.count j []) = indeg := by
        funext j
        simp
      rw [this]
    · intro j
      simp
      omega
  | cons e E ih =>
    intro indeg acc h
    have hce : ∀ j, List.count j (e :: E) = List.count j E + if j = e then 1 else 0 := by
      intro j
      rw [List.count_cons]
      by_cases hj : j = e
      · simp [hj]
      · simp [hj, Ne.symm hj]
    have he1 : 1 ≤ indeg e := by
      have := h e
      rw [hce e] at this
      simp at this
      omega
    rw [List.foldl_cons]
    have hstep : layerStep (indeg, acc) e
        = (fupd indeg e (indeg e - 1),
            if indeg e - 1 = 0 then acc ++ [e] else acc) := rfl
    by_cases h1 : indeg e = 1
    · have hE0 : List.count e E = 0 := by
        have := h e
        rw [hce e] at this
        simp at this
        omega
      have hle' : ∀ j, E.count j ≤ fupd indeg e (indeg e - 1) j := by
        intro j
        by_cases hj : j = e
        · subst hj
          rw [fupd_same, hE0]
          omega
        · rw [fupd_ne _ _ _ _ hj]
          have := h j
          rw [hce j] at this
          simp [hj] at this
          omega
      obtain ⟨pushed, heq, hnd, hchar⟩ := ih (fupd indeg e (indeg e - 1)) (acc ++ [e]) hle'
      rw [hstep, if_pos (by omega)]
      refine ⟨e :: pushed, ?_, ?_, ?_⟩
      · rw [heq]
        have hfeq : (fun j => fupd indeg e (indeg e - 1) j - E.count j)
            = fun j => indeg j - (e :: E).count j := by
          funext j
          rw [hce j]
          by_cases hj : j = e
          · subst hj
            rw [fupd_same, hE0]
            simp
          · rw [fupd_ne _ _ _ _ hj]
            simp [hj]
        rw [hfeq]
        simp
      · rw [List.nodup_cons]
        refine ⟨fun he' => ?_, hnd⟩
        have := (hchar e).mp he'
        rw [fupd_same] at this
        omega
      · intro j
        by_cases hj : j = e
        · subst hj
          simp [hce j, h1]
        · rw [List.mem_cons]
          have := hchar j
          rw [fupd_ne _ _ _ _ hj] at this
          rw [hce j]
          simp [hj, this]
    · have he2 : 2 ≤ indeg e := by omega
      have hle' : ∀ j, E.count j ≤ fupd indeg e (indeg e - 1) j := by
        intro j
        by_cases hj : j = e
        · subst hj
          rw [fupd_same]
          have := h j
          rw [hce j] at this
          simp at this
          omega
        · rw [fupd_ne _ _ _ _ hj]
          have := h j
          rw [hce j] at this
          simp [hj] at this
          omega
      obtain ⟨pushed, heq, hnd, hchar⟩ := ih (fupd indeg e (indeg e - 1)) acc hle'
      rw [hstep, if_neg (by omega)]
      refine ⟨pushed, ?_, hnd, ?_⟩
      · rw [heq]
        have hfeq : (fun j => fupd indeg e (indeg e - 1) j - E.count j)
            = fun j => indeg j - (e :: E).count j := by
          funext j
          rw [hce j]
          by_cases hj : j = e
          · subst hj
            rw [fupd_same]
            simp
            all_goals omega
          · rw [fupd_ne _ _ _ _ hj]
            simp [hj]
        rw [hfeq]
      · intro j
        have := hchar j
        rw [hce j]
        by_cases hj : j = e
        · subst hj
          rw [fupd_same] at this
          rw [this]
          constructor
          · intro ⟨a, b⟩
            constructor
            · omega
            · simp
              omega
          · intro ⟨a, b⟩
            simp at b
            constructor
            · omega
            · omega
        · rw [fupd_ne _ _ _ _ hj] at this
          rw [this]
          simp [hj]

/-- The main loop invariant of Kahn's algorithm with layer tracking.
`P` is the (ghost) list of ids already popped in earlier rounds. -/
theorem kahnLoop_invariant (tasks : List TopologicalTask)
    (adj : String → List String)
    (hadjc : ∀ d j, (adj d).count j =
        if j ∈ tasks.map (·.id) then ((taskOf tasks j).dependencies).count d else 0)
    (hadjm : ∀ d x, x ∈ adj d → x ∈ tasks.map (·.id)) :
    ∀ (fuel : Nat) (indeg : String → Nat) (queue P : List String),
    P.Nodup →
    (∀ i ∈ P, i ∈ tasks.map (·.id)) →
    queue.Nodup →
    (∀ i ∈ queue, i ∈ tasks.map (·.id) ∧ i ∉ P) →
    (∀ i ∈ tasks.map (·.id), indeg i = countNotIn (taskOf tasks i).dependencies P) →
    (∀ i ∈ tasks.map (·.id), (indeg i = 0 ↔ i ∈ P ∨ i ∈ queue)) →
    (tasks.length + 1 ≤ fuel + P.length) →
    ((∀ k layer, (kahnLoop tasks adj fuel indeg queue)[k]? = some layer →
        ∀ t ∈ layer, ∀ d ∈ t.dependencies,
          d ∈ P ∨ d ∈ flatIds ((kahnLoop tasks adj fuel indeg queue).take k))
     ∧ (flatIds (kahnLoop tasks adj fuel indeg queue)).Nodup
     ∧ (∀ i ∈ flatIds (kahnLoop tasks adj fuel indeg queue),
          i ∈ tasks.map (·.id) ∧ i ∉ P)
     ∧ (∀ i ∈ queue, i ∈ flatIds (kahnLoop tasks adj fuel indeg queue))
     ∧ (∀ i ∈ tasks.map (·.id), i ∉ P →
          i ∉ flatIds (kahnLoop tasks adj fuel indeg queue) →
          ∃ d ∈ (taskOf tasks i).dependencies, d ∉ P ∧
            d ∉ flatIds (kahnLoop tasks adj fuel indeg queue))
     ∧ (∀ l ∈ kahnLoop tasks adj fuel indeg queue, l ≠ [])
     ∧ (∀ l ∈ kahnLoop tasks adj fuel indeg queue, ∀ t ∈ l, t = taskOf tasks t.id)) := by
  intro fuel
  induction fuel with
  | zero =>
    intro indeg queue P hPnd hPids hQnd hQ hI hZ hfuel
    exfalso
    have hsub : P.Subperm (tasks.map (·.id)) := hPnd.subperm hPids
    have hlen : P.length ≤ (tasks.map (·.id)).length := hsub.length_le
    rw [List.length_map] at hlen
    omega
  | succ fuel ih =>
    intro indeg queue P hPnd hPids hQnd hQ hI hZ hfuel
    by_cases hq : queue = []
    · have hL : kahnLoop tasks adj (fuel + 1) indeg queue = [] := by
        rw [kahnLoop, if_pos hq]
      refine ⟨?_, ?_, ?_, ?_, ?_, ?_, ?_⟩
      · intro k layer hk
        rw [hL] at hk
        simp at hk
      · rw [hL]
        simp [flatIds]
      · rw [hL]
        intro i hi
        simp [flatIds] at hi
      · rw [hL]
        intro i hi
        rw [hq] at hi
        simp at hi
      · rw [hL]
        intro i hiids hiP _
        have hz := hZ i hiids
        have hnz : ¬ (indeg i = 0) := by
          intro h0
          rcases hz.mp h0 with h | h
          · exact hiP h
          · rw [hq] at h
            simp at h
        have hpos : 0 < countNotIn (taskOf tasks i).dependencies P := by
          rw [hI i hiids] at hnz
          omega
        obtain ⟨d, hd, hdP⟩ := countNotIn_pos_exists _ _ hpos
        exact ⟨d, hd, hdP, by simp [flatIds]⟩
      · rw [hL]
        intro l hl
        simp at hl
      · rw [hL]
        intro l hl
        simp at hl
    · -- the round pops the whole queue as one layer
      have hEmem : ∀ j ∈ queue.flatMap adj, j ∈ tasks.map (·.id) := by
        intro j hj
        obtain ⟨q, _, hja⟩ := List.mem_flatMap.mp hj
        exact hadjm q j hja
      have hEcnt : ∀ j, (queue.flatMap adj).count j =
          if j ∈ tasks.map (·.id)
          then countIn (taskOf tasks j).dependencies queue else 0 := by
        intro j
        rw [count_flatMap]
        by_cases hj : j ∈ tasks.map (·.id)
        · rw [if_pos hj]
          have hmapeq : queue.map (fun q => (adj q).count j)
              = queue.map fun q => ((taskOf tasks j).dependencies).count q := by
            apply List.map_congr_left
            intro q _
            rw [hadjc q j, if_pos hj]
          rw [hmapeq, sum_count_nodup _ _ hQnd]
        · rw [if_neg hj]
          have hmapeq : queue.map (fun q => (adj q).count j)
              = queue.map fun _ => 0 := by
            apply List.map_congr_left
            intro q _
            rw [hadjc q j, if_neg hj]
          rw [hmapeq]
          simp
      have hle : ∀ j, (queue.flatMap adj).count j ≤ indeg j := by
        intro j
        rw [hEcnt j]
        by_cases hj : j ∈ tasks.map (·.id)
        · rw [if_pos hj, hI j hj]
          exact (length_filter_sub (taskOf tasks j).dependencies P queue
            fun d hd => (hQ d hd).2).1
        · rw [if_neg hj]
          exact Nat.zero_le _
      obtain ⟨pushed, hfold, hpnd, hpchar⟩ :=
        foldl_layerStep (queue.flatMap adj) indeg [] hle
      have hPL : processLayer adj queue indeg
          = (fun j => indeg j - (queue.flatMap adj).count j, pushed) := by
        unfold processLayer
        rw [hfold]
        simp
      have hLeq : kahnLoop tasks adj (fuel + 1) indeg queue
          = queue.map (taskOf tasks)
            :: kahnLoop tasks adj fuel
                (fun j => indeg j - (queue.flatMap adj).count j) pushed := by
        rw [kahnLoop, if_neg hq, hPL]
      -- hypotheses of the induction at the next round
      have hdisj : ∀ a ∈ P, a ∉ queue := fun a haP haq => (hQ a haq).2 haP
      have hPnd' : (P ++ queue).Nodup := by
        rw [List.nodup_append]
        exact ⟨hPnd, hQnd, hdisj⟩
      have hPids' : ∀ i ∈ P ++ queue, i ∈ tasks.map (·.id) := by
        intro i hi
        rcases List.mem_append.mp hi with h | h
        · exact hPids i h
        · exact (hQ i h).1
      have hpushed : ∀ i ∈ pushed, i ∈ tasks.map (·.id) ∧ i ∉ P ++ queue := by
        intro i hi
        obtain ⟨hipos, hile⟩ := (hpchar i).mp hi
        have hcntpos : 0 < (queue.flatMap adj).count i := by omega
        have hiids : i ∈ tasks.map (·.id) :=
          hEmem i (List.count_pos_iff.mp hcntpos)
        refine ⟨hiids, ?_⟩
        intro hmem
        have h0 : indeg i = 0 := (hZ i hiids).mpr (List.mem_append.mp hmem)
        omega
      have hI' : ∀ i ∈ tasks.map (·.id),
          (fun j => indeg j - (queue.flatMap adj).count j) i
            = countNotIn (taskOf tasks i).dependencies (P ++ queue) := by
        intro i hiids
        have hsub := (length_filter_sub (taskOf tasks i).dependencies P queue
          fun d hd => (hQ d hd).2).2
        simp only []
        rw [hI i hiids, hEcnt i, if_pos hiids, hsub]
      have hZ' : ∀ i ∈ tasks.map (·.id),
          ((fun j => indeg j - (queue.flatMap adj).count j) i = 0
            ↔ i ∈ P ++ queue ∨ i ∈ pushed) := by
        intro i hiids
        simp only []
        constructor
        · intro h0
          by_cases hiz : indeg i = 0
          · exact Or.inl (List.mem_append.mpr ((hZ i hiids).mp hiz))
          · refine Or.inr ((hpchar i).mpr ⟨by omega, by omega⟩)
        · intro h
          rcases h with h | h
          · have : indeg i = 0 := (hZ i hiids).mpr (List.mem_append.mp h)
            omega
          · obtain ⟨_, hile⟩ := (hpchar i).mp h
            omega
      have hfuel' : tasks.length + 1 ≤ fuel + (P ++ queue).length := by
        rw [List.length_append]
        have : 0 < queue.length := List.length_pos.mpr hq
        omega
      obtain ⟨iha, ihb, ihc, ihd, ihe, ihf, ihg⟩ :=
        ih (fun j => indeg j - (queue.flatMap adj).count j) pushed (P ++ queue)
          hPnd' hPids' hpnd hpushed hI' hZ' hfuel'
      have hlayerids : (queue.map (taskOf tasks)).map (·.id) = queue := by
        rw [List.map_map]
        have : queue.map (fun i => (taskOf tasks i).id) = queue.map id := by
          apply List.map_congr_left
          intro i _
          exact taskOf_id tasks i
        rw [show ((fun x => x.id) ∘ taskOf tasks) = fun i => (taskOf tasks i).id from rfl,
          this, List.map_id]
      have hflat : flatIds (kahnLoop tasks adj (fuel + 1) indeg queue)
          = queue ++ flatIds (kahnLoop tasks adj fuel
              (fun j => indeg j - (queue.flatMap adj).count j) pushed) := by
        rw [hLeq]
        unfold flatIds
        rw [List.flatMap_cons, hlayerids]
      refine ⟨?_, ?_, ?_, ?_, ?_, ?_, ?_⟩
      · intro k layer hk t ht d hd
        rw [hLeq] at hk ⊢
        cases k with
        | zero =>
          rw [List.getElem?_cons_zero] at hk
          obtain rfl := Option.some_injective _ hk.symm
          obtain ⟨i, hiq, rfl⟩ := List.mem_map.mp ht
          have hiids := (hQ i hiq).1
          have hz : indeg i = 0 := (hZ i hiids).mpr (Or.inr hiq)
          have hcnt0 : countNotIn (taskOf tasks i).dependencies P = 0 := by
            rw [← hI i hiids]
            exact hz
          exact Or.inl (countNotIn_eq_zero _ _ hcnt0 d hd)
        | succ k =>
          rw [List.getElem?_cons_succ] at hk
          have := iha k layer hk t ht d hd
          rcases this with h | h
          · rcases List.mem_append.mp h with h' | h'
            · exact Or.inl h'
            · refine Or.inr ?_
              rw [List.take_succ_cons]
              unfold flatIds
              rw [List.flatMap_cons, hlayerids]
              exact List.mem_append.mpr (Or.inl h')
          · refine Or.inr ?_
            rw [List.take_succ_cons]
            unfold flatIds
            rw [List.flatMap_cons, hlayerids]
            refine List.mem_append.mpr (Or.inr ?_)
            exact h
      · rw [hflat, List.nodup_append]
        refine ⟨hQnd, ihb, ?_⟩
        intro a haq haf
        exact (ihc a haf).2 (List.mem_append.mpr (Or.inr haq))
      · rw [hflat]
        intro i hi
        rcases List.mem_append.mp hi with h | h
        · exact hQ i h
        · have := ihc i h
          refine ⟨this.1, fun hp => this.2 (List.mem_append.mpr (Or.inl hp))⟩
      · rw [hflat]
        intro i hi
        exact List.mem_append.mpr (Or.inl hi)
      · rw [hflat]
        intro i hiids hiP hinot
        have hinq : i ∉ queue := fun h => hinot (List.mem_append.mpr (Or.inl h))
        have hinf : i ∉ flatIds (kahnLoop tasks adj fuel
            (fun j => indeg j - (queue.flatMap adj).count j) pushed) :=
          fun h => hinot (List.mem_append.mpr (Or.inr h))
        have hinP' : i ∉ P ++ queue := by
          intro h
          rcases List.mem_append.mp h with h' | h'
          · exact hiP h'
          · exact hinq h'
        obtain ⟨d, hd, hdP', hdf⟩ := ihe i hiids hinP' hinf
        refine ⟨d, hd, fun hp => hdP' (List.mem_append.mpr (Or.inl hp)), ?_⟩
        intro hdm
        rcases List.mem_append.mp hdm with h' | h'
        · exact hdP' (List.mem_append.mpr (Or.inr h'))
        · exact hdf h'
      · rw [hLeq]
        intro l hl
        rcases List.mem_cons.mp hl with rfl | hl'
        · intro hnil
          rw [List.map_eq_nil_iff] at hnil
          exact hq hnil
        · exact ihf l hl'
      · rw [hLeq]
        intro l hl t ht
        rcases List.mem_cons.mp hl with rfl | hl'
        · obtain ⟨i, _, rfl⟩ := List.mem_map.mp ht
          rw [taskOf_id]
        · exact ihg l hl' t ht

/-- `topological_sort` on a non-empty input with `Nodup` ids and fully
resolved dependencies: the result is determined by the Kahn layers `L`, and
`L` satisfies the loop invariant's conclusions (with nothing pre-popped). -/
theorem kahn_main (tasks : List TopologicalTask)
    (hnd : (tasks.map (·.id)).Nodup)
    (hres : ∀ t ∈ tasks, ∀ d ∈ t.dependencies, d ∈ tasks.map (·.id))
    (hne : tasks ≠ []) :
    ∃ L : List (List TopologicalTask),
      topological_sort tasks =
        (if (L.map List.length).sum ≠ tasks.length
         then .error (.CircularDependency "cycle detected in task dependencies")
         else .ok ⟨L, tasks.length⟩)
      ∧ (∀ k layer, L[k]? = some layer → ∀ t ∈ layer, ∀ d ∈ t.dependencies,
          d ∈ flatIds (L.take k))
      ∧ (flatIds L).Nodup
      ∧ (∀ i ∈ flatIds L, i ∈ tasks.map (·.id))
      ∧ (∀ i ∈ tasks.map (·.id), i ∉ flatIds L →
          ∃ d ∈ (taskOf tasks i).dependencies, d ∉ flatIds L)
      ∧ (∀ l ∈ L, l ≠ [])
      ∧ (∀ l ∈ L, ∀ t ∈ l, t = taskOf tasks t.id) := by
  obtain ⟨indeg0, adj0, hbg, hind0, hadj0, hadjm0⟩ :=
    buildGraph_ok (tasks.map (·.id)) tasks hres (fun _ => 0) (fun _ => [])
  have hind : ∀ i, indeg0 i =
      if i ∈ tasks.map (·.id) then (taskOf tasks i).dependencies.length else 0 := by
    intro i
    rw [hind0 i]
    by_cases hi : i ∈ tasks.map (·.id)
    · rw [if_pos hi, filter_id_singleton tasks hnd i hi]
      simp
    · rw [if_neg hi, filter_id_nil tasks i hi]
      simp
  have hadjc : ∀ d j, (adj0 d).count j =
      if j ∈ tasks.map (·.id)
      then ((taskOf tasks j).dependencies).count d else 0 := by
    intro d j
    rw [hadj0 d j]
    by_cases hj : j ∈ tasks.map (·.id)
    · rw [if_pos hj, filter_id_singleton tasks hnd j hj]
      simp
    · rw [if_neg hj, filter_id_nil tasks j hj]
      simp
  have hadjm : ∀ d x, x ∈ adj0 d → x ∈ tasks.map (·.id) := by
    intro d x hx
    rcases hadjm0 d x hx with h | h
    · exact absurd h (List.not_mem_nil x)
    · exact h
  have hQnd : ((tasks.filter fun t => indeg0 t.id == 0).map (·.id)).Nodup := by
    have hsub : (tasks.filter fun t => indeg0 t.id == 0).map (·.id)
        |>.Sublist (tasks.map (·.id)) :=
      (List.filter_sublist tasks).map (·.id)
    exact hnd.sublist hsub
  have hQmem : ∀ i ∈ (tasks.filter fun t => indeg0 t.id == 0).map (·.id),
      i ∈ tasks.map (·.id) ∧ i ∉ ([] : List String) := by
    intro i hi
    obtain ⟨t, ht, rfl⟩ := List.mem_map.mp hi
    have := List.mem_filter.mp ht
    exact ⟨List.mem_map.mpr ⟨t, this.1, rfl⟩, List.not_mem_nil _⟩
  have hI0 : ∀ i ∈ tasks.map (·.id),
      indeg0 i = countNotIn (taskOf tasks i).dependencies [] := by
    intro i hi
    rw [hind i, if_pos hi, countNotIn_nil_right]
  have hZ0 : ∀ i ∈ tasks.map (·.id), (indeg0 i = 0 ↔
      i ∈ ([] : List String) ∨
        i ∈ (tasks.filter fun t => indeg0 t.id == 0).map (·.id)) := by
    intro i hi
    constructor
    · intro h0
      obtain ⟨t, ht, rfl⟩ := List.mem_map.mp hi
      refine Or.inr (List.mem_map.mpr ⟨t, List.mem_filter.mpr ⟨ht, ?_⟩, rfl⟩)
      simp [h0]
    · intro h
      rcases h with h | h
      · exact absurd h (List.not_mem_nil i)
      · obtain ⟨t, ht, rfl⟩ := List.mem_map.mp h
        have := (List.mem_filter.mp ht).2
        simpa using this
  obtain ⟨ka, kb, kc, kd, ke, kf, kg⟩ :=
    kahnLoop_invariant tasks adj0 hadjc hadjm (tasks.length + 1) indeg0
      ((tasks.filter fun t => indeg0 t.id == 0).map (·.id)) []
      List.nodup_nil (by simp) hQnd hQmem hI0 hZ0 (by simp)
  refine ⟨kahnLoop tasks adj0 (tasks.length + 1) indeg0
    ((tasks.filter fun t => indeg0 t.id == 0).map (·.id)), ?_, ?_, kb, ?_, ?_, kf, kg⟩
  · unfold topological_sort
    rw [if_neg hne]
    simp only []
    rw [hbg]
  · intro k layer hk t ht d hd
    rcases ka k layer hk t ht d hd with h | h
    · exact absurd h (List.not_mem_nil d)
    · exact h
  · intro i hi
    exact (kc i hi).1
  · intro i hi hnot
    obtain ⟨d, hd, _, hdnot⟩ := ke i hi (List.not_mem_nil i) hnot
    exact ⟨d, hd, hdnot⟩

/-- Position of a string in a list (ghost rank used in the cycle proofs). -/
def idxOf (a : String) : List String → Nat
  | [] => 0
  | b :: l => if b = a then 0 else idxOf a l + 1

theorem idxOf_append_left (a : String) (l1 l2 : List String) (h : a ∈ l1) :
    idxOf a (l1 ++ l2) < l1.length := by
  induction l1 with
  | nil => simp at h
  | cons b l1 ih =>
    rw [List.cons_append, idxOf]
    by_cases hb : b = a
    · simp [hb]
    · rw [if_neg hb]
      have : a ∈ l1 := by
        rcases List.mem_cons.mp h with rfl | h'
        · exact absurd rfl hb
        · exact h'
      have := ih this
      simp
      omega

theorem idxOf_append_right (a : String) (l1 l2 : List String) (h : a ∉ l1) :
    idxOf a (l1 ++ l2) = l1.length + idxOf a l2 := by
  induction l1 with
  | nil => simp
  | cons b l1 ih =>
    rw [List.cons_append, idxOf]
    have hb : b ≠ a := fun hh => h (hh ▸ List.mem_cons_self b l1)
    rw [if_neg hb, ih (fun hh => h (List.mem_cons.mpr (Or.inr hh)))]
    simp
    omega

/-- When every id is popped, a dependency edge strictly increases the pop
rank, so the layered output certifies acyclicity. -/
theorem layers_edge_rank (tasks : List TopologicalTask)
    (hnd : (tasks.map (·.id)).Nodup)
    (L : List (List TopologicalTask))
    (hlay : ∀ k layer, L[k]? = some layer → ∀ t ∈ layer, ∀ d ∈ t.dependencies,
      d ∈ flatIds (L.take k))
    (hnodup : (flatIds L).Nodup)
    (hform : ∀ l ∈ L, ∀ t ∈ l, t = taskOf tasks t.id)
    (hall : ∀ i ∈ tasks.map (·.id), i ∈ flatIds L) :
    ∀ d i, depEdge tasks d i → idxOf d (flatIds L) < idxOf i (flatIds L) := by
  intro d i hedge
  obtain ⟨t', ht', hid, hd⟩ := hedge
  have hiids : i ∈ tasks.map (·.id) := List.mem_map.mpr ⟨t', ht', hid⟩
  have hipop : i ∈ flatIds L := hall i hiids
  obtain ⟨layer, hlayer, hil⟩ := List.mem_flatMap.mp hipop
  obtain ⟨t, ht, htid⟩ := List.mem_map.mp hil
  obtain ⟨k, hk⟩ := List.mem_iff_getElem?.mp hlayer
  have htt' : t = t' := by
    have h1 : t = taskOf tasks t.id := hform layer hlayer t ht
    have h2 : taskOf tasks t'.id = t' := taskOf_eq_of_mem tasks hnd t' ht'
    rw [h1, htid, ← hid, h2]
  have hdt : d ∈ t.dependencies := htt' ▸ hd
  have hdtake : d ∈ flatIds (L.take k) := hlay k layer hk t ht d hdt
  have hsplit : flatIds L = flatIds (L.take k) ++ flatIds (L.drop k) := by
    unfold flatIds
    rw [← List.flatMap_append, List.take_append_drop]
  have hidrop : i ∈ flatIds (L.drop k) := by
    have hk0 : (L.drop k)[0]? = some layer := by
      rw [List.getElem?_drop]
      simpa using hk
    have : layer ∈ L.drop k := by
      have := List.getElem?_mem hk0
      exact this
    exact List.mem_flatMap.mpr ⟨layer, this, hil⟩
  have hitake : i ∉ flatIds (L.take k) := by
    intro hmem
    rw [hsplit, List.nodup_append] at hnodup
    exact hnodup.2.2 hmem hidrop
  rw [hsplit]
  have h1 := idxOf_append_left d (flatIds (L.take k)) (flatIds (L.drop k)) hdtake
  have h2 := idxOf_append_right i (flatIds (L.take k)) (flatIds (L.drop k)) hitake
  omega

theorem no_cycle_of_layers (tasks : List TopologicalTask)
    (hnd : (tasks.map (·.id)).Nodup)
    (L : List (List TopologicalTask))
    (hlay : ∀ k layer, L[k]? = some layer → ∀ t ∈ layer, ∀ d ∈ t.dependencies,
      d ∈ flatIds (L.take k))
    (hnodup : (flatIds L).Nodup)
    (hform : ∀ l ∈ L, ∀ t ∈ l, t = taskOf tasks t.id)
    (hall : ∀ i ∈ tasks.map (·.id), i ∈ flatIds L) :
    ¬ HasCycle tasks := by
  intro ⟨x, hx⟩
  have hmono := layers_edge_rank tasks hnd L hlay hnodup hform hall
  have hrank : ∀ a b, Relation.TransGen (depEdge tasks) a b →
      idxOf a (flatIds L) < idxOf b (flatIds L) := by
    intro a b h
    induction h with
    | single h => exact hmono _ _ h
    | tail _ h ihab => exact lt_trans ihab (hmono _ _ h)
  exact absurd (hrank x x hx) (lt_irrefl _)

/-- If every unpopped id keeps an unpopped dependency, iterating the choice
of such a dependency must revisit an id, producing a cycle. -/
theorem cycle_of_residue (tasks : List TopologicalTask)
    (hres : ∀ t ∈ tasks, ∀ d ∈ t.dependencies, d ∈ tasks.map (·.id))
    (popped : List String)
    (hresidue : ∀ i ∈ tasks.map (·.id), i ∉ popped →
      ∃ d ∈ (taskOf tasks i).dependencies, d ∉ popped)
    (hex : ∃ i ∈ tasks.map (·.id), i ∉ popped) : HasCycle tasks := by
  classical
  obtain ⟨i0, hi0ids, hi0⟩ := hex
  let g : String → String := fun i =>
    if h : i ∈ tasks.map (·.id) ∧ i ∉ popped
    then (hresidue i h.1 h.2).choose else i
  have hgdep : ∀ i, i ∈ tasks.map (·.id) → i ∉ popped →
      g i ∈ (taskOf tasks i).dependencies ∧ g i ∉ popped := by
    intro i h1 h2
    have hspec := (hresidue i h1 h2).choose_spec
    have : g i = (hresidue i h1 h2).choose := by
      simp only [g, dif_pos (And.intro h1 h2)]
    rw [this]
    exact hspec
  have hgB : ∀ i, i ∈ tasks.map (·.id) → i ∉ popped →
      (g i ∈ tasks.map (·.id) ∧ g i ∉ popped) := by
    intro i h1 h2
    obtain ⟨hdep, hnp⟩ := hgdep i h1 h2
    exact ⟨hres (taskOf tasks i) (taskOf_mem tasks i h1) (g i) hdep, hnp⟩
  have hseq : ∀ n, g^[n] i0 ∈ tasks.map (·.id) ∧ g^[n] i0 ∉ popped := by
    intro n
    induction n with
    | zero => exact ⟨hi0ids, hi0⟩
    | succ n ihn =>
      rw [Function.iterate_succ_apply']
      exact hgB _ ihn.1 ihn.2
  have hedge : ∀ n, depEdge tasks (g^[n + 1] i0) (g^[n] i0) := by
    intro n
    have h := hseq n
    obtain ⟨hdep, _⟩ := hgdep _ h.1 h.2
    rw [Function.iterate_succ_apply']
    exact ⟨taskOf tasks (g^[n] i0), taskOf_mem tasks _ h.1, taskOf_id tasks _, hdep⟩
  have htg : ∀ j m, Relation.TransGen (depEdge tasks) (g^[m + j + 1] i0) (g^[m] i0) := by
    intro j
    induction j with
    | zero => exact fun m => Relation.TransGen.single (hedge m)
    | succ j ihj =>
      intro m
      have h1 : depEdge tasks (g^[m + (j + 1) + 1] i0) (g^[m + j + 1] i0) := by
        have := hedge (m + j + 1)
        have harith : m + j + 1 + 1 = m + (j + 1) + 1 := by omega
        rwa [harith] at this
      exact Relation.TransGen.head h1 (ihj m)
  -- pigeonhole over the first |ids| + 1 iterates
  have hmaps : ∀ n ∈ Finset.range ((tasks.map (·.id)).length + 1),
      g^[n] i0 ∈ (tasks.map (·.id)).toFinset := by
    intro n _
    exact List.mem_toFinset.mpr (hseq n).1
  have hcard : (tasks.map (·.id)).toFinset.card
      < (Finset.range ((tasks.map (·.id)).length + 1)).card := by
    rw [Finset.card_range]
    have := (tasks.map (·.id)).toFinset_card_le
    omega
  obtain ⟨a, ha, b, hb, hab, heq⟩ :=
    Finset.exists_ne_map_eq_of_card_lt_of_maps_to hcard hmaps
  rcases Nat.lt_or_ge a b with hlt | hge
  · have h := htg (b - a - 1) a
    have harith : a + (b - a - 1) + 1 = b := by omega
    rw [harith] at h
    rw [heq] at h
    exact ⟨g^[b] i0, h⟩
  · have hlt : b < a := by
      rcases Nat.lt_or_ge b a with h | h
      · exact h
      · exact absurd (Nat.le_antisymm h hge) hab
    have h := htg (a - b - 1) b
    have harith : b + (a - b - 1) + 1 = a := by omega
    rw [harith] at h
    rw [← heq] at h
    exact ⟨g^[a] i0, h⟩

theorem buildGraph_ok_resolve (task_ids : List String) (tasks0 : List TopologicalTask)
    (indeg : String → Nat) (adj : String → List String) (pr)
    (h : buildGraph task_ids tasks0 indeg adj = .ok pr) :
    ∀ t ∈ tasks0, ∀ d ∈ t.dependencies, d ∈ task_ids := by
  induction tasks0 generalizing indeg adj with
  | nil => simp
  | cons t rest ih =>
    rw [buildGraph] at h
    cases hbd : buildDeps task_ids t.id t.dependencies indeg adj with
    | error e => rw [hbd] at h; exact absurd h (by simp)
    | ok pr1 =>
      rw [hbd] at h
      intro s hs
      rcases List.mem_cons.mp hs with rfl | hs'
      · exact buildDeps_ok_resolve _ _ _ _ _ _ hbd
      · exact ih _ _ h s hs'

theorem buildGraph_err (task_ids : List String) (tasks0 : List TopologicalTask)
    (h : ∃ t ∈ tasks0, ∃ d ∈ t.dependencies, d ∉ task_ids) :
    ∀ (indeg : String → Nat) (adj : String → List String),
    ∃ d, buildGraph task_ids tasks0 indeg adj = .error (.UnknownDependency d)
      ∧ (∃ t ∈ tasks0, d ∈ t.dependencies) ∧ d ∉ task_ids := by
  induction tasks0 with
  | nil => simp at h
  | cons t rest ih =>
    intro indeg adj
    by_cases ht : ∀ d ∈ t.dependencies, d ∈ task_ids
    · obtain ⟨indeg1, adj1, heq1, _, _, _⟩ :=
        buildDeps_ok task_ids t.id t.dependencies ht indeg adj
      have hrest : ∃ s ∈ rest, ∃ d ∈ s.dependencies, d ∉ task_ids := by
        rcases h with ⟨s, hs, d, hd, hdn⟩
        rcases List.mem_cons.mp hs with rfl | hs'
        · exact absurd (ht d hd) hdn
        · exact ⟨s, hs', d, hd, hdn⟩
      obtain ⟨d, heq, ⟨s, hs, hd⟩, hdn⟩ := ih hrest indeg1 adj1
      refine ⟨d, ?_, ⟨s, by simp [hs], hd⟩, hdn⟩
      rw [buildGraph, heq1]
      exact heq
    · push_neg at ht
      obtain ⟨d, heq, hd, hdn⟩ := buildDeps_err task_ids t.id t.dependencies
        (by rcases ht with ⟨d, hd, hdn⟩; exact ⟨d, hd, hdn⟩) indeg adj
      refine ⟨d, ?_, ⟨t, by simp, hd⟩, hdn⟩
      rw [buildGraph, heq]

theorem hasCycle_tasks_ne_nil (tasks : List TopologicalTask) (h : HasCycle tasks) :
    tasks ≠ [] := by
  obtain ⟨x, hx⟩ := h
  cases hx with
  | single h => obtain ⟨t, ht, _⟩ := h; exact List.ne_nil_of_mem ht
  | tail _ h => obtain ⟨t, ht, _⟩ := h; exact List.ne_nil_of_mem ht

/-- C3: `topological_sort` returns `UnknownDependency` exactly for inputs
with an unresolved dependency id; on resolved inputs it returns
`CircularDependency` exactly when the dependency graph has a cycle; an `Ok`
result has `total_tasks` = input size, only non-empty layers, and every
dependency of a task of layer `k` placed in a layer of index `< k`; the
empty input yields `Ok` with no layers.  (Input ids are assumed distinct:
the source keys its maps by id, so the input is a set of tasks.) -/
theorem C3_topological_sort (tasks : List TopologicalTask)
    (hnd : (tasks.map (·.id)).Nodup) :
    ((∃ t ∈ tasks, ∃ d ∈ t.dependencies, d ∉ tasks.map (·.id)) →
      ∃ d, topological_sort tasks = .error (.UnknownDependency d)
        ∧ (∃ t ∈ tasks, d ∈ t.dependencies) ∧ d ∉ tasks.map (·.id))
    ∧ (∀ d, topological_sort tasks = .error (.UnknownDependency d) →
        (∃ t ∈ tasks, d ∈ t.dependencies) ∧ d ∉ tasks.map (·.id))
    ∧ (∀ TL, topological_sort tasks = .ok TL →
        TL.total_tasks = tasks.length
        ∧ (∀ l ∈ TL.layers, l ≠ [])
        ∧ (∀ (k : Nat) (layer : List TopologicalTask), TL.layers[k]? = some layer →
            ∀ t ∈ layer, ∀ d ∈ t.dependencies,
              ∃ (k' : Nat) (layer' : List TopologicalTask),
                k' < k ∧ TL.layers[k']? = some layer' ∧ ∃ t' ∈ layer', t'.id = d))
    ∧ (tasks = [] → topological_sort tasks = .ok ⟨[], 0⟩)
    ∧ ((∀ t ∈ tasks, ∀ d ∈ t.dependencies, d ∈ tasks.map (·.id)) → HasCycle tasks →
        topological_sort tasks
          = .error (.CircularDependency "cycle detected in task dependencies"))
    ∧ (∀ msg, topological_sort tasks = .error (.CircularDependency msg) →
        HasCycle tasks) := by
  by_cases hne : tasks = []
  · subst hne
    have hok : topological_sort ([] : List TopologicalTask) = .ok ⟨[], 0⟩ := rfl
    refine ⟨?_, ?_, ?_, fun _ => hok, ?_, ?_⟩
    · intro ⟨t, ht, _⟩
      exact absurd ht (List.not_mem_nil t)
    · intro d hd
      rw [hok] at hd
      exact absurd hd (by simp)
    · intro TL hTL
      rw [hok] at hTL
      obtain rfl := Except.ok.inj hTL
      refine ⟨rfl, by simp, ?_⟩
      intro k layer hk
      simp at hk
    · intro _ hc
      exact absurd rfl (hasCycle_tasks_ne_nil _ hc)
    · intro msg hmsg
      rw [hok] at hmsg
      exact absurd hmsg (by simp)
  · by_cases hres : ∀ t ∈ tasks, ∀ d ∈ t.dependencies, d ∈ tasks.map (·.id)
    · obtain ⟨L, heq, hlay, hnodup, hids, hresidue, hnonempty, hform⟩ :=
        kahn_main tasks hnd hres hne
      have hlen : (L.map List.length).sum = (flatIds L).length :=
        sum_length_eq_flatIds_length L
      have hflatsub : (flatIds L).Subperm (tasks.map (·.id)) :=
        hnodup.subperm hids
      have hflatle : (flatIds L).length ≤ tasks.length := by
        have := hflatsub.length_le
        rwa [List.length_map] at this
      by_cases hall : (L.map List.length).sum = tasks.length
      · have hsort : topological_sort tasks = .ok ⟨L, tasks.length⟩ := by
          rw [heq, if_neg (by omega)]
        have hperm : (flatIds L).Perm (tasks.map (·.id)) :=
          hflatsub.perm_of_length_le (by rw [List.length_map]; omega)
        have hallpop : ∀ i ∈ tasks.map (·.id), i ∈ flatIds L := by
          intro i hi
          exact hperm.mem_iff.mpr hi
        refine ⟨?_, ?_, ?_, fun h => absurd h hne, ?_, ?_⟩
        · intro ⟨t, ht, d, hd, hdn⟩
          exact absurd (hres t ht d hd) hdn
        · intro d hd
          rw [hsort] at hd
          exact absurd hd (by simp)
        · intro TL hTL
          rw [hsort] at hTL
          obtain rfl := Except.ok.inj hTL
          refine ⟨rfl, hnonempty, ?_⟩
          intro k layer hk t ht d hd
          have hdtake : d ∈ flatIds (L.take k) := hlay k layer hk t ht d hd
          obtain ⟨layer', hlayer', hd'⟩ := List.mem_flatMap.mp hdtake
          obtain ⟨k', hk'⟩ := List.mem_iff_getElem?.mp hlayer'
          have hk'lt : k' < (L.take k).length := by
            by_contra hge
            rw [List.getElem?_eq_none (by omega)] at hk'
            exact absurd hk' (by simp)
          have hk'k : k' < k := lt_of_lt_of_le hk'lt (by
            rw [List.length_take]
            exact min_le_left _ _)
          have hLk' : L[k']? = some layer' := by
            rw [← List.getElem?_take_of_lt hk'k]
            exact hk'
          obtain ⟨t', ht', hid'⟩ := List.mem_map.mp hd'
          exact ⟨k', layer', hk'k, hLk', t', ht', hid'⟩
        · intro _ hc
          exact absurd hc (no_cycle_of_layers tasks hnd L hlay hnodup hform hallpop)
        · intro msg hmsg
          rw [hsort] at hmsg
          exact absurd hmsg (by simp)
      · have hsort : topological_sort tasks
            = .error (.CircularDependency "cycle detected in task dependencies") := by
          rw [heq, if_pos hall]
        have hcyc : HasCycle tasks := by
          apply cycle_of_residue tasks hres (flatIds L) hresidue
          by_contra hno
          push_neg at hno
          have hsub2 : (tasks.map (·.id)).Subperm (flatIds L) :=
            hnd.subperm hno
          have := hsub2.length_le
          rw [List.length_map] at this
          omega
        refine ⟨?_, ?_, ?_, fun h => absurd h hne, fun _ _ => hsort, fun _ _ => hcyc⟩
        · intro ⟨t, ht, d, hd, hdn⟩
          exact absurd (hres t ht d hd) hdn
        · intro d hd
          rw [hsort] at hd
          simp at hd
        · intro TL hTL
          rw [hsort] at hTL
          exact absurd hTL (by simp)
    · push_neg at hres
      obtain ⟨t0, ht0, d0, hd0, hd0n⟩ := hres
      obtain ⟨d, hbgeq, hdin, hdn⟩ := buildGraph_err (tasks.map (·.id)) tasks
        ⟨t0, ht0, d0, hd0, hd0n⟩ (fun _ => 0) (fun _ => [])
      have hsort : topological_sort tasks = .error (.UnknownDependency d) := by
        unfold topological_sort
        rw [if_neg hne]
        simp only []
        rw [hbgeq]
      refine ⟨fun _ => ⟨d, hsort, hdin, hdn⟩, ?_, ?_, fun h => absurd h hne, ?_, ?_⟩
      · intro d' hd'
        rw [hsort] at hd'
        have : d = d' := by
          have := Except.error.inj hd'
          exact TopologyError.UnknownDependency.inj this
        subst this
        exact ⟨hdin, hdn⟩
      · intro TL hTL
        rw [hsort] at hTL
        exact absurd hTL (by simp)
      · intro hresolve _
        exact absurd (hresolve t0 ht0 d0 hd0) hd0n
      · intro msg hmsg
        rw [hsort] at hmsg
        have := Except.error.inj hmsg
        exact absurd this (by simp)

/-- Witness for C3 on the diamond DAG of scenario S1: a; b←a; c←a; d←{b,c}.
The sort succeeds with layers [a], [b,c], [d]. -/
theorem C3_topological_sort_witness :
    topological_sort
        [⟨"a", [], ""⟩, ⟨"b", ["a"], ""⟩, ⟨"c", ["a"], ""⟩, ⟨"d", ["b", "c"], ""⟩]
      = .ok ⟨[[⟨"a", [], ""⟩], [⟨"b", ["a"], ""⟩, ⟨"c", ["a"], ""⟩],
          [⟨"d", ["b", "c"], ""⟩]], 4⟩
    ∧ (⟨[[⟨"a", [], ""⟩], [⟨"b", ["a"], ""⟩, ⟨"c", ["a"], ""⟩],
          [⟨"d", ["b", "c"], ""⟩]], 4⟩ : TaskLayers).total_tasks
        = [(⟨"a", [], ""⟩ : TopologicalTask), ⟨"b", ["a"], ""⟩, ⟨"c", ["a"], ""⟩,
            ⟨"d", ["b", "c"], ""⟩].length := by
  constructor
  · rfl
  · exact ((C3_topological_sort
      [⟨"a", [], ""⟩, ⟨"b", ["a"], ""⟩, ⟨"c", ["a"], ""⟩, ⟨"d", ["b", "c"], ""⟩]
      (by decide)).2.2.1 _ rfl).1

end Topology

/-! ## Task pipeline (`code-rs/code-auto-drive-core/src/task_pipeline.rs`)

`HashMap`s become association lists: `alInsert` mirrors `HashMap::insert`
(replace in place, else append); lookup reads the first (only) match.
`Instant::now()` readings are the explicit `now : Nat` arguments. -/

namespace Pipeline

/-- Association-list lookup (`HashMap::get`). -/
def alLookup {κ α : Type} [DecidableEq κ] (m : List (κ × α)) (k : κ) : Option α :=
  (m.find? fun pr => decide (pr.1 = k)).map (·.2)

/-- Association-list insert (`HashMap::insert`): replace in place when the
key is present, append otherwise. -/
def alInsert {κ α : Type} [DecidableEq κ] (m : List (κ × α)) (k : κ) (v : α) :
    List (κ × α) :=
  if (m.find? fun pr => decide (pr.1 = k)).isSome
  then m.map fun pr => if pr.1 = k then (k, v) else pr
  else m ++ [(k, v)]

inductive PipelineStage
  | Queued
  | Planning
  | Implementing
  | Testing
  | Reviewing
  | Completed
  | Failed
deriving DecidableEq, Repr

/-- `task_pipeline.rs::PipelineStage::next`. -/
def PipelineStage.next : PipelineStage → Option PipelineStage
  | .Queued => some .Planning
  | .Planning => some .Implementing
  | .Implementing => some .Testing
  | .Testing => some .Reviewing
  | .Reviewing => some .Completed
  | .Completed => none
  | .Failed => none

/-- `task_pipeline.rs::PipelineStage::active_roles`. -/
def PipelineStage.active_roles : PipelineStage → List String
  | .Queued => []
  | .Planning => ["Coordinator", "Architect"]
  | .Implementing => ["Executor-1", "Executor-2", "Executor-3"]
  | .Testing => ["Tester", "Debugger"]
  | .Reviewing => ["Reviewer"]
  | .Completed => []
  | .Failed => []

structure StageOutput where
  stage : PipelineStage
  content : String
  tokens_used : Int
  duration_ms : Nat
  success : Bool
  error : Option String
deriving DecidableEq, Repr

structure RoleResult where
  output : String
  success : Bool
deriving DecidableEq, Repr

structure PipelineTask where
  id : String
  description : String
  stage : PipelineStage
  stage_outputs : List (PipelineStage × StageOutput)
  created_at : Nat
  stage_changed_at : Nat
  retries : Int
  role_results : List (PipelineStage × List (String × RoleResult))
deriving DecidableEq, Repr

inductive PipelineError
  | TaskNotFound (task_id : String)
  | InvalidTransition (from_stage to_stage : PipelineStage)
  | RoleFailed (role error : String)
deriving DecidableEq, Repr

inductive StageAction
  | Advance (stage : PipelineStage)
  | Wait
  | Fail (role error : String)
deriving DecidableEq, Repr

/-- Modelled from the spec: `AgentId` (`crate::scheduler`) is not under
`src/`; a numeric agent identifier. -/
structure AgentId where
  val : Nat
deriving DecidableEq, Repr

/-- Modelled from the spec: `AgentTask` (`crate::scheduler`) is not under
`src/`; carries the fields `get_stage_tasks` fills per §4.6 of the spec. -/
structure AgentTask where
  id : AgentId
  prompt : String
  context : Option String
  write_access : Bool
  models : Option (List String)
  dispatch_order : Nat
deriving DecidableEq, Repr

/-- `PipelineTask::new`. -/
def PipelineTask.new (id description : String) (now : Nat) : PipelineTask :=
  { id := id, description := description, stage := .Queued, stage_outputs := [],
    created_at := now, stage_changed_at := now, retries := 0, role_results := [] }

/-- `PipelineTask::advance`: move to the next stage if one exists. -/
def PipelineTask.advance (t : PipelineTask) (now : Nat) : Bool × PipelineTask :=
  match t.stage.next with
  | some nxt => (true, { t with stage := nxt, stage_changed_at := now })
  | none => (false, t)

/-- `PipelineTask::record_output`. -/
def PipelineTask.record_output (t : PipelineTask) (o : StageOutput) : PipelineTask :=
  { t with stage_outputs := alInsert t.stage_outputs o.stage o }

/-- `PipelineTask::fail`: record a failing StageOutput for the current stage
and jump to Failed. -/
def PipelineTask.fail (t : PipelineTask) (error : String) (now : Nat) : PipelineTask :=
  { t with
    stage_outputs := alInsert t.stage_outputs t.stage
      { stage := t.stage, content := "", tokens_used := 0,
        duration_ms := now - t.stage_changed_at, success := false,
        error := some error },
    stage := .Failed,
    stage_changed_at := now }

/-- `PipelineTask::is_terminal`. -/
def PipelineTask.is_terminal (t : PipelineTask) : Bool :=
  decide (t.stage = PipelineStage.Completed ∨ t.stage = PipelineStage.Failed)

structure TaskPipeline where
  tasks : List (String × PipelineTask)
  stage_counts : List (PipelineStage × Int)
  next_agent_id : Int
deriving DecidableEq, Repr

/-- `TaskPipeline::new`. -/
def TaskPipeline.new : TaskPipeline := ⟨[], [], 1⟩

/-- `*self.stage_counts.entry(stage).or_insert(0) += 1`. -/
def countsIncr (counts : List (PipelineStage × Int)) (s : PipelineStage) :
    List (PipelineStage × Int) :=
  match alLookup counts s with
  | some c => alInsert counts s (c + 1)
  | none => counts ++ [(s, 1)]

/-- `if let Some(count) = self.stage_counts.get_mut(&s) { *count = count.saturating_sub(1) }`. -/
def countsDecr (counts : List (PipelineStage × Int)) (s : PipelineStage) :
    List (PipelineStage × Int) :=
  match alLookup counts s with
  | some c => alInsert counts s (satSub64 c 1)
  | none => counts

/-- `TaskPipeline::update_stage_counts`. -/
def TaskPipeline.update_stage_counts (counts : List (PipelineStage × Int))
    (old_stage new_stage : PipelineStage) : List (PipelineStage × Int) :=
  if old_stage = new_stage then counts
  else countsIncr (countsDecr counts old_stage) new_stage

/-- `TaskPipeline::add`. -/
def TaskPipeline.add (p : TaskPipeline) (task : PipelineTask) : TaskPipeline :=
  { p with stage_counts := countsIncr p.stage_counts task.stage,
           tasks := alInsert p.tasks task.id task }

/-- `TaskPipeline::create_from_goal`; the fresh uuid is the `id` argument. -/
def TaskPipeline.create_from_goal (p : TaskPipeline) (goal : String) (id : String)
    (now : Nat) : TaskPipeline × String :=
  (p.add (PipelineTask.new id goal now), id)

/-- `TaskPipeline::get`. -/
def TaskPipeline.get (p : TaskPipeline) (id : String) : Option PipelineTask :=
  alLookup p.tasks id

/-- `TaskPipeline::get_stage_tasks`: one AgentTask per active role. -/
def TaskPipeline.get_stage_tasks (p : TaskPipeline) (id : String) :
    Except PipelineError (List AgentTask) × TaskPipeline :=
  match alLookup p.tasks id with
  | none => (.error (.TaskNotFound id), p)
  | some task =>
    let res := task.stage.active_roles.enum.foldl
      (fun (acc : List AgentTask × Int) ir =>
        (acc.1 ++ [{ id := ⟨(max acc.2 1).toNat⟩,
                     prompt := "[" ++ ir.2 ++ "] " ++ task.description,
                     context := none,
                     write_access := ir.2.startsWith "Executor",
                     models := none,
                     dispatch_order := ir.1 }],
         satAdd64 acc.2 1))
      ([], p.next_agent_id)
    (.ok res.1, { p with next_agent_id := res.2 })

/-- `TaskPipeline::handle_role_complete`. -/
def TaskPipeline.handle_role_complete (p : TaskPipeline) (task_id role result : String)
    (success : Bool) (now : Nat) : Except PipelineError StageAction × TaskPipeline :=
  match alLookup p.tasks task_id with
  | none => (.error (.TaskNotFound task_id), p)
  | some task0 =>
    let stage := task0.stage
    let progress := alInsert ((alLookup task0.role_results stage).getD []) role
      { output := result, success := success }
    let task1 := { task0 with role_results := alInsert task0.role_results stage progress }
    if success = false then
      let task2 := task1.fail result now
      ( .ok (.Fail role result),
        { p with tasks := alInsert p.tasks task_id task2,
                 stage_counts := update_stage_counts p.stage_counts stage task2.stage } )
    else
      if stage.active_roles ≠ [] ∧ (∀ r ∈ stage.active_roles, r ∈ progress.map (·.1)) then
        let content := String.intercalate "\n"
          (progress.map fun pr => pr.1 ++ ": " ++ pr.2.output)
        let task2 := task1.record_output
          { stage := stage, content := content, tokens_used := 0,
            duration_ms := now - task1.stage_changed_at, success := true, error := none }
        let adv := task2.advance now
        if adv.1 then
          ( .ok (.Advance adv.2.stage),
            { p with tasks := alInsert p.tasks task_id adv.2,
                     stage_counts := update_stage_counts p.stage_counts stage adv.2.stage } )
        else
          ( .ok .Wait, { p with tasks := alInsert p.tasks task_id adv.2 } )
      else
        ( .ok .Wait, { p with tasks := alInsert p.tasks task_id task1 } )

/-- `TaskPipeline::advance`. -/
def TaskPipeline.advance (p : TaskPipeline) (id : String) (now : Nat) :
    Bool × TaskPipeline :=
  match alLookup p.tasks id with
  | none => (false, p)
  | some task =>
    let old_stage := task.stage
    let adv := task.advance now
    if adv.1 then
      (true, { p with tasks := alInsert p.tasks id adv.2,
                      stage_counts := update_stage_counts p.stage_counts old_stage adv.2.stage })
    else
      (false, { p with tasks := alInsert p.tasks id adv.2 })

/-- `TaskPipeline::tasks_at_stage`. -/
def TaskPipeline.tasks_at_stage (p : TaskPipeline) (s : PipelineStage) :
    List PipelineTask :=
  (p.tasks.filter fun pr => pr.2.stage = s).map (·.2)

/-- `TaskPipeline::drain_terminal`: remove completed/failed tasks, decrement
their stage counters, and return them. -/
def TaskPipeline.drain_terminal (p : TaskPipeline) : List PipelineTask × TaskPipeline :=
  let terminal := p.tasks.filter fun pr => pr.2.is_terminal
  ( terminal.map (·.2),
    { p with tasks := p.tasks.filter fun pr => ¬ pr.2.is_terminal,
             stage_counts := terminal.foldl
               (fun cs pr => countsDecr cs pr.2.stage) p.stage_counts } )

theorem alLookup_nil {κ α : Type} [DecidableEq κ] (k : κ) :
    alLookup ([] : List (κ × α)) k = none := rfl

theorem alLookup_cons {κ α : Type} [DecidableEq κ] (pr : κ × α) (m : List (κ × α)) (k : κ) :
    alLookup (pr :: m) k = if pr.1 = k then some pr.2 else alLookup m k := by
  unfold alLookup
  by_cases h : pr.1 = k
  · rw [List.find?_cons_of_pos _ (by simpa using h), if_pos h]
    rfl
  · rw [List.find?_cons_of_neg _ (by simpa using h), if_neg h]

theorem alLookup_map_update_self {κ α : Type} [DecidableEq κ] (m : List (κ × α))
    (k : κ) (v : α) (hp : (m.find? fun pr => decide (pr.1 = k)).isSome) :
    alLookup (m.map fun pr => if pr.1 = k then (k, v) else pr) k = some v := by
  induction m with
  | nil => simp at hp
  | cons pr m ih =>
    rw [List.map_cons]
    by_cases h : pr.1 = k
    · rw [if_pos h, alLookup_cons, if_pos rfl]
    · rw [if_neg h, alLookup_cons, if_neg h]
      apply ih
      rw [List.find?_cons_of_neg _ (by simpa using h)] at hp
      exact hp

theorem alLookup_map_update_ne {κ α : Type} [DecidableEq κ] (m : List (κ × α))
    (k : κ) (v : α) (k' : κ) (h : k' ≠ k) :
    alLookup (m.map fun pr => if pr.1 = k then (k, v) else pr) k' = alLookup m k' := by
  induction m with
  | nil => rfl
  | cons pr m ih =>
    rw [List.map_cons]
    by_cases hpr : pr.1 = k
    · rw [if_pos hpr, alLookup_cons, alLookup_cons, if_neg (Ne.symm h),
        if_neg (fun hk => h (hpr.symm.trans hk).symm)]
      exact ih
    · rw [if_neg hpr, alLookup_cons, alLookup_cons]
      by_cases hpk : pr.1 = k'
      · rw [if_pos hpk, if_pos hpk]
      · rw [if_neg hpk, if_neg hpk]
        exact ih

theorem alLookup_append_single_self {κ α : Type} [DecidableEq κ] (m : List (κ × α))
    (k : κ) (v : α) (habs : (m.find? fun pr => decide (pr.1 = k)).isSome = false) :
    alLookup (m ++ [(k, v)]) k = some v := by
  induction m with
  | nil => simp [alLookup_cons]
  | cons pr m ih =>
    rw [List.cons_append, alLookup_cons]
    by_cases h : pr.1 = k
    · rw [List.find?_cons_of_pos _ (by simpa using h)] at habs
      simp at habs
    · rw [if_neg h]
      apply ih
      rw [List.find?_cons_of_neg _ (by simpa using h)] at habs
      exact habs

theorem alLookup_append_single_ne {κ α : Type} [DecidableEq κ] (m : List (κ × α))
    (k : κ) (v : α) (k' : κ) (h : k' ≠ k) :
    alLookup (m ++ [(k, v)]) k' = alLookup m k' := by
  induction m with
  | nil => simp [alLookup_cons, alLookup_nil, Ne.symm h]
  | cons pr m ih =>
    rw [List.cons_append, alLookup_cons, alLookup_cons]
    by_cases hpk : pr.1 = k'
    · rw [if_pos hpk, if_pos hpk]
    · rw [if_neg hpk, if_neg hpk]
      exact ih

/-- `HashMap::insert` then `get`: the inserted key reads back the new value,
all other keys are unaffected. -/
theorem alLookup_alInsert {κ α : Type} [DecidableEq κ] (m : List (κ × α))
    (k : κ) (v : α) (k' : κ) :
    alLookup (alInsert m k v) k' = if k' = k then some v else alLookup m k' := by
  unfold alInsert
  by_cases hp : (m.find? fun pr => decide (pr.1 = k)).isSome
  · rw [if_pos hp]
    by_cases h : k' = k
    · subst h
      rw [if_pos rfl]
      exact alLookup_map_update_self m k' v hp
    · rw [if_neg h]
      exact alLookup_map_update_ne m k v k' h
  · rw [if_neg hp]
    by_cases h : k' = k
    · subst h
      rw [if_pos rfl]
      exact alLookup_append_single_self m k' v (Bool.eq_false_iff.mpr hp)
    · rw [if_neg h]
      exact alLookup_append_single_ne m k v k' h

/-- Existence form of the insert-then-get law, convenient for goals about a
freshly inserted entry. -/
theorem alInsert_lookup_exists {κ α : Type} [DecidableEq κ] (m : List (κ × α))
    (k : κ) (v : α) (Q : α → Prop) (hQ : Q v) :
    ∃ x, alLookup (alInsert m k v) k = some x ∧ Q x := by
  refine ⟨v, ?_, hQ⟩
  rw [alLookup_alInsert, if_pos rfl]

/-! ### Claim C4: `handle_role_complete` -/

/-- C4 counterexample: the claim advances only when the set of roles that
reported successfully EQUALS `active_roles(current_stage)`, and otherwise
returns `Wait`.  The code instead tests `active_roles ⊆ reported` (a
superset of reporters is fine).  With a task in Planning whose recorded
role results already contain the non-active role "Extra", completing
Coordinator and Architect yields `Advance(Implementing)` although the
reported set {Extra, Coordinator, Architect} differs from
`active_roles(Planning)` = {Coordinator, Architect}; the claim requires
`Wait` there. -/
theorem C4_handle_role_complete_counterexample :
    (TaskPipeline.handle_role_complete
        ⟨[("t1", { id := "t1", description := "Goal", stage := .Planning,
                   stage_outputs := [], created_at := 0, stage_changed_at := 0,
                   retries := 0,
                   role_results := [(.Planning,
                     [("Extra", ⟨"x", true⟩), ("Coordinator", ⟨"ok", true⟩)])] })],
          [(.Planning, 1)], 1⟩
        "t1" "Architect" "ok" true 5).1
      = .ok (.Advance .Implementing)
    ∧ .ok (.Advance .Implementing) ≠ (Except.ok StageAction.Wait :
        Except PipelineError StageAction)
    ∧ "Extra" ∉ PipelineStage.Planning.active_roles
    ∧ ("Extra", (⟨"x", true⟩ : RoleResult)) ∈
        (alInsert [("Extra", (⟨"x", true⟩ : RoleResult)), ("Coordinator", ⟨"ok", true⟩)]
          "Architect" ⟨"ok", true⟩) := by
  refine ⟨rfl, by simp, by decide, by decide⟩

/-- C4 as amended: an unknown task id yields `TaskNotFound`; a failing role
report fails the task, records an erroring `StageOutput` for the stage the
task was in, and returns `Fail{role, error}`; a successful report advances
(returning `Advance(next)` and recording a successful `StageOutput` whose
content joins the reported results as "<role>: <output>" lines) exactly
when `active_roles(current_stage)` is non-empty and every active role is
among the roles recorded for the current stage (regardless of the success
flag of earlier records — a superset of reporters is allowed); in every
other successful case it returns `Wait`. -/
theorem C4_handle_role_complete (p : TaskPipeline) (task_id role output : String)
    (success : Bool) (now : Nat) :
    (alLookup p.tasks task_id = none →
      p.handle_role_complete task_id role output success now
        = (.error (.TaskNotFound task_id), p))
    ∧ (∀ task0, alLookup p.tasks task_id = some task0 → success = false →
        (p.handle_role_complete task_id role output success now).1
            = .ok (.Fail role output)
        ∧ ∃ task', alLookup
              (p.handle_role_complete task_id role output success now).2.tasks task_id
              = some task'
            ∧ task'.stage = .Failed
            ∧ ∃ out, alLookup task'.stage_outputs task0.stage = some out
                ∧ out.error = some output ∧ out.success = false)
    ∧ (∀ task0, alLookup p.tasks task_id = some task0 → success = true →
        (task0.stage.active_roles ≠ [] ∧
          ∀ r ∈ task0.stage.active_roles,
            r ∈ (alInsert ((alLookup task0.role_results task0.stage).getD []) role
              ⟨output, true⟩).map (·.1)) →
        ∃ nxt, task0.stage.next = some nxt
          ∧ (p.handle_role_complete task_id role output success now).1
              = .ok (.Advance nxt)
          ∧ ∃ task', alLookup
                (p.handle_role_complete task_id role output success now).2.tasks task_id
                = some task'
              ∧ task'.stage = nxt
              ∧ alLookup task'.stage_outputs task0.stage = some
                  { stage := task0.stage,
                    content := String.intercalate "\n"
                      ((alInsert ((alLookup task0.role_results task0.stage).getD [])
                        role ⟨output, true⟩).map fun pr => pr.1 ++ ": " ++ pr.2.output),
                    tokens_used := 0,
                    duration_ms := now - task0.stage_changed_at,
                    success := true, error := none })
    ∧ (∀ task0, alLookup p.tasks task_id = some task0 → success = true →
        ¬ (task0.stage.active_roles ≠ [] ∧
            ∀ r ∈ task0.stage.active_roles,
              r ∈ (alInsert ((alLookup task0.role_results task0.stage).getD []) role
                ⟨output, true⟩).map (·.1)) →
        (p.handle_role_complete task_id role output success now).1 = .ok .Wait) := by
  refine ⟨?_, ?_, ?_, ?_⟩
  · intro hnone
    unfold TaskPipeline.handle_role_complete
    rw [hnone]
  · intro task0 hsome hfalse
    subst hfalse
    simp only [TaskPipeline.handle_role_complete, hsome]
    rw [if_pos trivial]
    refine ⟨rfl, ?_⟩
    exact alInsert_lookup_exists _ _ _ _
      ⟨rfl, alInsert_lookup_exists _ _ _ _ ⟨rfl, rfl⟩⟩
  · intro task0 hsome htrue hcond
    subst htrue
    have hne := hcond.1
    have hnxt : ∃ nxt, task0.stage.next = some nxt := by
      cases hst : task0.stage <;> simp [PipelineStage.next] <;>
        · rw [hst] at hne
          simp [PipelineStage.active_roles] at hne
    obtain ⟨nxt, hnxt⟩ := hnxt
    refine ⟨nxt, hnxt, ?_, ?_⟩
    · simp only [TaskPipeline.handle_role_complete, hsome]
      rw [if_neg (by simp : ¬ (true = false)), if_pos hcond]
      simp only [PipelineTask.record_output, PipelineTask.advance]
      rw [hnxt]
      rfl
    · simp only [TaskPipeline.handle_role_complete, hsome]
      rw [if_neg (by simp : ¬ (true = false)), if_pos hcond]
      simp only [PipelineTask.record_output, PipelineTask.advance]
      rw [hnxt]
      refine alInsert_lookup_exists _ _ _ _ ⟨rfl, ?_⟩
      show alLookup (alInsert _ task0.stage _) task0.stage = _
      rw [alLookup_alInsert, if_pos rfl]
  · intro task0 hsome htrue hncond
    subst htrue
    simp only [TaskPipeline.handle_role_complete, hsome]
    rw [if_neg (by simp : ¬ (true = false)), if_neg hncond]

/-- Witness for C4 (amended) on scenario S6: a Planning task where
Coordinator has reported; Architect's successful report advances the task
to Implementing. -/
theorem C4_handle_role_complete_witness :
    (TaskPipeline.handle_role_complete
        ⟨[("t1", { id := "t1", description := "Goal", stage := .Planning,
                   stage_outputs := [], created_at := 0, stage_changed_at := 0,
                   retries := 0,
                   role_results := [(.Planning, [("Coordinator", ⟨"ok", true⟩)])] })],
          [(.Planning, 1)], 1⟩
        "t1" "Architect" "done" true 7).1
      = .ok (.Advance .Implementing) := by
  obtain ⟨nxt, hnxt, hres, -⟩ :=
    (C4_handle_role_complete
        ⟨[("t1", { id := "t1", description := "Goal", stage := .Planning,
                   stage_outputs := [], created_at := 0, stage_changed_at := 0,
                   retries := 0,
                   role_results := [(.Planning, [("Coordinator", ⟨"ok", true⟩)])] })],
          [(.Planning, 1)], 1⟩
        "t1" "Architect" "done" true 7).2.2.1
      _ rfl rfl (by decide)
  have h2 : (some PipelineStage.Implementing : Option PipelineStage) = some nxt := hnxt
  obtain rfl := (Option.some.inj h2)
  exact hres

/-! ### Claim C7: toolkit for the per-stage bookkeeping of `TaskPipeline` -/

theorem alLookup_eq_none_iff {κ α : Type} [DecidableEq κ] (m : List (κ × α)) (k : κ) :
    alLookup m k = none ↔ ∀ pr ∈ m, pr.1 ≠ k := by
  induction m with
  | nil => simp [alLookup_nil]
  | cons pr m ih =>
    rw [alLookup_cons]
    by_cases h : pr.1 = k
    · simp [h]
    · simp [h, ih]

theorem alLookup_mem {κ α : Type} [DecidableEq κ] (m : List (κ × α)) (k : κ) (v : α)
    (h : alLookup m k = some v) : (k, v) ∈ m := by
  induction m with
  | nil => simp [alLookup_nil] at h
  | cons pr m ih =>
    rw [alLookup_cons] at h
    by_cases hk : pr.1 = k
    · rw [if_pos hk] at h
      obtain rfl : pr.2 = v := Option.some.inj h
      obtain ⟨a, b⟩ := pr
      rw [← hk]
      exact List.mem_cons_self _ _
    · rw [if_neg hk] at h
      exact List.mem_cons_of_mem pr (ih h)

/-- In a map with `Nodup` keys, membership of an entry determines `get`. -/
theorem alLookup_of_mem_nodup {κ α : Type} [DecidableEq κ] (m : List (κ × α)) (k : κ)
    (v : α) (hnd : (m.map (·.1)).Nodup) (hmem : (k, v) ∈ m) : alLookup m k = some v := by
  induction m with
  | nil => simp at hmem
  | cons pr m ih =>
    rw [List.map_cons, List.nodup_cons] at hnd
    rw [alLookup_cons]
    rcases List.mem_cons.mp hmem with heq | hmem'
    · rw [← heq, if_pos rfl]
    · by_cases hk : pr.1 = k
      · exfalso
        apply hnd.1
        rw [hk]
        exact List.mem_map.mpr ⟨(k, v), hmem', rfl⟩
      · rw [if_neg hk]
        exact ih hnd.2 hmem'

theorem find_isSome_of_lookup_some {κ α : Type} [DecidableEq κ] (m : List (κ × α))
    (k : κ) (v : α) (h : alLookup m k = some v) :
    (m.find? fun pr => decide (pr.1 = k)).isSome = true := by
  unfold alLookup at h
  cases hf : m.find? fun pr => decide (pr.1 = k)
  · rw [hf] at h
    simp at h
  · rfl

theorem find_isSome_false_of_lookup_none {κ α : Type} [DecidableEq κ] (m : List (κ × α))
    (k : κ) (h : alLookup m k = none) :
    (m.find? fun pr => decide (pr.1 = k)).isSome = false := by
  unfold alLookup at h
  cases hf : m.find? fun pr => decide (pr.1 = k)
  · rfl
  · rw [hf] at h
    simp at h

/-- Inserting an absent key appends the new entry. -/
theorem alInsert_absent {κ α : Type} [DecidableEq κ] (m : List (κ × α)) (k : κ) (v : α)
    (h : alLookup m k = none) : alInsert m k v = m ++ [(k, v)] := by
  unfold alInsert
  rw [find_isSome_false_of_lookup_none m k h]
  simp

/-- Replacing the value at a present key leaves the key list unchanged. -/
theorem alInsert_present_keys {κ α : Type} [DecidableEq κ] (m : List (κ × α)) (k : κ)
    (v v0 : α) (h : alLookup m k = some v0) :
    (alInsert m k v).map (·.1) = m.map (·.1) := by
  unfold alInsert
  rw [if_pos (find_isSome_of_lookup_some m k v0 h), List.map_map]
  apply List.map_congr_left
  intro pr _
  by_cases hk : pr.1 = k
  · simp [hk]
  · simp [hk]

theorem alInsert_length_le {κ α : Type} [DecidableEq κ] (m : List (κ × α)) (k : κ)
    (v : α) : (alInsert m k v).length ≤ m.length + 1 := by
  unfold alInsert
  by_cases h : (m.find? fun pr => decide (pr.1 = k)).isSome = true
  · rw [if_pos h, List.length_map]
    omega
  · rw [if_neg h, List.length_append]
    simp

/-- Number of registered entries whose task sits at stage `s`. -/
def stageTasks (m : List (String × PipelineTask)) (s : PipelineStage) : Nat :=
  (m.filter fun pr => pr.2.stage = s).length

theorem stageTasks_nil (s : PipelineStage) : stageTasks [] s = 0 := rfl

theorem stageTasks_cons (pr : String × PipelineTask) (m : List (String × PipelineTask))
    (s : PipelineStage) :
    stageTasks (pr :: m) s = stageTasks m s + (if pr.2.stage = s then 1 else 0) := by
  unfold stageTasks
  rw [List.filter_cons]
  by_cases h : pr.2.stage = s
  · rw [if_pos (decide_eq_true h), if_pos h, List.length_cons]
  · rw [if_neg (by simpa using h), if_neg h]
    omega

theorem stageTasks_append (m1 m2 : List (String × PipelineTask)) (s : PipelineStage) :
    stageTasks (m1 ++ m2) s = stageTasks m1 s + stageTasks m2 s := by
  unfold stageTasks
  rw [List.filter_append, List.length_append]

theorem stageTasks_append_single (m : List (String × PipelineTask)) (k : String)
    (v : PipelineTask) (s : PipelineStage) :
    stageTasks (m ++ [(k, v)]) s = stageTasks m s + (if v.stage = s then 1 else 0) := by
  rw [stageTasks_append]
  simp [stageTasks_cons, stageTasks_nil]

theorem stageTasks_le_length (m : List (String × PipelineTask)) (s : PipelineStage) :
    stageTasks m s ≤ m.length := by
  unfold stageTasks
  exact List.length_filter_le _ _

/-- Replacing the entry at a present key moves one unit of the per-stage
count from the old value's stage to the new value's. -/
theorem stageTasks_map_update (m : List (String × PipelineTask)) (k : String)
    (v v0 : PipelineTask) (s : PipelineStage) (hnd : (m.map (·.1)).Nodup)
    (hlk : alLookup m k = some v0) :
    stageTasks (m.map fun pr => if pr.1 = k then (k, v) else pr) s
        + (if v0.stage = s then 1 else 0)
      = stageTasks m s + (if v.stage = s then 1 else 0) := by
  induction m with
  | nil => simp [alLookup_nil] at hlk
  | cons pr m ih =>
    rw [List.map_cons, List.nodup_cons] at hnd
    rw [alLookup_cons] at hlk
    rw [List.map_cons]
    by_cases hk : pr.1 = k
    · rw [if_pos hk] at hlk
      obtain rfl : pr.2 = v0 := Option.some.inj hlk
      rw [if_pos hk]
      have hrest : (m.map fun pr' => if pr'.1 = k then (k, v) else pr') = m := by
        have hcongr : ∀ pr' ∈ m, (if pr'.1 = k then (k, v) else pr') = pr' := by
          intro pr' hpr'
          rw [if_neg]
          intro hc
          apply hnd.1
          rw [hk]
          exact List.mem_map.mpr ⟨pr', hpr', hc⟩
        simpa using List.map_congr_left hcongr
      rw [hrest]
      simp only [stageTasks_cons]
      split_ifs <;> omega
    · rw [if_neg hk] at hlk
      rw [if_neg hk]
      have hih := ih hnd.2 hlk
      simp only [stageTasks_cons]
      split_ifs at hih ⊢ <;> omega

/-- Splitting the per-stage count into its terminal and non-terminal parts. -/
theorem stageTasks_terminal_split (l : List (String × PipelineTask)) (s : PipelineStage) :
    stageTasks (l.filter fun pr => ¬ pr.2.is_terminal) s
        + stageTasks (l.filter fun pr => pr.2.is_terminal) s
      = stageTasks l s := by
  induction l with
  | nil => rfl
  | cons pr l ih =>
    by_cases h : pr.2.is_terminal = true
    · rw [List.filter_cons, List.filter_cons, if_neg (by simp [h]), if_pos (by simp [h])]
      simp only [stageTasks_cons]
      split_ifs <;> omega
    · rw [List.filter_cons, List.filter_cons, if_pos (by simp [h]), if_neg (by simp [h])]
      simp only [stageTasks_cons]
      split_ifs <;> omega

/-- The value `stage_counts()` reports for a stage (0 when absent). -/
def countAt (cs : List (PipelineStage × Int)) (s : PipelineStage) : Int :=
  (alLookup cs s).getD 0

theorem countsIncr_countAt (cs : List (PipelineStage × Int)) (s s' : PipelineStage) :
    countAt (countsIncr cs s) s' = countAt cs s' + (if s' = s then 1 else 0) := by
  cases hc : alLookup cs s with
  | some c =>
    unfold countAt
    simp only [countsIncr, hc]
    rw [alLookup_alInsert]
    by_cases h : s' = s
    · subst h
      rw [if_pos rfl, if_pos rfl, hc]
      simp
    · rw [if_neg h, if_neg h]
      omega
  | none =>
    unfold countAt
    simp only [countsIncr, hc]
    by_cases h : s' = s
    · subst h
      rw [alLookup_append_single_self _ _ _ (find_isSome_false_of_lookup_none _ _ hc),
        hc, if_pos rfl]
      simp
    · rw [alLookup_append_single_ne _ _ _ _ h, if_neg h]
      omega

theorem countsDecr_countAt_ne (cs : List (PipelineStage × Int)) (s s' : PipelineStage)
    (h : s' ≠ s) : countAt (countsDecr cs s) s' = countAt cs s' := by
  cases hc : alLookup cs s with
  | some c =>
    unfold countAt
    simp only [countsDecr, hc]
    rw [alLookup_alInsert, if_neg h]
  | none =>
    simp only [countAt, countsDecr, hc]

theorem countsDecr_countAt_self (cs : List (PipelineStage × Int)) (s : PipelineStage)
    (c : Int) (hc : countAt cs s = c) (h1 : 1 ≤ c) (h2 : c ≤ 2 ^ 63) :
    countAt (countsDecr cs s) s = c - 1 := by
  cases hl : alLookup cs s with
  | none =>
    exfalso
    unfold countAt at hc
    rw [hl] at hc
    simp at hc
    omega
  | some c0 =>
    unfold countAt at hc
    rw [hl] at hc
    have hc0 : c0 = c := hc
    unfold countAt
    simp only [countsDecr, hl]
    rw [alLookup_alInsert, if_pos rfl]
    show satSub64 c0 1 = c - 1
    unfold satSub64 I64_MIN I64_MAX
    rw [max_eq_left (by omega), min_eq_left (by omega)]
    omega

theorem update_stage_counts_countAt (cs : List (PipelineStage × Int))
    (old new s : PipelineStage) (c : Int) (hold : countAt cs old = c)
    (h1 : old ≠ new → 1 ≤ c) (h2 : c ≤ 2 ^ 63) :
    countAt (TaskPipeline.update_stage_counts cs old new) s
      = countAt cs s - (if s = old then 1 else 0) + (if s = new then 1 else 0) := by
  unfold TaskPipeline.update_stage_counts
  by_cases heq : old = new
  · rw [if_pos heq]
    by_cases hs : s = old
    · rw [if_pos hs, if_pos (hs.trans heq)]
      omega
    · rw [if_neg hs, if_neg (fun hh => hs (hh.trans heq.symm))]
      omega
  · rw [if_neg heq, countsIncr_countAt]
    by_cases hs : s = old
    · rw [hs, countsDecr_countAt_self cs old c hold (h1 heq) h2, hold, if_pos rfl,
        if_neg heq]
    · rw [countsDecr_countAt_ne cs old s hs, if_neg hs]
      by_cases hn : s = new
      · rw [if_pos hn]
        all_goals omega
      · rw [if_neg hn]
        all_goals omega

theorem foldl_countsDecr_countAt (l : List (String × PipelineTask)) :
    ∀ (cs : List (PipelineStage × Int)) (s : PipelineStage),
      (stageTasks l s : Int) ≤ countAt cs s → countAt cs s ≤ 2 ^ 63 →
      countAt (l.foldl (fun cs pr => countsDecr cs pr.2.stage) cs) s
        = countAt cs s - stageTasks l s := by
  induction l with
  | nil =>
    intro cs s _ _
    show countAt cs s = countAt cs s - ((stageTasks [] s : Nat) : Int)
    rw [stageTasks_nil]
    omega
  | cons pr l ih =>
    intro cs s hge hle
    rw [List.foldl_cons]
    rw [stageTasks_cons] at hge ⊢
    by_cases h : pr.2.stage = s
    · rw [if_pos h] at hge ⊢
      push_cast at hge
      have hdec : countAt (countsDecr cs pr.2.stage) s = countAt cs s - 1 := by
        rw [h]
        refine countsDecr_countAt_self cs s (countAt cs s) rfl ?_ hle
        omega
      rw [ih (countsDecr cs pr.2.stage) s (by rw [hdec]; omega) (by rw [hdec]; omega),
        hdec]
      push_cast
      omega
    · rw [if_neg h] at hge ⊢
      have hne : countAt (countsDecr cs pr.2.stage) s = countAt cs s :=
        countsDecr_countAt_ne cs pr.2.stage s (fun hh => h hh.symm)
      rw [ih (countsDecr cs pr.2.stage) s (by rw [hne]; omega) (by rw [hne]; omega), hne]
      omega

/-- One public `TaskPipeline` call (the calls C7 quantifies over). -/
inductive PipeOp
  | create (goal id : String) (now : Nat)
  | addTask (task : PipelineTask)
  | getStage (id : String)
  | handle (task_id role result : String) (success : Bool) (now : Nat)
  | advanceTask (id : String) (now : Nat)
  | drainTerminal

/-- The state after one public call. -/
def PipeOp.apply : PipeOp → TaskPipeline → TaskPipeline
  | .create goal id now, p => (p.create_from_goal goal id now).1
  | .addTask task, p => p.add task
  | .getStage id, p => (p.get_stage_tasks id).2
  | .handle tid role res s now, p => (p.handle_role_complete tid role res s now).2
  | .advanceTask id now, p => (p.advance id now).2
  | .drainTerminal, p => p.drain_terminal.2

/-- The amended freshness side condition: ids registered by `add` /
`create_from_goal` are not already registered (for `create_from_goal` the
Rust code draws a fresh UUIDv4). -/
def PipeOp.freshFor : PipeOp → TaskPipeline → Prop
  | .create _ id _, p => alLookup p.tasks id = none
  | .addTask task, p => alLookup p.tasks task.id = none
  | _, _ => True

def runTrace (ops : List PipeOp) (p : TaskPipeline) : TaskPipeline :=
  ops.foldl (fun q op => op.apply q) p

def FreshTrace : List PipeOp → TaskPipeline → Prop
  | [], _ => True
  | op :: rest, p => op.freshFor p ∧ FreshTrace rest (op.apply p)

/-- Pipeline well-formedness: registered ids are distinct, each entry's key
is its task's id, and `stage_counts` is exact for every stage. -/
def WF (p : TaskPipeline) : Prop :=
  (p.tasks.map (·.1)).Nodup
  ∧ (∀ pr ∈ p.tasks, pr.2.id = pr.1)
  ∧ ∀ s : PipelineStage, countAt p.stage_counts s = (stageTasks p.tasks s : Int)

/-- Stage moves allowed by the claim: stay, one step along the chain, or a
direct jump to `Failed`. -/
def StageStep (a b : PipelineStage) : Prop :=
  b = a ∨ a.next = some b ∨ b = PipelineStage.Failed

/-- What each public call guarantees: the state stays well-formed, at most
one task is registered, and every surviving task moved by a `StageStep`. -/
def StepOK (p q : TaskPipeline) : Prop :=
  WF q ∧ q.tasks.length ≤ p.tasks.length + 1 ∧
  ∀ (id : String) (task task' : PipelineTask),
    alLookup p.tasks id = some task → alLookup q.tasks id = some task' →
    StageStep task.stage task'.stage

theorem WF_new : WF TaskPipeline.new := by
  refine ⟨List.nodup_nil, ?_, ?_⟩
  · intro pr hpr
    exact absurd hpr (List.not_mem_nil pr)
  · intro s
    rfl

theorem step_ok_id (p q : TaskPipeline) (hWF : WF p) (ht : q.tasks = p.tasks)
    (hc : q.stage_counts = p.stage_counts) : StepOK p q := by
  obtain ⟨hnd, hids, hcnt⟩ := hWF
  refine ⟨⟨?_, ?_, ?_⟩, ?_, ?_⟩
  · rw [ht]
    exact hnd
  · rw [ht]
    exact hids
  · intro s
    rw [ht, hc]
    exact hcnt s
  · rw [ht]
    omega
  · intro id task task'' h1 h2
    rw [ht] at h2
    obtain rfl := Option.some.inj (h1.symm.trans h2)
    exact Or.inl rfl

theorem add_step (p : TaskPipeline) (task : PipelineTask) (hWF : WF p)
    (hfresh : alLookup p.tasks task.id = none) : StepOK p (p.add task) := by
  obtain ⟨hnd, hids, hcnt⟩ := hWF
  have htasks : (p.add task).tasks = p.tasks ++ [(task.id, task)] :=
    alInsert_absent p.tasks task.id task hfresh
  have hcounts : (p.add task).stage_counts = countsIncr p.stage_counts task.stage := rfl
  refine ⟨⟨?_, ?_, ?_⟩, ?_, ?_⟩
  · rw [htasks, List.map_append, List.nodup_append]
    refine ⟨hnd, List.nodup_singleton _, ?_⟩
    intro a ha hb
    obtain ⟨pr, hpr, hpra⟩ := List.mem_map.mp ha
    exact (alLookup_eq_none_iff p.tasks task.id).mp hfresh pr hpr
      (hpra.trans (List.mem_singleton.mp hb))
  · intro pr hpr
    rw [htasks] at hpr
    rcases List.mem_append.mp hpr with h | h
    · exact hids pr h
    · obtain rfl := List.mem_singleton.mp h
      rfl
  · intro s
    rw [hcounts, htasks, countsIncr_countAt, hcnt s, stageTasks_append_single]
    by_cases h : s = task.stage
    · rw [if_pos h, if_pos h.symm]
      push_cast
      omega
    · rw [if_neg h, if_neg (fun hh => h hh.symm)]
      push_cast
      omega
  · rw [htasks, List.length_append]
    simp
  · intro id task1 task2 h1 h2
    rw [htasks] at h2
    have hne : id ≠ task.id := by
      intro hh
      rw [hh, hfresh] at h1
      exact Option.noConfusion h1
    rw [alLookup_append_single_ne p.tasks task.id task id hne] at h2
    obtain rfl := Option.some.inj (h1.symm.trans h2)
    exact Or.inl rfl

theorem get_stage_tasks_state (p : TaskPipeline) (id : String) :
    ((p.get_stage_tasks id).2).tasks = p.tasks
      ∧ ((p.get_stage_tasks id).2).stage_counts = p.stage_counts := by
  cases hl : alLookup p.tasks id with
  | none => simp [TaskPipeline.get_stage_tasks, hl]
  | some task => simp [TaskPipeline.get_stage_tasks, hl]

theorem replace_step_update (p : TaskPipeline) (tid : String) (task0 task' : PipelineTask)
    (hWF : WF p) (hb : p.tasks.length ≤ 2 ^ 63)
    (hlk : alLookup p.tasks tid = some task0) (hid : task'.id = task0.id)
    (hstep : StageStep task0.stage task'.stage) :
    StepOK p { p with tasks := alInsert p.tasks tid task',
                      stage_counts := TaskPipeline.update_stage_counts p.stage_counts
                        task0.stage task'.stage } := by
  obtain ⟨hnd, hids, hcnt⟩ := hWF
  have htask0 : task0.id = tid := hids (tid, task0) (alLookup_mem _ _ _ hlk)
  have hins : alInsert p.tasks tid task'
      = p.tasks.map fun pr => if pr.1 = tid then (tid, task') else pr := by
    unfold alInsert
    rw [if_pos (find_isSome_of_lookup_some p.tasks tid task0 hlk)]
  refine ⟨⟨?_, ?_, ?_⟩, ?_, ?_⟩
  · show ((alInsert p.tasks tid task').map (·.1)).Nodup
    rw [alInsert_present_keys p.tasks tid task' task0 hlk]
    exact hnd
  · show ∀ pr ∈ alInsert p.tasks tid task', pr.2.id = pr.1
    intro pr hpr
    rw [hins] at hpr
    obtain ⟨pr0, hpr0, rfl⟩ := List.mem_map.mp hpr
    by_cases hk : pr0.1 = tid
    · rw [if_pos hk]
      show task'.id = tid
      rw [hid, htask0]
    · rw [if_neg hk]
      exact hids pr0 hpr0
  · intro s
    have hstage0 : (1 : Int) ≤ countAt p.stage_counts task0.stage := by
      rw [hcnt task0.stage]
      have hmem : (tid, task0) ∈ p.tasks.filter fun pr => pr.2.stage = task0.stage := by
        rw [List.mem_filter]
        exact ⟨alLookup_mem _ _ _ hlk, by simp⟩
      have hpos : 0 < stageTasks p.tasks task0.stage :=
        List.length_pos.mpr (List.ne_nil_of_mem hmem)
      omega
    have hbound : countAt p.stage_counts task0.stage ≤ 2 ^ 63 := by
      rw [hcnt task0.stage]
      have := stageTasks_le_length p.tasks task0.stage
      omega
    show countAt (TaskPipeline.update_stage_counts p.stage_counts task0.stage
        task'.stage) s = (stageTasks (alInsert p.tasks tid task') s : Int)
    rw [update_stage_counts_countAt p.stage_counts task0.stage task'.stage s
        (countAt p.stage_counts task0.stage) rfl (fun _ => hstage0) hbound,
      hcnt s, hins]
    have hmu := stageTasks_map_update p.tasks tid task' task0 s hnd hlk
    by_cases h1 : s = task0.stage <;> by_cases h2 : s = task'.stage
    · rw [if_pos h1, if_pos h2]
      rw [if_pos h1.symm, if_pos h2.symm] at hmu
      omega
    · rw [if_pos h1, if_neg h2]
      rw [if_pos h1.symm, if_neg (fun hh => h2 hh.symm)] at hmu
      omega
    · rw [if_neg h1, if_pos h2]
      rw [if_neg (fun hh => h1 hh.symm), if_pos h2.symm] at hmu
      omega
    · rw [if_neg h1, if_neg h2]
      rw [if_neg (fun hh => h1 hh.symm), if_neg (fun hh => h2 hh.symm)] at hmu
      omega
  · show (alInsert p.tasks tid task').length ≤ p.tasks.length + 1
    exact alInsert_length_le p.tasks tid task'
  · intro id task task'' h1 h2
    have h2' : alLookup (alInsert p.tasks tid task') id = some task'' := h2
    rw [alLookup_alInsert] at h2'
    by_cases hk : id = tid
    · rw [if_pos hk] at h2'
      obtain rfl : task' = task'' := Option.some.inj h2'
      rw [hk] at h1
      obtain rfl : task0 = task := Option.some.inj (hlk.symm.trans h1)
      exact hstep
    · rw [if_neg hk] at h2'
      obtain rfl := Option.some.inj (h1.symm.trans h2')
      exact Or.inl rfl

theorem replace_step_same (p : TaskPipeline) (tid : String) (task0 task' : PipelineTask)
    (hWF : WF p) (hlk : alLookup p.tasks tid = some task0) (hid : task'.id = task0.id)
    (hstage : task'.stage = task0.stage) :
    StepOK p { p with tasks := alInsert p.tasks tid task' } := by
  obtain ⟨hnd, hids, hcnt⟩ := hWF
  have htask0 : task0.id = tid := hids (tid, task0) (alLookup_mem _ _ _ hlk)
  have hins : alInsert p.tasks tid task'
      = p.tasks.map fun pr => if pr.1 = tid then (tid, task') else pr := by
    unfold alInsert
    rw [if_pos (find_isSome_of_lookup_some p.tasks tid task0 hlk)]
  refine ⟨⟨?_, ?_, ?_⟩, ?_, ?_⟩
  · show ((alInsert p.tasks tid task').map (·.1)).Nodup
    rw [alInsert_present_keys p.tasks tid task' task0 hlk]
    exact hnd
  · show ∀ pr ∈ alInsert p.tasks tid task', pr.2.id = pr.1
    intro pr hpr
    rw [hins] at hpr
    obtain ⟨pr0, hpr0, rfl⟩ := List.mem_map.mp hpr
    by_cases hk : pr0.1 = tid
    · rw [if_pos hk]
      show task'.id = tid
      rw [hid, htask0]
    · rw [if_neg hk]
      exact hids pr0 hpr0
  · intro s
    show countAt p.stage_counts s = (stageTasks (alInsert p.tasks tid task') s : Int)
    rw [hcnt s, hins]
    have hmu := stageTasks_map_update p.tasks tid task' task0 s hnd hlk
    rw [hstage] at hmu
    by_cases h : task0.stage = s
    · rw [if_pos h] at hmu
      omega
    · rw [if_neg h] at hmu
      omega
  · show (alInsert p.tasks tid task').length ≤ p.tasks.length + 1
    exact alInsert_length_le p.tasks tid task'
  · intro id task task'' h1 h2
    have h2' : alLookup (alInsert p.tasks tid task') id = some task'' := h2
    rw [alLookup_alInsert] at h2'
    by_cases hk : id = tid
    · rw [if_pos hk] at h2'
      obtain rfl : task' = task'' := Option.some.inj h2'
      rw [hk] at h1
      obtain rfl : task0 = task := Option.some.inj (hlk.symm.trans h1)
      exact Or.inl hstage
    · rw [if_neg hk] at h2'
      obtain rfl := Option.some.inj (h1.symm.trans h2')
      exact Or.inl rfl

theorem drain_step (p : TaskPipeline) (hWF : WF p) (hb : p.tasks.length ≤ 2 ^ 63) :
    StepOK p p.drain_terminal.2 := by
  obtain ⟨hnd, hids, hcnt⟩ := hWF
  have htasks : p.drain_terminal.2.tasks
      = p.tasks.filter fun pr => ¬ pr.2.is_terminal := rfl
  have hcounts : p.drain_terminal.2.stage_counts
      = (p.tasks.filter fun pr => pr.2.is_terminal).foldl
          (fun cs pr => countsDecr cs pr.2.stage) p.stage_counts := rfl
  refine ⟨⟨?_, ?_, ?_⟩, ?_, ?_⟩
  · rw [htasks]
    exact List.Nodup.sublist (List.Sublist.map _ (List.filter_sublist _)) hnd
  · intro pr hpr
    rw [htasks] at hpr
    exact hids pr (List.mem_of_mem_filter hpr)
  · intro s
    have hsplit := stageTasks_terminal_split p.tasks s
    have hterm_le : (stageTasks (p.tasks.filter fun pr => pr.2.is_terminal) s : Int)
        ≤ countAt p.stage_counts s := by
      rw [hcnt s]
      omega
    have hle63 : countAt p.stage_counts s ≤ 2 ^ 63 := by
      rw [hcnt s]
      have := stageTasks_le_length p.tasks s
      omega
    rw [hcounts, htasks,
      foldl_countsDecr_countAt (p.tasks.filter fun pr => pr.2.is_terminal)
        p.stage_counts s hterm_le hle63, hcnt s]
    omega
  · rw [htasks]
    have := List.length_filter_le (fun pr => ¬ pr.2.is_terminal)
      (l := p.tasks)
    omega
  · intro id task1 task2 h1 h2
    rw [htasks] at h2
    have hmem : (id, task2) ∈ p.tasks := List.mem_of_mem_filter (alLookup_mem _ _ _ h2)
    have hlk2 := alLookup_of_mem_nodup p.tasks id task2 hnd hmem
    obtain rfl := Option.some.inj (h1.symm.trans hlk2)
    exact Or.inl rfl

/-- The task stored by a successful `handle_role_complete` report that does
not advance (the `Wait` branch): only `role_results` gains the new record. -/
def waitTask (task0 : PipelineTask) (role : String) (r : RoleResult) : PipelineTask :=
  { task0 with
    role_results := alInsert task0.role_results task0.stage
      (alInsert ((alLookup task0.role_results task0.stage).getD []) role r) }

/-- The task after `record_output` in the advancing branch of
`handle_role_complete`, before `advance` runs. -/
def recordedTask (task0 : PipelineTask) (role res : String) (now : Nat) : PipelineTask :=
  PipelineTask.record_output (waitTask task0 role ⟨res, true⟩)
    { stage := task0.stage,
      content := String.intercalate "\n"
        ((alInsert ((alLookup task0.role_results task0.stage).getD []) role
          ⟨res, true⟩).map fun pr => pr.1 ++ ": " ++ pr.2.output),
      tokens_used := 0,
      duration_ms := now - task0.stage_changed_at,
      success := true, error := none }

theorem handle_step (p : TaskPipeline) (tid role res : String) (s : Bool) (now : Nat)
    (hWF : WF p) (hb : p.tasks.length ≤ 2 ^ 63) :
    StepOK p ((p.handle_role_complete tid role res s now).2) := by
  cases hl : alLookup p.tasks tid with
  | none =>
    have ht : ((p.handle_role_complete tid role res s now).2) = p := by
      simp only [TaskPipeline.handle_role_complete, hl]
    rw [ht]
    exact step_ok_id p p hWF rfl rfl
  | some task0 =>
    cases s with
    | false =>
      have key : ((p.handle_role_complete tid role res false now).2)
          = { p with
              tasks := alInsert p.tasks tid
                (PipelineTask.fail (waitTask task0 role ⟨res, false⟩) res now),
              stage_counts := TaskPipeline.update_stage_counts p.stage_counts
                task0.stage PipelineStage.Failed } := by
        simp only [TaskPipeline.handle_role_complete, hl]
        rw [if_pos trivial]
        rfl
      rw [key]
      exact replace_step_update p tid task0
        (PipelineTask.fail (waitTask task0 role ⟨res, false⟩) res now) hWF hb hl rfl
        (Or.inr (Or.inr rfl))
    | true =>
      by_cases hcond : (task0.stage.active_roles ≠ [] ∧
          ∀ r ∈ task0.stage.active_roles,
            r ∈ (alInsert ((alLookup task0.role_results task0.stage).getD []) role
              ⟨res, true⟩).map (·.1))
      · cases hnxt : task0.stage.next with
        | some nxt =>
          have key : ((p.handle_role_complete tid role res true now).2)
              = { p with
                  tasks := alInsert p.tasks tid
                    { recordedTask task0 role res now with
                        stage := nxt, stage_changed_at := now },
                  stage_counts := TaskPipeline.update_stage_counts p.stage_counts
                    task0.stage nxt } := by
            simp only [TaskPipeline.handle_role_complete, hl]
            rw [if_neg (by simp : ¬ (true = false)), if_pos hcond]
            simp only [PipelineTask.record_output, PipelineTask.advance]
            rw [hnxt]
            rfl
          rw [key]
          exact replace_step_update p tid task0
            { recordedTask task0 role res now with
                stage := nxt, stage_changed_at := now } hWF hb hl rfl
            (Or.inr (Or.inl hnxt))
        | none =>
          have key : ((p.handle_role_complete tid role res true now).2)
              = { p with tasks := alInsert p.tasks tid (recordedTask task0 role res now) } := by
            simp only [TaskPipeline.handle_role_complete, hl]
            rw [if_neg (by simp : ¬ (true = false)), if_pos hcond]
            simp only [PipelineTask.record_output, PipelineTask.advance]
            rw [hnxt]
            rfl
          rw [key]
          exact replace_step_same p tid task0 (recordedTask task0 role res now) hWF hl
            rfl rfl
      · have key : ((p.handle_role_complete tid role res true now).2)
            = { p with tasks := alInsert p.tasks tid (waitTask task0 role ⟨res, true⟩) } := by
          simp only [TaskPipeline.handle_role_complete, hl]
          rw [if_neg (by simp : ¬ (true = false)), if_neg hcond]
          rfl
        rw [key]
        exact replace_step_same p tid task0 (waitTask task0 role ⟨res, true⟩) hWF hl
          rfl rfl

theorem advance_step (p : TaskPipeline) (id : String) (now : Nat) (hWF : WF p)
    (hb : p.tasks.length ≤ 2 ^ 63) : StepOK p (p.advance id now).2 := by
  cases hl : alLookup p.tasks id with
  | none =>
    have ht : (p.advance id now).2 = p := by
      simp [TaskPipeline.advance, hl]
    rw [ht]
    exact step_ok_id p p hWF rfl rfl
  | some task =>
    cases hnxt : task.stage.next with
    | some nxt =>
      have key : ((p.advance id now).2)
          = { p with
              tasks := alInsert p.tasks id
                { task with stage := nxt, stage_changed_at := now },
              stage_counts := TaskPipeline.update_stage_counts p.stage_counts
                task.stage nxt } := by
        simp only [TaskPipeline.advance, PipelineTask.advance, hl]
        rw [hnxt]
        rfl
      rw [key]
      exact replace_step_update p id task
        { task with stage := nxt, stage_changed_at := now } hWF hb hl rfl
        (Or.inr (Or.inl hnxt))
    | none =>
      have key : ((p.advance id now).2) = { p with tasks := alInsert p.tasks id task } := by
        simp only [TaskPipeline.advance, PipelineTask.advance, hl]
        rw [hnxt]
        rfl
      rw [key]
      exact replace_step_same p id task task hWF hl rfl rfl

theorem step_ok (p : TaskPipeline) (op : PipeOp) (hWF : WF p)
    (hb : p.tasks.length ≤ 2 ^ 63) (hfresh : op.freshFor p) :
    StepOK p (op.apply p) := by
  cases op with
  | create goal id now => exact add_step p (PipelineTask.new id goal now) hWF hfresh
  | addTask task => exact add_step p task hWF hfresh
  | getStage id =>
    obtain ⟨ht, hc⟩ := get_stage_tasks_state p id
    exact step_ok_id p _ hWF ht hc
  | handle tid role res s now => exact handle_step p tid role res s now hWF hb
  | advanceTask id now => exact advance_step p id now hWF hb
  | drainTerminal => exact drain_step p hWF hb

theorem runTrace_nil (p : TaskPipeline) : runTrace [] p = p := rfl

theorem runTrace_cons (op : PipeOp) (ops : List PipeOp) (p : TaskPipeline) :
    runTrace (op :: ops) p = runTrace ops (op.apply p) := rfl

theorem runTrace_ok (ops : List PipeOp) :
    ∀ p : TaskPipeline, WF p → FreshTrace ops p →
      p.tasks.length + ops.length ≤ 2 ^ 63 →
      WF (runTrace ops p)
        ∧ (runTrace ops p).tasks.length ≤ p.tasks.length + ops.length := by
  induction ops with
  | nil =>
    intro p hWF _ _
    exact ⟨hWF, by simp [runTrace_nil]⟩
  | cons op rest ih =>
    intro p hWF hfresh hlen
    obtain ⟨hf, hrest⟩ := hfresh
    simp only [List.length_cons] at hlen
    have hb : p.tasks.length ≤ 2 ^ 63 := by omega
    obtain ⟨hWFq, hlq, -⟩ := step_ok p op hWF hb hf
    have hlen' : (op.apply p).tasks.length + rest.length ≤ 2 ^ 63 := by omega
    obtain ⟨h1, h2⟩ := ih (op.apply p) hWFq hrest hlen'
    refine ⟨h1, ?_⟩
    simp only [runTrace_cons, List.length_cons]
    omega

theorem freshTrace_take (ops : List PipeOp) :
    ∀ (p : TaskPipeline) (k : Nat), FreshTrace ops p → FreshTrace (ops.take k) p := by
  induction ops with
  | nil =>
    intro p k _
    rw [List.take_nil]
    exact trivial
  | cons op rest ih =>
    intro p k hf
    cases k with
    | zero => exact trivial
    | succ k => exact ⟨hf.1, ih (op.apply p) k hf.2⟩

theorem freshTrace_get (ops : List PipeOp) :
    ∀ (p : TaskPipeline) (k : Nat) (op : PipeOp), ops[k]? = some op →
      FreshTrace ops p → op.freshFor (runTrace (ops.take k) p) := by
  induction ops with
  | nil =>
    intro p k op h _
    simp at h
  | cons o rest ih =>
    intro p k op h hf
    cases k with
    | zero =>
      obtain rfl : o = op := by simpa using h
      exact hf.1
    | succ k =>
      have h' : rest[k]? = some op := by simpa using h
      exact ih (o.apply p) k op h' hf.2

theorem runTrace_take_succ (ops : List PipeOp) (k : Nat) (p : TaskPipeline) :
    runTrace (ops.take (k + 1)) p
      = match ops[k]? with
        | some op => op.apply (runTrace (ops.take k) p)
        | none => runTrace (ops.take k) p := by
  rw [List.take_succ]
  unfold runTrace
  rw [List.foldl_append]
  cases h : ops[k]? with
  | some op => rfl
  | none => rfl

/-- C7 counterexample: the claim quantifies over EVERY sequence of public
calls, including `add` of a task whose id is already registered.  The code's
`add` increments the stage counter before `HashMap::insert` replaces the
old entry, so adding the same freshly-created task twice yields
`stage_counts[Queued] = 2` while only one registered task is at `Queued` —
the claim's "exactly the number of currently registered tasks" fails after
the second call. -/
theorem C7_stage_counts_counterexample :
    countAt (runTrace [PipeOp.addTask (PipelineTask.new "a" "g" 0),
        PipeOp.addTask (PipelineTask.new "a" "g" 0)] TaskPipeline.new).stage_counts
        PipelineStage.Queued = 2
    ∧ stageTasks (runTrace [PipeOp.addTask (PipelineTask.new "a" "g" 0),
        PipeOp.addTask (PipelineTask.new "a" "g" 0)] TaskPipeline.new).tasks
        PipelineStage.Queued = 1 := ⟨rfl, rfl⟩

/-- C7 as amended: restrict to runs in which every id registered by `add` /
`create_from_goal` is fresh (the Rust caller of `add` controls this; for
`create_from_goal` a fresh UUIDv4 guarantees it) and of realistic length
(at most 2^63 calls — beyond that the program's own `i64` stage counters
overflow).  Then after every public call `stage_counts()` maps each stage
to exactly the number of registered tasks whose `stage` equals it, and
across every single call each registered task's stage either stays, steps
to `stage.next()` along the fixed forward chain, or jumps to `Failed`. -/
theorem C7_pipeline_stage_machine (ops : List PipeOp)
    (hfresh : FreshTrace ops TaskPipeline.new) (hlen : ops.length ≤ 2 ^ 63) :
    (∀ (k : Nat) (s : PipelineStage),
        countAt (runTrace (ops.take k) TaskPipeline.new).stage_counts s
          = (stageTasks (runTrace (ops.take k) TaskPipeline.new).tasks s : Int))
    ∧ ∀ (k : Nat) (id : String) (task task' : PipelineTask),
        alLookup (runTrace (ops.take k) TaskPipeline.new).tasks id = some task →
        alLookup (runTrace (ops.take (k + 1)) TaskPipeline.new).tasks id = some task' →
        task'.stage = task.stage ∨ task.stage.next = some task'.stage
          ∨ task'.stage = PipelineStage.Failed := by
  have hWFk : ∀ k : Nat, WF (runTrace (ops.take k) TaskPipeline.new)
      ∧ (runTrace (ops.take k) TaskPipeline.new).tasks.length ≤ ops.length := by
    intro k
    have htk : (ops.take k).length ≤ ops.length := by
      rw [List.length_take]
      omega
    have h := runTrace_ok (ops.take k) TaskPipeline.new WF_new
      (freshTrace_take ops TaskPipeline.new k hfresh)
      (by show 0 + (ops.take k).length ≤ 2 ^ 63; omega)
    refine ⟨h.1, ?_⟩
    have h2 := h.2
    have hc0 : TaskPipeline.new.tasks.length = 0 := rfl
    omega
  refine ⟨fun k => ((hWFk k).1).2.2, ?_⟩
  intro k id task task' h1 h2
  cases hop : ops[k]? with
  | none =>
    rw [runTrace_take_succ, hop] at h2
    have h2' : alLookup (runTrace (ops.take k) TaskPipeline.new).tasks id
        = some task' := h2
    obtain rfl := Option.some.inj (h1.symm.trans h2')
    exact Or.inl rfl
  | some op =>
    have hstep := step_ok (runTrace (ops.take k) TaskPipeline.new) op (hWFk k).1
      (le_trans (hWFk k).2 hlen)
      (freshTrace_get ops TaskPipeline.new k op hop hfresh)
    have h2' : alLookup (op.apply (runTrace (ops.take k) TaskPipeline.new)).tasks id
        = some task' := by
      rw [runTrace_take_succ, hop] at h2
      exact h2
    exact hstep.2.2 id task task' h1 h2'

/-- The concrete run used to witness C7: create a task, fail it with a role
report, and drain it. -/
def c7ops : List PipeOp :=
  [PipeOp.create "build the feature" "t1" 0,
   PipeOp.handle "t1" "Coordinator" "boom" false 1,
   PipeOp.drainTerminal]

/-- Witness for C7 (amended) on the concrete run `c7ops`. -/
theorem C7_pipeline_stage_machine_witness :
    FreshTrace c7ops TaskPipeline.new ∧ c7ops.length ≤ 2 ^ 63 ∧
    ((∀ (k : Nat) (s : PipelineStage),
        countAt (runTrace (c7ops.take k) TaskPipeline.new).stage_counts s
          = (stageTasks (runTrace (c7ops.take k) TaskPipeline.new).tasks s : Int))
      ∧ ∀ (k : Nat) (id : String) (task task' : PipelineTask),
          alLookup (runTrace (c7ops.take k) TaskPipeline.new).tasks id = some task →
          alLookup (runTrace (c7ops.take (k + 1)) TaskPipeline.new).tasks id
            = some task' →
          task'.stage = task.stage ∨ task.stage.next = some task'.stage
            ∨ task'.stage = PipelineStage.Failed) := by
  have hf : FreshTrace c7ops TaskPipeline.new := by
    show alLookup ([] : List (String × PipelineTask)) "t1" = none ∧ (True ∧ (True ∧ True))
    exact ⟨rfl, trivial, trivial, trivial⟩
  have hl : c7ops.length ≤ 2 ^ 63 := by
    show (3 : Nat) ≤ 2 ^ 63
    norm_num
  exact ⟨hf, hl, C7_pipeline_stage_machine c7ops hf hl⟩

end Pipeline

/-! ## `session_pool.rs` (claims C1, C2, C8, C9) -/

namespace Pool

open Pipeline (alLookup alInsert alLookup_nil alLookup_cons alLookup_alInsert
  alInsert_lookup_exists alLookup_mem alLookup_of_mem_nodup alLookup_eq_none_iff)

/-- `session_pool.rs::SessionState`. -/
inductive SessionState
  | Idle
  | Running
  | Slow
  | Stuck
  | Error
  | ShuttingDown
deriving DecidableEq, Repr

/-- `session_pool.rs::SessionPoolConfig`.  The two `f64` scale thresholds are
modelled as rationals and the two `Duration` fields as milliseconds; none of
the four is read by the functions verified here. -/
structure SessionPoolConfig where
  max_sessions : Int
  min_sessions : Int
  scale_up_threshold : Rat
  scale_down_threshold : Rat
  slow_threshold : Nat
  stuck_threshold : Nat
  max_retries : Int
  backpressure_threshold : Int
deriving DecidableEq, Repr

/-- `impl Default for SessionPoolConfig`. -/
def SessionPoolConfig.default : SessionPoolConfig :=
  { max_sessions := 20, min_sessions := 5, scale_up_threshold := 4 / 5,
    scale_down_threshold := 3 / 10, slow_threshold := 120000,
    stuck_threshold := 300000, max_retries := 3, backpressure_threshold := 200 }

/-- `session_pool.rs::PoolTask` (`Instant` as an absolute millisecond count). -/
structure PoolTask where
  id : String
  prompt : String
  priority : Int
  retries : Int
  created_at : Nat
deriving DecidableEq, Repr

/-- `session_pool.rs::TaskResult` (`Duration` in milliseconds). -/
structure TaskResult where
  task_id : String
  session_id : String
  success : Bool
  content : String
  tokens_used : Int
  duration : Nat
deriving DecidableEq, Repr

/-- `session_pool.rs::SessionInfo`; holding an `OwnedSemaphorePermit` is the
boolean `permit`. -/
structure SessionInfo where
  id : String
  state : SessionState
  current_task : Option PoolTask
  started_at : Option Nat
  tasks_completed : Int
  tokens_used : Int
  errors : Int
  permit : Bool
deriving DecidableEq, Repr

/-- `SessionInfo::new`. -/
def SessionInfo.new (id : String) : SessionInfo :=
  { id := id, state := .Idle, current_task := none, started_at := none,
    tasks_completed := 0, tokens_used := 0, errors := 0, permit := false }

/-- `session_pool.rs::TaskQueue`: three priority buckets plus the saturating
`i32` counter that `len()` reports. -/
structure TaskQueue where
  high : List PoolTask
  normal : List PoolTask
  low : List PoolTask
  total : Int
deriving DecidableEq, Repr

def TaskQueue.new : TaskQueue := ⟨[], [], [], 0⟩

/-- `TaskQueue::push`. -/
def TaskQueue.push (q : TaskQueue) (task : PoolTask) : TaskQueue :=
  if 3 ≤ task.priority then
    { q with high := q.high ++ [task], total := satAdd32 q.total 1 }
  else if task.priority = 2 then
    { q with normal := q.normal ++ [task], total := satAdd32 q.total 1 }
  else
    { q with low := q.low ++ [task], total := satAdd32 q.total 1 }

/-- `TaskQueue::push_front`. -/
def TaskQueue.push_front (q : TaskQueue) (task : PoolTask) : TaskQueue :=
  if 3 ≤ task.priority then
    { q with high := task :: q.high, total := satAdd32 q.total 1 }
  else if task.priority = 2 then
    { q with normal := task :: q.normal, total := satAdd32 q.total 1 }
  else
    { q with low := task :: q.low, total := satAdd32 q.total 1 }

/-- `TaskQueue::pop`. -/
def TaskQueue.pop (q : TaskQueue) : Option (PoolTask × TaskQueue) :=
  match q.high with
  | t :: rest => some (t, { q with high := rest, total := satSub32 q.total 1 })
  | [] =>
    match q.normal with
    | t :: rest => some (t, { q with normal := rest, total := satSub32 q.total 1 })
    | [] =>
      match q.low with
      | t :: rest => some (t, { q with low := rest, total := satSub32 q.total 1 })
      | [] => none

/-- `TaskQueue::len` (the `i32` counter, which is what backpressure reads). -/
def TaskQueue.len (q : TaskQueue) : Int := q.total

/-- `session_pool.rs::PoolMetrics`. -/
structure PoolMetrics where
  tasks_submitted : Int
  tasks_completed : Int
  tasks_failed : Int
  total_tokens : Int
  queue_size : Int
  active_sessions : Int
  idle_sessions : Int
  avg_task_duration_ms : Int
  avg_queue_latency_ms : Int
  retry_count : Int
  failure_count : Int
  stuck_count : Int
  migration_count : Int
  backpressure_warnings : Int
  backpressure_rejections : Int
deriving DecidableEq, Repr

/-- `PoolMetrics::default`. -/
def PoolMetrics.default : PoolMetrics :=
  { tasks_submitted := 0, tasks_completed := 0, tasks_failed := 0,
    total_tokens := 0, queue_size := 0, active_sessions := 0, idle_sessions := 0,
    avg_task_duration_ms := 0, avg_queue_latency_ms := 0, retry_count := 0,
    failure_count := 0, stuck_count := 0, migration_count := 0,
    backpressure_warnings := 0, backpressure_rejections := 0 }

/-- `session_pool.rs::PoolError`. -/
inductive PoolError
  | BackpressureFull (current max : Int)
  | NoAvailableSessions
  | SessionStuck (session_id : String)
  | MaxRetriesExceeded (task_id : String) (retries max : Int)
  | ShuttingDown
deriving DecidableEq, Repr

/-- Modelled from the spec: `BudgetAlert` lives in `crate::budget`, which is
not under `src/`; the spec names the two variants the pool raises, both
carrying `{queue_size, limit}`. -/
inductive BudgetAlert
  | BackpressureExceeded (queue_size limit : Int)
  | BackpressureWarning (queue_size limit : Int)
deriving DecidableEq, Repr

/-- `session_pool.rs::MigrationEvent`. -/
structure MigrationEvent where
  from_session : String
  to_session : Option String
  task_id : String
  retry_count : Int
deriving DecidableEq, Repr

/-- The pool's mutable state: its locked/shared fields, with the semaphore as
its number of available permits and the bounded result channel as the list of
undelivered results. -/
structure PoolState where
  config : SessionPoolConfig
  sessions : List (String × SessionInfo)
  queue : TaskQueue
  result_queue : List TaskResult
  permits : Nat
  metrics : PoolMetrics
  backpressure_alert : Option BudgetAlert
  shutdown : Bool
deriving DecidableEq, Repr

/-- The config rewrite at the top of `SessionPool::new`. -/
def SessionPool.new_config (config : SessionPoolConfig) : SessionPoolConfig :=
  if config.backpressure_threshold ≤ 0
      ∨ (config.backpressure_threshold = SessionPoolConfig.default.backpressure_threshold
        ∧ config.max_sessions ≠ SessionPoolConfig.default.max_sessions)
  then { config with backpressure_threshold := config.max_sessions * 10 }
  else config

/-- `mpsc::channel(max_sessions * 2)` with `max_sessions = config.max_sessions.max(1)`. -/
def channelCapacity (cfg : SessionPoolConfig) : Nat := (max cfg.max_sessions 1).toNat * 2

/-- `SessionPool::new`. -/
def SessionPool.new (config : SessionPoolConfig) : PoolState :=
  { config := SessionPool.new_config config,
    sessions := [],
    queue := TaskQueue.new,
    result_queue := [],
    permits := (max (SessionPool.new_config config).max_sessions 1).toNat,
    metrics := PoolMetrics.default,
    backpressure_alert := none,
    shutdown := false }

def countSessions (l : List (String × SessionInfo)) (st : SessionState) : Int :=
  ((l.filter fun pr => pr.2.state = st).length : Int)

/-- `SessionPool::refresh_metrics`. -/
def refresh_metrics (p : PoolState) : PoolState :=
  { p with metrics := { p.metrics with
      queue_size := p.queue.len,
      active_sessions := countSessions p.sessions .Running,
      idle_sessions := countSessions p.sessions .Idle } }

/-- `((threshold as f64) * 0.8).ceil() as i32`, i.e. ⌈4·threshold/5⌉.  The two
agree for every `i32` threshold (`submit` only evaluates it at
`threshold ≥ 1`): `fl(0.8) = 0.8 + 2^-52/5` exactly, so the real product is
`4t/5 + t·2^-52/5`; when `5 ∤ t` the error is far below the `1/5` gap to the
next integer, and when `t = 5m` the product `4m + m·2^-52` rounds back down to
the integer `4m` because `m·2^-52` is under half an ulp of `4m`. -/
def warningThreshold (threshold : Int) : Int := (4 * threshold + 4) / 5

/-- `SessionPool::submit` up to (and including) the post-push metrics update —
everything before the trailing `refresh_metrics`/`dispatch_from_queue`. -/
def submitCore (p : PoolState) (task : PoolTask) : Except PoolError Unit × PoolState :=
  if p.shutdown then (.error .ShuttingDown, p)
  else
    let threshold := max p.config.backpressure_threshold 1
    let warning := warningThreshold threshold
    let current := p.queue.len
    if current ≥ threshold then
      ( .error (.BackpressureFull current threshold),
        { p with
          metrics := { p.metrics with
            backpressure_rejections := satAdd32 p.metrics.backpressure_rejections 1 },
          backpressure_alert := some (.BackpressureExceeded current threshold) } )
    else
      let projected := satAdd32 current 1
      let p1 :=
        if projected ≥ warning then
          { p with
            metrics := { p.metrics with
              backpressure_warnings := satAdd32 p.metrics.backpressure_warnings 1 },
            backpressure_alert := some (.BackpressureWarning projected threshold) }
        else p
      let q2 := p1.queue.push task
      ( .ok (),
        { p1 with
          queue := q2,
          metrics := { p1.metrics with
            tasks_submitted := satAdd64 p1.metrics.tasks_submitted 1,
            queue_size := q2.len } } )

/-- `((avg * (denominator - 1)) + latency) / denominator` with
`denominator = tasks_submitted.max(1)` (`i64` division truncates toward 0). -/
def dispatchLatencyMetrics (p : PoolState) (latency : Int) : PoolState :=
  { p with metrics := { p.metrics with
      avg_queue_latency_ms :=
        Int.tdiv (p.metrics.avg_queue_latency_ms * (max p.metrics.tasks_submitted 1 - 1)
            + latency)
          (max p.metrics.tasks_submitted 1) } }

/-- `SessionPool::dispatch_task`.  `none` models suspension on
`semaphore.acquire_owned().await` when no permit is free; `fresh` stands for
the `Uuid::new_v4()` drawn when a new session is created; the idle session
picked is the first in the list (Rust iterates its `HashMap` in arbitrary
order). -/
def dispatch_task (p : PoolState) (task : PoolTask) (fresh : String) (now : Nat) :
    Option (Except PoolError String × PoolState) :=
  if p.shutdown then some (.error .ShuttingDown, p)
  else if p.permits = 0 then none
  else
    let latency : Int := ((now - task.created_at : Nat) : Int)
    match p.sessions.find? (fun pr => pr.2.state = SessionState.Idle) with
    | some pr =>
      let p1 := { p with
        permits := p.permits - 1,
        sessions := alInsert p.sessions pr.1
          { pr.2 with
            state := .Running, current_task := some task,
            started_at := some now, permit := true } }
      some (.ok pr.1, refresh_metrics (dispatchLatencyMetrics p1 latency))
    | none =>
      if p.sessions.length < (max p.config.max_sessions 1).toNat then
        let info := { SessionInfo.new fresh with
          state := .Running, current_task := some task,
          started_at := some now, permit := true }
        let p1 := { p with permits := p.permits - 1,
                           sessions := alInsert p.sessions fresh info }
        some (.ok fresh, refresh_metrics (dispatchLatencyMetrics p1 latency))
      else
        some (.error .NoAvailableSessions, p)

/-- `SessionPool::dispatch_from_queue`. -/
def dispatch_from_queue (p : PoolState) (fresh : String) (now : Nat) :
    Option (Except PoolError (Option String) × PoolState) :=
  match p.queue.pop with
  | none => some (.ok none, refresh_metrics p)
  | some (task, q1) =>
    let p1 := { p with queue := q1 }
    match dispatch_task p1 task fresh now with
    | none => none
    | some (.ok sid, p2) => some (.ok (some sid), p2)
    | some (.error .NoAvailableSessions, p2) =>
      some (.ok none, refresh_metrics { p2 with queue := p2.queue.push_front task })
    | some (.error e, p2) =>
      some (.error e, refresh_metrics { p2 with queue := p2.queue.push_front task })

/-- `SessionPool::submit`: the core step, then `refresh_metrics` and the
best-effort `dispatch_from_queue` (whose result is discarded). -/
def submit (p : PoolState) (task : PoolTask) (fresh : String) (now : Nat) :
    Option (Except PoolError Unit × PoolState) :=
  match submitCore p task with
  | (.error e, p1) => some (.error e, p1)
  | (.ok _, p1) =>
    match dispatch_from_queue (refresh_metrics p1) fresh now with
    | none => none
    | some (_, p2) => some (.ok (), p2)

/-- The session update performed by `complete_session` on a hit. -/
def completedSession (s : SessionInfo) (result : TaskResult) : SessionInfo :=
  { s with
    state := .Idle, current_task := none, started_at := none,
    tasks_completed := satAdd32 s.tasks_completed 1,
    tokens_used := satAdd64 s.tokens_used result.tokens_used,
    permit := false }

/-- The metrics update performed by `complete_session`. -/
def completeMetrics (m : PoolMetrics) (result : TaskResult) : PoolMetrics :=
  let m1 := if result.success
    then { m with tasks_completed := satAdd64 m.tasks_completed 1 }
    else { m with tasks_failed := satAdd64 m.tasks_failed 1,
                  failure_count := satAdd32 m.failure_count 1 }
  let m2 := { m1 with total_tokens := satAdd64 m1.total_tokens result.tokens_used }
  let completed := max (m2.tasks_completed + m2.tasks_failed) 1
  { m2 with
    avg_task_duration_ms :=
      Int.tdiv (m2.avg_task_duration_ms * (completed - 1) + (result.duration : Int))
        completed }

/-- `result_tx.send(result).await` on the bounded channel: suspends (`none`)
while the channel is full. -/
def channelSend (p : PoolState) (r : TaskResult) : Option PoolState :=
  if p.result_queue.length < channelCapacity p.config
  then some { p with result_queue := p.result_queue ++ [r] }
  else none

/-- `SessionPool::complete_session` on a hit, up to (and including) the
metrics update — before the channel send and the trailing dispatch. -/
def completeCore (p : PoolState) (sid : String) (s : SessionInfo)
    (result : TaskResult) : PoolState :=
  { p with
    sessions := alInsert p.sessions sid (completedSession s result),
    permits := p.permits + (if s.permit then 1 else 0),
    metrics := completeMetrics p.metrics result }

/-- `SessionPool::complete_session`. -/
def complete_session (p : PoolState) (sid : String) (result : TaskResult)
    (fresh : String) (now : Nat) : Option (Except PoolError Unit × PoolState) :=
  match alLookup p.sessions sid with
  | none => some (.error (.SessionStuck sid), p)
  | some s =>
    match channelSend (completeCore p sid s result) result with
    | none => none
    | some p2 =>
      match dispatch_from_queue (refresh_metrics p2) fresh now with
      | none => none
      | some (_, p3) => some (.ok (), p3)

/-- The per-session update of `migrate_stuck`'s detach loop. -/
def detachSession (s : SessionInfo) : SessionInfo :=
  { s with state := .Idle, started_at := none, current_task := none, permit := false }

/-- `task.retries = task.retries.saturating_add(1)`. -/
def bumpRetries (t : PoolTask) : PoolTask := { t with retries := satAdd32 t.retries 1 }

/-- One iteration of `migrate_stuck`'s detach loop: accumulates the updated
session list, the `to_retry` pairs, and the number of permits dropped. -/
def detachStep (acc : List (String × SessionInfo) × List (String × PoolTask) × Nat)
    (pr : String × SessionInfo) :
    List (String × SessionInfo) × List (String × PoolTask) × Nat :=
  if pr.2.state = SessionState.Stuck then
    match pr.2.current_task with
    | some task =>
      (acc.1 ++ [(pr.1, detachSession pr.2)],
       acc.2.1 ++ [(pr.1, bumpRetries task)],
       acc.2.2 + (if pr.2.permit then 1 else 0))
    | none => (acc.1 ++ [pr], acc.2.1, acc.2.2)
  else (acc.1 ++ [pr], acc.2.1, acc.2.2)

/-- The whole detach loop of `migrate_stuck`. -/
def detachPhase (l : List (String × SessionInfo)) :
    List (String × SessionInfo) × List (String × PoolTask) × Nat :=
  l.foldl detachStep ([], [], 0)

/-- The failure `TaskResult` emitted for a task that exhausted its retries. -/
def failResult (from_session : String) (task : PoolTask) : TaskResult :=
  { task_id := task.id, session_id := from_session, success := false,
    content := "max retries exceeded after " ++ toString task.retries ++ " attempts",
    tokens_used := 0, duration := 0 }

/-- One iteration of `migrate_stuck`'s retry loop (`fresh1` for the session
`submit`'s dispatch may create, `fresh2` for the explicit
`dispatch_from_queue`).  Returns the new state and the migration event, if
any, appended for this task. -/
def migrateOne (p : PoolState) (from_session : String) (task : PoolTask)
    (fresh1 fresh2 : String) (now : Nat) : Option (PoolState × Option MigrationEvent) :=
  if p.config.max_retries < task.retries then
    let p1 := { p with metrics := { p.metrics with
        tasks_failed := satAdd64 p.metrics.tasks_failed 1,
        failure_count := satAdd32 p.metrics.failure_count 1 } }
    match channelSend p1 (failResult from_session task) with
    | none => none
    | some p2 => some (p2, none)
  else
    let p1 := { p with metrics := { p.metrics with
        retry_count := satAdd32 p.metrics.retry_count 1 } }
    match submit p1 task fresh1 now with
    | none => none
    | some (_, p2) =>
      match dispatch_from_queue p2 fresh2 now with
      | none => none
      | some (res, p3) =>
        some (p3, some
          { from_session := from_session,
            to_session := match res with
              | .ok (some id) => some id
              | _ => none,
            task_id := task.id,
            retry_count := task.retries })

/-- The retry loop of `migrate_stuck` (`fids` enumerates the fresh UUIDs its
dispatches may draw). -/
def migrateLoop : List (String × PoolTask) → PoolState → (Nat → String) → Nat →
    Nat → List MigrationEvent → Option (List MigrationEvent × PoolState)
  | [], p, _, _, _, acc => some (acc, refresh_metrics p)
  | (fs, task) :: rest, p, fids, now, i, acc =>
    match migrateOne p fs task (fids (2 * i)) (fids (2 * i + 1)) now with
    | none => none
    | some (p1, ev) => migrateLoop rest p1 fids now (i + 1) (acc ++ ev.toList)

/-- `SessionPool::migrate_stuck`. -/
def migrate_stuck (p : PoolState) (fids : Nat → String) (now : Nat) :
    Option (List MigrationEvent × PoolState) :=
  let d := detachPhase p.sessions
  migrateLoop d.2.1 { p with sessions := d.1, permits := p.permits + d.2.2 }
    fids now 0 []

/-! ### Claim C9: effective backpressure threshold -/

/-- Follows the SPEC'S WORDS for C9 (refinement reference, not the source):
recompute as `max_sessions*10` only when the configured threshold equals its
default while `max_sessions` differs from its default; otherwise use the
configured value. -/
def claimed_effective_threshold (config : SessionPoolConfig) : Int :=
  if config.backpressure_threshold = 200 ∧ config.max_sessions ≠ 20
  then config.max_sessions * 10
  else config.backpressure_threshold

/-- C9 counterexample: for `backpressure_threshold = 0` (not the default 200)
with `max_sessions = 20` (the default), the claim's derivation keeps the
configured 0, but `SessionPool::new` also recomputes whenever the configured
value is `≤ 0`, yielding `20 * 10 = 200`. -/
theorem C9_effective_threshold_counterexample :
    (SessionPool.new
        { SessionPoolConfig.default with
          backpressure_threshold := 0 }).config.backpressure_threshold = 200
    ∧ claimed_effective_threshold
        { SessionPoolConfig.default with backpressure_threshold := 0 } = 0
    ∧ (200 : Int) ≠ 0 := by
  refine ⟨rfl, rfl, by decide⟩

/-- C9 as amended: the effective threshold is recomputed as `max_sessions*10`
when the configured value is `≤ 0` OR equals the default 200 while
`max_sessions` differs from its default 20; otherwise the configured value is
kept (so for positive configured thresholds the claim's derivation agrees);
and `submit` admits against the effective value clamped to at least 1,
rejecting with `BackpressureFull` exactly when the queue length reaches it. -/
theorem C9_effective_threshold (config : SessionPoolConfig) :
    ((SessionPool.new config).config.backpressure_threshold
        = if config.backpressure_threshold ≤ 0
              ∨ (config.backpressure_threshold = 200 ∧ config.max_sessions ≠ 20)
          then config.max_sessions * 10
          else config.backpressure_threshold)
    ∧ (0 < config.backpressure_threshold →
        claimed_effective_threshold config
          = (SessionPool.new config).config.backpressure_threshold)
    ∧ ∀ (p : PoolState) (task : PoolTask), p.shutdown = false →
        ((submitCore p task).1
            = .error (.BackpressureFull p.queue.len
                (max p.config.backpressure_threshold 1))
          ↔ max p.config.backpressure_threshold 1 ≤ p.queue.len) := by
  refine ⟨?_, ?_, ?_⟩
  · show (SessionPool.new_config config).backpressure_threshold = _
    unfold SessionPool.new_config
    simp only [SessionPoolConfig.default]
    by_cases h : config.backpressure_threshold ≤ 0
        ∨ (config.backpressure_threshold = 200 ∧ config.max_sessions ≠ 20)
    · rw [if_pos h, if_pos h]
    · rw [if_neg h, if_neg h]
  · intro hpos
    show claimed_effective_threshold config
      = (SessionPool.new_config config).backpressure_threshold
    unfold claimed_effective_threshold SessionPool.new_config
    simp only [SessionPoolConfig.default]
    by_cases h2 : config.backpressure_threshold = 200 ∧ config.max_sessions ≠ 20
    · rw [if_pos h2, if_pos (Or.inr h2)]
    · rw [if_neg h2, if_neg (fun hc => hc.elim (fun hle => by omega) h2)]
  · intro p task hsd
    simp only [submitCore, hsd]
    by_cases hge : p.queue.len ≥ max p.config.backpressure_threshold 1
    · rw [if_pos hge]
      exact iff_of_true rfl hge
    · rw [if_neg hge]
      exact iff_of_false (fun h => Except.noConfusion h) hge

def cfgW9 : SessionPoolConfig :=
  { SessionPoolConfig.default with backpressure_threshold := 1 }

def taskW9 : PoolTask :=
  { id := "t", prompt := "goal", priority := 1, retries := 0, created_at := 0 }

/-- Witness for C9 (amended) on the default config and an empty pool with
threshold 1. -/
theorem C9_effective_threshold_witness :
    ((0 : Int) < SessionPoolConfig.default.backpressure_threshold
      ∧ claimed_effective_threshold SessionPoolConfig.default
          = (SessionPool.new SessionPoolConfig.default).config.backpressure_threshold)
    ∧ (SessionPool.new cfgW9).shutdown = false
    ∧ ((submitCore (SessionPool.new cfgW9) taskW9).1
          = .error (.BackpressureFull (SessionPool.new cfgW9).queue.len
              (max (SessionPool.new cfgW9).config.backpressure_threshold 1))
        ↔ max (SessionPool.new cfgW9).config.backpressure_threshold 1
            ≤ (SessionPool.new cfgW9).queue.len) :=
  ⟨⟨by decide, (C9_effective_threshold SessionPoolConfig.default).2.1 (by decide)⟩,
   rfl,
   (C9_effective_threshold cfgW9).2.2 (SessionPool.new cfgW9) taskW9 rfl⟩

/-! ### Claim C1: submit backpressure -/

theorem TaskQueue.push_len (q : TaskQueue) (task : PoolTask) :
    (q.push task).len = satAdd32 q.len 1 := by
  unfold TaskQueue.push TaskQueue.len
  split_ifs <;> rfl

/-- C1: on a pool that is not shutting down, with
`threshold = max(backpressure_threshold, 1)` and `warning = ⌈threshold·0.8⌉`:
the submission phase returns `BackpressureFull{current, max: threshold}` iff
the queue length is ≥ threshold at call time, in which case
`backpressure_rejections` is bumped, the alert slot is set to
`BackpressureExceeded{queue_size, limit}`, nothing is enqueued, and the full
`submit` returns that very outcome; otherwise the task is pushed,
`tasks_submitted` is bumped, and `backpressure_warnings` is bumped with a
`BackpressureWarning` alert exactly when the post-push size reaches the
warning threshold. -/
theorem C1_submit_backpressure (p : PoolState) (task : PoolTask)
    (hsd : p.shutdown = false) :
    ((submitCore p task).1
        = .error (.BackpressureFull p.queue.len
            (max p.config.backpressure_threshold 1))
      ↔ p.queue.len ≥ max p.config.backpressure_threshold 1)
    ∧ (p.queue.len ≥ max p.config.backpressure_threshold 1 →
        submitCore p task
          = ( .error (.BackpressureFull p.queue.len
                (max p.config.backpressure_threshold 1)),
              { p with
                metrics := { p.metrics with
                  backpressure_rejections :=
                    satAdd32 p.metrics.backpressure_rejections 1 },
                backpressure_alert := some (.BackpressureExceeded p.queue.len
                  (max p.config.backpressure_threshold 1)) } )
        ∧ ∀ (fresh : String) (now : Nat),
            submit p task fresh now = some (submitCore p task))
    ∧ (¬ p.queue.len ≥ max p.config.backpressure_threshold 1 →
        (submitCore p task).1 = .ok ()
        ∧ (submitCore p task).2.queue = p.queue.push task
        ∧ (p.queue.push task).len = satAdd32 p.queue.len 1
        ∧ (submitCore p task).2.metrics.tasks_submitted
            = satAdd64 p.metrics.tasks_submitted 1
        ∧ (submitCore p task).2.metrics.queue_size = (p.queue.push task).len
        ∧ (submitCore p task).2.metrics.backpressure_rejections
            = p.metrics.backpressure_rejections
        ∧ ((submitCore p task).2.metrics.backpressure_warnings
            = if satAdd32 p.queue.len 1
                  ≥ warningThreshold (max p.config.backpressure_threshold 1)
              then satAdd32 p.metrics.backpressure_warnings 1
              else p.metrics.backpressure_warnings)
        ∧ ((submitCore p task).2.backpressure_alert
            = if satAdd32 p.queue.len 1
                  ≥ warningThreshold (max p.config.backpressure_threshold 1)
              then some (.BackpressureWarning (satAdd32 p.queue.len 1)
                  (max p.config.backpressure_threshold 1))
              else p.backpressure_alert)) := by
  have hcore_rej : p.queue.len ≥ max p.config.backpressure_threshold 1 →
      submitCore p task
        = ( .error (.BackpressureFull p.queue.len
              (max p.config.backpressure_threshold 1)),
            { p with
              metrics := { p.metrics with
                backpressure_rejections :=
                  satAdd32 p.metrics.backpressure_rejections 1 },
              backpressure_alert := some (.BackpressureExceeded p.queue.len
                (max p.config.backpressure_threshold 1)) } ) := by
    intro hge
    simp only [submitCore, hsd]
    rw [if_pos hge]
    rfl
  refine ⟨?_, ?_, ?_⟩
  · by_cases hge : p.queue.len ≥ max p.config.backpressure_threshold 1
    · refine iff_of_true ?_ hge
      rw [hcore_rej hge]
    · refine iff_of_false ?_ hge
      simp only [submitCore, hsd]
      rw [if_neg hge]
      exact fun h => Except.noConfusion h
  · intro hge
    refine ⟨hcore_rej hge, ?_⟩
    intro fresh now
    unfold submit
    rw [hcore_rej hge]
  · intro hge
    simp only [submitCore, hsd]
    rw [if_neg hge]
    by_cases hw : satAdd32 p.queue.len 1
        ≥ warningThreshold (max p.config.backpressure_threshold 1)
    · rw [if_pos hw, if_pos hw, if_pos hw]
      exact ⟨rfl, rfl, TaskQueue.push_len p.queue task, rfl, rfl, rfl, rfl, rfl⟩
    · rw [if_neg hw, if_neg hw, if_neg hw]
      exact ⟨rfl, rfl, TaskQueue.push_len p.queue task, rfl, rfl, rfl, rfl, rfl⟩

def cfgW1 : SessionPoolConfig :=
  { SessionPoolConfig.default with backpressure_threshold := 1 }

def taskW1 : PoolTask :=
  { id := "t1", prompt := "goal", priority := 1, retries := 0, created_at := 0 }

def pW1 : PoolState :=
  { SessionPool.new cfgW1 with queue := TaskQueue.push TaskQueue.new taskW1 }

/-- Witness for C1: a pool with threshold 1 and one queued task rejects the
next submission and records the rejection. -/
theorem C1_submit_backpressure_witness :
    pW1.shutdown = false
    ∧ pW1.queue.len ≥ max pW1.config.backpressure_threshold 1
    ∧ ( submitCore pW1 taskW1
          = ( .error (.BackpressureFull pW1.queue.len
                (max pW1.config.backpressure_threshold 1)),
              { pW1 with
                metrics := { pW1.metrics with
                  backpressure_rejections :=
                    satAdd32 pW1.metrics.backpressure_rejections 1 },
                backpressure_alert := some (.BackpressureExceeded pW1.queue.len
                  (max pW1.config.backpressure_threshold 1)) } )
        ∧ ∀ (fresh : String) (now : Nat),
            submit pW1 taskW1 fresh now = some (submitCore pW1 taskW1) ) :=
  ⟨rfl, by decide,
   (C1_submit_backpressure pW1 taskW1 rfl).2.1 (by decide)⟩

/-! ### Claim C8: complete_session -/

/-- C8: on an unknown session id, `complete_session` returns
`SessionStuck{session_id}` with the pool state untouched (no session record,
metric, or channel message changes).  On a hit, up to the channel send (with
the trailing dispatch factored out as in C1): the session is reset to Idle
with task and start time cleared, its per-session counters accumulate, its
permit is released back to the semaphore, other sessions are untouched, the
pool counters accumulate by `result.success`, `total_tokens` accumulates, and
— whenever the bounded completion channel has room — the `TaskResult` is
appended to it. -/
theorem C8_complete_session (p : PoolState) (sid : String) (result : TaskResult)
    (fresh : String) (now : Nat) :
    (alLookup p.sessions sid = none →
      complete_session p sid result fresh now = some (.error (.SessionStuck sid), p))
    ∧ ∀ s, alLookup p.sessions sid = some s →
        alLookup (completeCore p sid s result).sessions sid
            = some (completedSession s result)
        ∧ (completedSession s result).state = .Idle
        ∧ (completedSession s result).current_task = none
        ∧ (completedSession s result).started_at = none
        ∧ (completedSession s result).tasks_completed = satAdd32 s.tasks_completed 1
        ∧ (completedSession s result).tokens_used
            = satAdd64 s.tokens_used result.tokens_used
        ∧ (completedSession s result).permit = false
        ∧ (completeCore p sid s result).permits
            = p.permits + (if s.permit then 1 else 0)
        ∧ (∀ id, id ≠ sid →
            alLookup (completeCore p sid s result).sessions id
              = alLookup p.sessions id)
        ∧ (completeCore p sid s result).metrics.tasks_completed
            = (if result.success then satAdd64 p.metrics.tasks_completed 1
               else p.metrics.tasks_completed)
        ∧ (completeCore p sid s result).metrics.tasks_failed
            = (if result.success then p.metrics.tasks_failed
               else satAdd64 p.metrics.tasks_failed 1)
        ∧ (completeCore p sid s result).metrics.failure_count
            = (if result.success then p.metrics.failure_count
               else satAdd32 p.metrics.failure_count 1)
        ∧ (completeCore p sid s result).metrics.total_tokens
            = satAdd64 p.metrics.total_tokens result.tokens_used
        ∧ (completeCore p sid s result).queue = p.queue
        ∧ (p.result_queue.length < channelCapacity p.config →
            channelSend (completeCore p sid s result) result
              = some { completeCore p sid s result with
                  result_queue := p.result_queue ++ [result] }) := by
  constructor
  · intro hnone
    unfold complete_session
    rw [hnone]
  · intro s hs
    have hchan : p.result_queue.length < channelCapacity p.config →
        channelSend (completeCore p sid s result) result
          = some { completeCore p sid s result with
              result_queue := p.result_queue ++ [result] } := by
      intro hlt
      have h1 : (completeCore p sid s result).result_queue = p.result_queue := rfl
      have h2 : (completeCore p sid s result).config = p.config := rfl
      unfold channelSend
      rw [h1, h2, if_pos hlt]
      rfl
    refine ⟨?_, rfl, rfl, rfl, rfl, rfl, rfl, rfl, ?_, ?_, ?_, ?_, ?_, rfl, hchan⟩
    · show alLookup (alInsert p.sessions sid (completedSession s result)) sid = _
      rw [alLookup_alInsert, if_pos rfl]
    · intro id hid
      show alLookup (alInsert p.sessions sid (completedSession s result)) id = _
      rw [alLookup_alInsert, if_neg hid]
    · show (completeMetrics p.metrics result).tasks_completed = _
      cases hsucc : result.success <;> simp [completeMetrics, hsucc]
    · show (completeMetrics p.metrics result).tasks_failed = _
      cases hsucc : result.success <;> simp [completeMetrics, hsucc]
    · show (completeMetrics p.metrics result).failure_count = _
      cases hsucc : result.success <;> simp [completeMetrics, hsucc]
    · show (completeMetrics p.metrics result).total_tokens = _
      cases hsucc : result.success <;> simp [completeMetrics, hsucc]

def sessW8 : SessionInfo :=
  { SessionInfo.new "s1" with state := .Running, permit := true }

def pW8 : PoolState :=
  { SessionPool.new cfgW1 with sessions := [("s1", sessW8)] }

def resW8 : TaskResult :=
  { task_id := "t1", session_id := "s1", success := true, content := "done",
    tokens_used := 7, duration := 5 }

/-- Witness for C8 on a one-session pool: the not-found half at id "nope" and
the found half at "s1". -/
theorem C8_complete_session_witness :
    (alLookup pW8.sessions "nope" = none
      ∧ complete_session pW8 "nope" resW8 "f" 0
          = some (.error (.SessionStuck "nope"), pW8))
    ∧ (alLookup pW8.sessions "s1" = some sessW8
      ∧ alLookup (completeCore pW8 "s1" sessW8 resW8).sessions "s1"
          = some (completedSession sessW8 resW8)) := by
  refine ⟨⟨by decide, ?_⟩, by decide, ?_⟩
  · exact (C8_complete_session pW8 "nope" resW8 "f" 0).1 (by decide)
  · exact ((C8_complete_session pW8 "s1" resW8 "f" 0).2 sessW8 (by decide)).1

/-! ### Claim C2: migrate_stuck -/

theorem detachPhase_go (l : List (String × SessionInfo)) :
    ∀ (a : List (String × SessionInfo)) (b : List (String × PoolTask)) (c : Nat),
      l.foldl detachStep (a, b, c)
        = (a ++ l.map (fun pr =>
              if pr.2.state = SessionState.Stuck ∧ pr.2.current_task.isSome
              then (pr.1, detachSession pr.2) else pr),
           b ++ l.filterMap (fun pr =>
              match pr.2.current_task with
              | some t => if pr.2.state = SessionState.Stuck
                  then some (pr.1, bumpRetries t) else none
              | none => none),
           c + (l.filter (fun pr =>
              pr.2.state = SessionState.Stuck ∧ pr.2.current_task.isSome
                ∧ pr.2.permit)).length) := by
  induction l with
  | nil =>
    intro a b c
    simp
  | cons pr l ih =>
    intro a b c
    rw [List.foldl_cons]
    cases hct : pr.2.current_task with
    | some t =>
      by_cases hst : pr.2.state = SessionState.Stuck
      · have hds : detachStep (a, b, c) pr
            = (a ++ [(pr.1, detachSession pr.2)], b ++ [(pr.1, bumpRetries t)],
               c + (if pr.2.permit then 1 else 0)) := by
          simp only [detachStep, hct]
          rw [if_pos hst]
        rw [hds, ih]
        simp only [List.map_cons, List.filterMap_cons, List.filter_cons, hct, hst,
          Prod.mk.injEq]
        refine ⟨by simp [List.append_assoc], by simp [List.append_assoc], ?_⟩
        by_cases hp : pr.2.permit = true
        · simp [hp]
          omega
        · simp [hp]
      · have hds : detachStep (a, b, c) pr = (a ++ [pr], b, c) := by
          simp only [detachStep, hct]
          rw [if_neg hst]
        rw [hds, ih]
        simp only [List.map_cons, List.filterMap_cons, List.filter_cons, hct, hst,
          Prod.mk.injEq]
        exact ⟨by simp [List.append_assoc], by simp, by simp⟩
    | none =>
      have hds : detachStep (a, b, c) pr = (a ++ [pr], b, c) := by
        simp only [detachStep, hct]
        by_cases hst : pr.2.state = SessionState.Stuck
        · rw [if_pos hst]
        · rw [if_neg hst]
      rw [hds, ih]
      simp only [List.map_cons, List.filterMap_cons, List.filter_cons, hct,
        Prod.mk.injEq]
      exact ⟨by simp [List.append_assoc], by simp, by simp⟩

theorem submitCore_metrics_retry (p : PoolState) (task : PoolTask) :
    (submitCore p task).2.metrics.retry_count = p.metrics.retry_count := by
  dsimp only [submitCore]
  split_ifs <;> rfl

theorem dispatch_task_metrics_retry (q : PoolState) (task : PoolTask) (f : String)
    (now : Nat) (res : Except PoolError String) (q' : PoolState)
    (h : dispatch_task q task f now = some (res, q')) :
    q'.metrics.retry_count = q.metrics.retry_count := by
  unfold dispatch_task at h
  split at h
  · simp only [Option.some.injEq, Prod.mk.injEq] at h
    obtain ⟨-, rfl⟩ := h
    rfl
  · split at h
    · exact Option.noConfusion h
    · split at h
      · simp only [Option.some.injEq, Prod.mk.injEq] at h
        obtain ⟨-, rfl⟩ := h
        rfl
      · split at h
        · simp only [Option.some.injEq, Prod.mk.injEq] at h
          obtain ⟨-, rfl⟩ := h
          rfl
        · simp only [Option.some.injEq, Prod.mk.injEq] at h
          obtain ⟨-, rfl⟩ := h
          rfl

theorem dispatch_from_queue_metrics_retry (q : PoolState) (f : String) (now : Nat)
    (res : Except PoolError (Option String)) (q' : PoolState)
    (h : dispatch_from_queue q f now = some (res, q')) :
    q'.metrics.retry_count = q.metrics.retry_count := by
  unfold dispatch_from_queue at h
  cases hpop : q.queue.pop with
  | none =>
    simp only [hpop] at h
    simp only [Option.some.injEq, Prod.mk.injEq] at h
    obtain ⟨-, rfl⟩ := h
    rfl
  | some pr =>
    simp only [hpop] at h
    cases hdt : dispatch_task { q with queue := pr.2 } pr.1 f now with
    | none =>
      rw [hdt] at h
      exact Option.noConfusion h
    | some r =>
      obtain ⟨re, p2⟩ := r
      have hret : p2.metrics.retry_count = q.metrics.retry_count :=
        dispatch_task_metrics_retry { q with queue := pr.2 } pr.1 f now re p2 hdt
      rw [hdt] at h
      cases re with
      | ok sid =>
        simp only [Option.some.injEq, Prod.mk.injEq] at h
        obtain ⟨-, rfl⟩ := h
        exact hret
      | error e =>
        cases e <;>
          · simp only [Option.some.injEq, Prod.mk.injEq] at h
            obtain ⟨-, rfl⟩ := h
            exact hret

theorem submit_metrics_retry (p : PoolState) (task : PoolTask) (f : String)
    (now : Nat) (res : Except PoolError Unit) (p' : PoolState)
    (h : submit p task f now = some (res, p')) :
    p'.metrics.retry_count = p.metrics.retry_count := by
  unfold submit at h
  cases hsc : submitCore p task with
  | mk r1 p1 =>
    have hp1 : p1.metrics.retry_count = p.metrics.retry_count := by
      have := submitCore_metrics_retry p task
      rw [hsc] at this
      exact this
    simp only [hsc] at h
    cases r1 with
    | error e =>
      simp only [Option.some.injEq, Prod.mk.injEq] at h
      obtain ⟨-, rfl⟩ := h
      exact hp1
    | ok u =>
      cases hdq : dispatch_from_queue (refresh_metrics p1) f now with
      | none =>
        simp only [hdq] at h
        exact Option.noConfusion h
      | some r2 =>
        obtain ⟨re2, p2⟩ := r2
        have hret : p2.metrics.retry_count = (refresh_metrics p1).metrics.retry_count :=
          dispatch_from_queue_metrics_retry (refresh_metrics p1) f now re2 p2 hdq
        simp only [hdq] at h
        simp only [Option.some.injEq, Prod.mk.injEq] at h
        obtain ⟨-, rfl⟩ := h
        rw [hret]
        exact hp1

/-- C2: `migrate_stuck`.  (1) The detach loop turns exactly the
Stuck-with-task sessions into their detached form (Idle, no task, no start
time, permit dropped — dropping as many permits as such sessions held one)
and collects their tasks in order with `retries` bumped by a saturating 1,
leaving every other session untouched; (2–3) the detached shape and the bump;
(4) `migrate_stuck` runs the retry loop on that output; (5) a collected task
whose bumped retries exceed `max_retries` produces no `MigrationEvent`, bumps
`tasks_failed` and `failure_count`, does not touch the queue, and (channel
permitting) emits a failed `TaskResult` with content
"max retries exceeded after <retries> attempts", zero tokens and duration,
and the stuck session's id; (6) otherwise, whenever the iteration completes, a
`MigrationEvent{from_session, to_session?, task_id, retry_count}` is produced
for it and `retry_count` ends up bumped by one — regardless of whether the
silent re-`submit` was accepted or rejected by backpressure. -/
theorem C2_migrate_stuck :
    (∀ l : List (String × SessionInfo),
        detachPhase l
          = (l.map (fun pr =>
                if pr.2.state = SessionState.Stuck ∧ pr.2.current_task.isSome
                then (pr.1, detachSession pr.2) else pr),
             l.filterMap (fun pr =>
                match pr.2.current_task with
                | some t => if pr.2.state = SessionState.Stuck
                    then some (pr.1, bumpRetries t) else none
                | none => none),
             (l.filter (fun pr =>
                pr.2.state = SessionState.Stuck ∧ pr.2.current_task.isSome
                  ∧ pr.2.permit)).length))
    ∧ (∀ s : SessionInfo, (detachSession s).state = .Idle
        ∧ (detachSession s).current_task = none
        ∧ (detachSession s).started_at = none
        ∧ (detachSession s).permit = false)
    ∧ (∀ t : PoolTask, (bumpRetries t).retries = satAdd32 t.retries 1)
    ∧ (∀ (p : PoolState) (fids : Nat → String) (now : Nat),
        migrate_stuck p fids now
          = migrateLoop (detachPhase p.sessions).2.1
              { p with sessions := (detachPhase p.sessions).1,
                       permits := p.permits + (detachPhase p.sessions).2.2 }
              fids now 0 [])
    ∧ (∀ (p : PoolState) (fs : String) (task : PoolTask) (f1 f2 : String) (now : Nat),
        p.config.max_retries < task.retries →
        p.result_queue.length < channelCapacity p.config →
        migrateOne p fs task f1 f2 now
          = some ({ p with
              metrics := { p.metrics with
                tasks_failed := satAdd64 p.metrics.tasks_failed 1,
                failure_count := satAdd32 p.metrics.failure_count 1 },
              result_queue := p.result_queue ++ [failResult fs task] }, none)
        ∧ (failResult fs task).success = false
        ∧ (failResult fs task).content
            = "max retries exceeded after " ++ toString task.retries ++ " attempts"
        ∧ (failResult fs task).session_id = fs
        ∧ (failResult fs task).task_id = task.id
        ∧ (failResult fs task).tokens_used = 0
        ∧ (failResult fs task).duration = 0)
    ∧ (∀ (p : PoolState) (fs : String) (task : PoolTask) (f1 f2 : String) (now : Nat)
        (p3 : PoolState) (ev : Option MigrationEvent),
        ¬ p.config.max_retries < task.retries →
        migrateOne p fs task f1 f2 now = some (p3, ev) →
        (∃ dest, ev = some (MigrationEvent.mk fs dest task.id task.retries))
        ∧ p3.metrics.retry_count = satAdd32 p.metrics.retry_count 1) := by
  refine ⟨?_, ?_, ?_, ?_, ?_, ?_⟩
  · intro l
    simpa [detachPhase] using detachPhase_go l [] [] 0
  · intro s
    exact ⟨rfl, rfl, rfl, rfl⟩
  · intro t
    rfl
  · intro p fids now
    rfl
  · intro p fs task f1 f2 now hr hcap
    have key : migrateOne p fs task f1 f2 now
        = some ({ p with
            metrics := { p.metrics with
              tasks_failed := satAdd64 p.metrics.tasks_failed 1,
              failure_count := satAdd32 p.metrics.failure_count 1 },
            result_queue := p.result_queue ++ [failResult fs task] }, none) := by
      unfold migrateOne
      rw [if_pos hr]
      dsimp only [channelSend]
      rw [if_pos hcap]
    exact ⟨key, rfl, rfl, rfl, rfl, rfl, rfl⟩
  · intro p fs task f1 f2 now p3 ev hnr h
    unfold migrateOne at h
    rw [if_neg hnr] at h
    simp only [] at h
    cases hsub : submit { p with metrics := { p.metrics with
        retry_count := satAdd32 p.metrics.retry_count 1 } } task f1 now with
    | none =>
      simp only [hsub] at h
      exact Option.noConfusion h
    | some r =>
      obtain ⟨rs, p2⟩ := r
      have hsr : p2.metrics.retry_count = satAdd32 p.metrics.retry_count 1 :=
        submit_metrics_retry _ task f1 now rs p2 hsub
      simp only [hsub] at h
      cases hdq : dispatch_from_queue p2 f2 now with
      | none =>
        simp only [hdq] at h
        exact Option.noConfusion h
      | some r2 =>
        obtain ⟨res2, p3'⟩ := r2
        have hdr : p3'.metrics.retry_count = p2.metrics.retry_count :=
          dispatch_from_queue_metrics_retry p2 f2 now res2 p3' hdq
        simp only [hdq] at h
        simp only [Option.some.injEq, Prod.mk.injEq] at h
        obtain ⟨rfl, rfl⟩ := h
        refine ⟨⟨_, rfl⟩, ?_⟩
        rw [hdr]
        exact hsr

def pW2 : PoolState := SessionPool.new cfgW1

def taskW2 : PoolTask :=
  { id := "t2", prompt := "x", priority := 1, retries := 4, created_at := 0 }

/-- Witness for C2's exhausted-retries branch on a fresh pool (max_retries 3)
and a task with 4 retries. -/
theorem C2_migrate_stuck_witness :
    pW2.config.max_retries < taskW2.retries
    ∧ pW2.result_queue.length < channelCapacity pW2.config
    ∧ (migrateOne pW2 "s1" taskW2 "f1" "f2" 0
        = some ({ pW2 with
            metrics := { pW2.metrics with
              tasks_failed := satAdd64 pW2.metrics.tasks_failed 1,
              failure_count := satAdd32 pW2.metrics.failure_count 1 },
            result_queue := pW2.result_queue ++ [failResult "s1" taskW2] }, none)
      ∧ (failResult "s1" taskW2).success = false
      ∧ (failResult "s1" taskW2).content
          = "max retries exceeded after " ++ toString taskW2.retries ++ " attempts"
      ∧ (failResult "s1" taskW2).session_id = "s1"
      ∧ (failResult "s1" taskW2).task_id = taskW2.id
      ∧ (failResult "s1" taskW2).tokens_used = 0
      ∧ (failResult "s1" taskW2).duration = 0) :=
  ⟨by decide, by decide,
   C2_migrate_stuck.2.2.2.2.1 pW2 "s1" taskW2 "f1" "f2" 0 (by decide) (by decide)⟩

end Pool

end AutoDrive
